import Mathlib

/-!
A verification development for the `crawl.py` streaming XML-to-CSV reducer of
the dumpster-diver repository.  Python strings are modelled as `List Char`
(Python `str` is a sequence of code points); machine-level I/O (file handles,
the log file) is modelled by accumulating the written CSV lines and the log
events in the crawler state.  Fallible Python code (attribute access on
`None`, `",".join` over a tuple containing `None`, subscripting a missing
dict key, parsing) is modelled with `Except PyErr`.  The SHA1 hex digest from
`hashlib` is an external primitive; all definitions are parameterised over it
as `H : Str -> Str` (nothing in the claims depends on the digest contents).
Log messages are modelled as tags (`LogMsg`) recording which logging site
fired; the formatted message text itself is not modelled.
-/

deriving instance DecidableEq for Except

namespace DumpsterDiver

/-- Python strings as lists of code points. -/
abbrev Str := List Char

/-- The whitespace set of Python's `str.strip` / `str.lstrip`. -/
def isPySpace (c : Char) : Bool :=
  c = ' ' || c = '\t' || c = '\n' || c = '\r' || c = '\x0b' || c = '\x0c'

/-- Python `str.lstrip()`. -/
def pyLstrip (l : Str) : Str := l.dropWhile isPySpace

/-- Python `str.rstrip()`. -/
def pyRstrip (l : Str) : Str := (l.reverse.dropWhile isPySpace).reverse

/-- Python `str.strip()`. -/
def pyStrip (l : Str) : Str := pyRstrip (pyLstrip l)

/-- Python `str.find(c)` for a single-character needle: index or `-1`. -/
def pyFind (l : Str) (c : Char) : Int :=
  match l.findIdx? (· = c) with
  | some i => (i : Int)
  | none => -1

/-- Python `s.split(c, 1)` when the separator occurs: the two parts.
`none` when the separator does not occur (Python would return `[s]`). -/
def splitOnce : Str → Char → Option (Str × Str)
  | [], _ => none
  | x :: xs, c =>
    if x = c then some ([], xs)
    else
      match splitOnce xs c with
      | none => none
      | some (a, b) => some (x :: a, b)

/-- Python `s.split(c)` (single-character separator, all occurrences). -/
def splitAll : Str → Char → List Str
  | [], _ => [[]]
  | x :: xs, c =>
    match splitAll xs c with
    | [] => [[]]
    | h :: t => if x = c then [] :: h :: t else (x :: h) :: t

/-- Python `sep.join(pieces)` for pieces that are all strings. -/
def joinSep (sep : Str) : List Str → Str
  | [] => []
  | [a] => a
  | a :: b :: t => a ++ sep ++ joinSep sep (b :: t)

/-- Python exceptions that the modelled code can raise. -/
inductive PyErr where
  | attributeError
  | typeError
  | indexError
  | keyError
  | valueError
  | unicodeDecodeError
  | binasciiError
deriving DecidableEq

/-- Python `sep.join(tuple)` where a tuple slot may hold `None`:
joining raises `TypeError` if any piece is not a string. -/
def pyJoinOpt (sep : Str) (pieces : List (Option Str)) : Except PyErr Str :=
  if pieces.all (·.isSome) then .ok (joinSep sep (pieces.map (·.getD [])))
  else .error .typeError

/-- Python `s.count(c)` for a single character. -/
def countChar (l : Str) (c : Char) : Nat := (l.filter (· = c)).length

/-- The decimal digit character for `n % 10`. -/
def digitChar (n : Nat) : Char := Char.ofNat (48 + n % 10)

/-- Decimal rendering of a natural number, fuel-driven so that it reduces
definitionally (models Python `str(n)` / `"{}".format(n)` on a `Nat`). -/
def natToStrAux : Nat → Nat → Str
  | 0, _ => []
  | fuel + 1, n =>
    if n < 10 then [digitChar n]
    else natToStrAux fuel (n / 10) ++ [digitChar (n % 10)]

/-- Python `str(n)` for a natural number. -/
def natToStr (n : Nat) : Str := natToStrAux (n + 1) n

/-- Numeric value of a digit character. -/
def digitVal (c : Char) : Nat := c.toNat - 48

/-- Reading a decimal digit string back as a number. -/
def strToNat (l : Str) : Nat := l.foldl (fun a c => a * 10 + digitVal c) 0

/-- Python `int(s)` restricted to plain digit strings (the forms the
crawler itself writes); anything else raises `ValueError`. -/
def pyParseInt (l : Str) : Option Nat :=
  if l ≠ [] ∧ l.all Char.isDigit then some (strToNat l) else none

/-! ### base64 (`base64.b64encode` / `base64.b64decode`) over byte lists -/

/-- The base64 alphabet. -/
def b64chars : Str :=
  "ABCDEFGHIJKLMNOPQRSTUVWXYZabcdefghijklmnopqrstuvwxyz0123456789+/".toList

/-- The base64 character for a 6-bit value. -/
def b64char (n : Nat) : Char := b64chars.getD n 'A'

/-- The 6-bit value of a base64 character (64 as a sentinel otherwise). -/
def b64val (c : Char) : Nat := (b64chars.findIdx? (· = c)).getD 64

/-- `base64.b64encode` on a byte list, as the ASCII characters of the
encoding (the subsequent `.decode("utf-8")` of the source is the identity
on this alphabet). -/
def b64encode : List Nat → Str
  | [] => []
  | [a] => [b64char (a / 4), b64char (a % 4 * 16), '=', '=']
  | [a, b] => [b64char (a / 4), b64char (a % 4 * 16 + b / 16), b64char (b % 16 * 4), '=']
  | a :: b :: c :: rest =>
    b64char (a / 4) :: b64char (a % 4 * 16 + b / 16) ::
      b64char (b % 16 * 4 + c / 64) :: b64char (c % 64) :: b64encode rest

/-- `base64.b64decode` on the characters of an encoding; `none` models
`binascii.Error` (the model does not reproduce CPython's tolerance of
non-alphabet characters, which the crawler never produces). -/
def b64decode : Str → Option (List Nat)
  | [] => some []
  | c1 :: c2 :: c3 :: c4 :: rest =>
    if c3 = '=' ∧ c4 = '=' ∧ rest = [] then some [b64val c1 * 4 + b64val c2 / 16]
    else if c4 = '=' ∧ rest = [] then
      some [b64val c1 * 4 + b64val c2 / 16, b64val c2 % 16 * 16 + b64val c3 / 4]
    else
      (b64decode rest).map
        (fun bs => (b64val c1 * 4 + b64val c2 / 16) ::
          (b64val c2 % 16 * 16 + b64val c3 / 4) :: (b64val c3 % 4 * 64 + b64val c4) :: bs)
  | _ => none

/-! ### UTF-8 (`str.encode("utf-8")` / `bytes.decode("utf-8")`) -/

/-- UTF-8 encoding of one code point. -/
def utf8EncodeChar (n : Nat) : List Nat :=
  if n < 128 then [n]
  else if n < 2048 then [192 + n / 64, 128 + n % 64]
  else if n < 65536 then [224 + n / 4096, 128 + n / 64 % 64, 128 + n % 64]
  else [240 + n / 262144, 128 + n / 4096 % 64, 128 + n / 64 % 64, 128 + n % 64]

/-- Python `s.encode("utf-8")` (every Lean `Char` is a Unicode scalar
value, so encoding never fails here). -/
def utf8Encode : Str → List Nat
  | [] => []
  | c :: t => utf8EncodeChar c.toNat ++ utf8Encode t

/-- Strict UTF-8 decoding, fuel-driven (one unit of fuel per decoded
character); `none` models `UnicodeDecodeError`. -/
def utf8DecodeAux : Nat → List Nat → Option Str
  | _, [] => some []
  | 0, _ :: _ => none
  | fuel + 1, b :: bs =>
    if b < 128 then (utf8DecodeAux fuel bs).map (Char.ofNat b :: ·)
    else if b < 192 then none
    else if b < 224 then
      match bs with
      | b2 :: bs2 =>
        if 128 ≤ b2 ∧ b2 < 192 then
          let n := (b - 192) * 64 + (b2 - 128)
          if n < 128 then none else (utf8DecodeAux fuel bs2).map (Char.ofNat n :: ·)
        else none
      | [] => none
    else if b < 240 then
      match bs with
      | b2 :: b3 :: bs3 =>
        if 128 ≤ b2 ∧ b2 < 192 ∧ 128 ≤ b3 ∧ b3 < 192 then
          let n := (b - 224) * 4096 + (b2 - 128) * 64 + (b3 - 128)
          if n < 2048 ∨ (55296 ≤ n ∧ n < 57344) then none
          else (utf8DecodeAux fuel bs3).map (Char.ofNat n :: ·)
        else none
      | _ => none
    else if b < 248 then
      match bs with
      | b2 :: b3 :: b4 :: bs4 =>
        if 128 ≤ b2 ∧ b2 < 192 ∧ 128 ≤ b3 ∧ b3 < 192 ∧ 128 ≤ b4 ∧ b4 < 192 then
          let n := (b - 240) * 262144 + (b2 - 128) * 4096 + (b3 - 128) * 64 + (b4 - 128)
          if n < 65536 ∨ 1114112 ≤ n then none
          else (utf8DecodeAux fuel bs4).map (Char.ofNat n :: ·)
        else none
      | _ => none
    else none

/-- Python `bytes.decode("utf-8")`. -/
def utf8Decode (bs : List Nat) : Option Str := utf8DecodeAux bs.length bs

/-! ### Association lists: Python `dict` (insertion-ordered) and `set` -/

/-- Python `d.get(k)` / `k in d` lookup over an insertion-ordered dict. -/
def alookup [DecidableEq α] : List (α × β) → α → Option β
  | [], _ => none
  | (k, v) :: t, x => if k = x then some v else alookup t x

/-- Python `d[k] = v`: update in place, or append a new key at the end. -/
def aset [DecidableEq α] : List (α × β) → α → β → List (α × β)
  | [], k, v => [(k, v)]
  | (k', v') :: t, k, v => if k' = k then (k, v) :: t else (k', v') :: aset t k v

/-- Python `s.add(x)` on a set modelled as a first-occurrence list. -/
def setAdd [DecidableEq α] (l : List α) (x : α) : List α :=
  if x ∈ l then l else l ++ [x]

/-- `defaultdict(int)` increment: `d[k] += 1`. -/
def umInc (m : List ((Option Str × Option Str) × Nat)) (k : Option Str × Option Str) :
    List ((Option Str × Option Str) × Nat) :=
  aset m k ((alookup m k).getD 0 + 1)

/-! ### The data model of `crawl.py` -/

/-- A tag for each logging site of `crawl.py` (the formatted text of the
message is not modelled, only which site fired). -/
inductive LogMsg where
  | doubleRevid
  | doubleTimestamp
  | doublePageId
  | doubleUserName
  | doubleUserId
  | badOnelineTag
  | pageNoName
  | pageNoRevisions
  | noUserPageMonths
  | badUpmCsv
  | blankPageCsv
  | userNoName
  | blankUserCsv
  | pageEndOpenUser
  | pageEndOpenRevision
  | revisionNoUser
  | reachedRevision
deriving DecidableEq

/-- `class Revision` (the unused `pagename`, `user`, `timestamp` and
`linecount` attributes, which the source initialises but never reads, are
omitted). -/
structure Revision where
  revid : Option Str
  month : Option Str
  sha1 : Option Str
deriving DecidableEq

def Revision.init : Revision := { revid := none, month := none, sha1 := none }

/-- `class User` (`parent` is modelled by the enclosing crawler state). -/
structure User where
  user_id : Option Str
  name : Option Str
  is_new : Bool
  ip : Option Str
deriving DecidableEq

def User.init : User := { user_id := none, name := none, is_new := false, ip := none }

/-- Python truthiness of `user.ip` (`None` and `""` are falsy). -/
def ipTruthy (u : User) : Bool :=
  match u.ip with
  | some s => !s.isEmpty
  | none => false

/-- `class Page`.  `namespace` is a Lean keyword, so the attribute is named
`nspace` here.  The `hashes` set (used only by the dead `is_revert` helper)
is kept for completeness. -/
structure Page where
  name : Option Str
  page_id : Option Str
  nspace : Option Str
  is_redirect : Bool
  user_months : List ((Option Str × Option Str) × Nat)
  user_ids : List (Option Str)
  users : List (Option Str × User)
  hashes : List (Option Str)
deriving DecidableEq

def Page.init : Page :=
  { name := none, page_id := none, nspace := none, is_redirect := false,
    user_months := [], user_ids := [], users := [], hashes := [] }

/-- `class Crawler` (file handles, `filepath`, `output_directory`,
`maxlines`, `overwrite`, the console flag and the header table are I/O glue
and are not modelled; CSV output is modelled as the ordered list `written`
of `(filename, chunk)` writes; the log is the ordered list `logs`). -/
structure Crawler where
  mainspace_only : Bool
  split_by_year : Bool
  user_ids : List (Option Str)
  ips : List Str
  ip_count : Nat
  ip2id : List (Str × Str)
  linecount : Nat
  revcount : Nat
  deleted_user_edits : Nat
  current_page : Option Page
  current_revision : Option Revision
  current_user : Option User
  written : List (Str × Str)
  logs : List LogMsg
deriving DecidableEq

def Crawler.init (mainspace_only split_by_year : Bool) : Crawler :=
  { mainspace_only := mainspace_only, split_by_year := split_by_year,
    user_ids := [], ips := [], ip_count := 0, ip2id := [],
    linecount := 0, revcount := 0, deleted_user_edits := 0,
    current_page := none, current_revision := none, current_user := none,
    written := [], logs := [] }

/-! ### Methods of `Revision`, `User`, `Page` -/

/-- `Revision.add_id`. -/
def Revision.add_id (r : Revision) (revid : Str) : Revision × List LogMsg :=
  match r.revid with
  | none => ({ r with revid := some revid }, [])
  | some _ => (r, [.doubleRevid])

/-- `Revision.add_month`: the month is `timestamp[:7]`. -/
def Revision.add_month (r : Revision) (timestamp : Str) : Revision × List LogMsg :=
  let month := timestamp.take 7
  match r.month with
  | none => ({ r with month := some month }, [])
  | some _ => (r, [.doubleTimestamp])

/-- `User.add_name`. -/
def User.add_name (u : User) (name : Str) : User × List LogMsg :=
  match u.name with
  | none => ({ u with name := some name }, [])
  | some _ => (u, [.doubleUserName])

/-- `User.add_id`. -/
def User.add_id (u : User) (user_id : Str) : User × List LogMsg :=
  match u.user_id with
  | none => ({ u with user_id := some user_id }, [])
  | some _ => (u, [.doubleUserId])

/-- `User.to_csv`: `(user_id, encoded_name)`; for a truthy `ip` the name
(the stored digest) is used raw, otherwise it is base64-encoded; a falsy
name yields no CSV and a log; joining with `user_id = None` raises. -/
def User.to_csv (u : User) : Except PyErr (Option Str × List LogMsg) :=
  match u.name with
  | none => .ok (none, [.userNoName])
  | some n =>
    if n = [] then .ok (none, [.userNoName])
    else
      let encoded_name := if ipTruthy u then n else b64encode (utf8Encode n)
      match pyJoinOpt [','] [u.user_id, some encoded_name] with
      | .error e => .error e
      | .ok csv => .ok (some csv, [])

/-- `Page.add_id`. -/
def Page.add_id (p : Page) (page_id : Str) : Page × List LogMsg :=
  match p.page_id with
  | none => ({ p with page_id := some page_id }, [])
  | some _ => (p, [.doublePageId])

/-- `Page.add_user`: register the contributor on the page and increment
`user_months[(user_id, month)]`. -/
def Page.add_user (p : Page) (user : User) (revision : Revision) : Page :=
  let user_id := user.user_id
  let p :=
    if user_id ∈ p.user_ids then p
    else { p with user_ids := p.user_ids ++ [user_id], users := aset p.users user_id user }
  { p with user_months := umInc p.user_months (user_id, revision.month) }

/-- `Page.to_csv`: `(page_id, namespace, base64(name), is_redirect)`;
a falsy name yields no CSV and a log; joining with a `None` piece raises. -/
def Page.to_csv (p : Page) : Except PyErr (Option Str × List LogMsg) :=
  match p.name with
  | none => .ok (none, [.pageNoName])
  | some n =>
    if n = [] then .ok (none, [.pageNoName])
    else
      let base64_name := b64encode (utf8Encode n)
      let redirStr : Str := if p.is_redirect then ['1'] else ['0']
      match pyJoinOpt [','] [p.page_id, p.nspace, some base64_name, some redirStr] with
      | .error e => .error e
      | .ok csv => .ok (some csv, [])

/-- `Page.from_csv`: restore name (base64 then UTF-8 decoded), id,
namespace and redirect flag from a CSV line. -/
def Page.from_csv (p : Page) (csv_line : Str) : Except PyErr (Page × List LogMsg) :=
  let l := pyStrip csv_line
  match splitAll l ',' with
  | [page_id, nspace, encoded_name, isRed] =>
    match b64decode encoded_name with
    | none => .error .binasciiError
    | some bytes =>
      match utf8Decode bytes with
      | none => .error .unicodeDecodeError
      | some name =>
        let p := { p with name := some name }
        let (p, lgs) := p.add_id page_id
        let p := { p with nspace := some nspace }
        match pyParseInt isRed with
        | none => .error .valueError
        | some k => .ok ({ p with is_redirect := k ≠ 0 }, lgs)
  | _ => .error .valueError

/-- The per-key body of `Page.get_user_page_months`: build the CSV line for
one `user_months` entry and the year bucket it belongs to.  With
`split_by_year` a `None` month raises (`month[:4]` on `None`); joining with
any `None` piece raises. -/
def Page.upmLine (p : Page) (sby : Bool) (uid mo : Option Str) (cnt : Nat) :
    Except PyErr (Str × Str) :=
  match (if sby then
      match mo with
      | none => Except.error PyErr.typeError
      | some m => Except.ok (m.take 4)
    else Except.ok ([] : Str)) with
  | .error e => .error e
  | .ok year =>
    let redirStr : Str := if p.is_redirect then ['1'] else ['0']
    match pyJoinOpt [','] [uid, p.page_id, p.nspace, some redirStr, mo, some (natToStr cnt)] with
    | .error e => .error e
    | .ok line => .ok (year, line)

/-- Append a line to its year bucket (`defaultdict(list)` semantics). -/
def groupAppend (g : List (Str × List Str)) (y : Str) (line : Str) : List (Str × List Str) :=
  match alookup g y with
  | none => g ++ [(y, [line])]
  | some ls => aset g y (ls ++ [line])

/-- The iteration of `Page.get_user_page_months` over `user_months`. -/
def Page.gupmAux (p : Page) (sby : Bool) :
    List ((Option Str × Option Str) × Nat) → List (Str × List Str) →
      Except PyErr (List (Str × List Str))
  | [], acc => .ok acc
  | ((uid, mo), cnt) :: t, acc =>
    match p.upmLine sby uid mo cnt with
    | .error e => .error e
    | .ok (year, line) => p.gupmAux sby t (groupAppend acc year line)

/-- `Page.get_user_page_months`: the CSV fact lines grouped by year
(the year is `""` unless `split_by_year`). -/
def Page.get_user_page_months (p : Page) (sby : Bool) :
    Except PyErr (List (Str × List Str) × List LogMsg) :=
  let lgs : List LogMsg := if p.user_months = [] then [.pageNoRevisions] else []
  match p.gupmAux sby p.user_months [] with
  | .error e => .error e
  | .ok groups => .ok (groups, lgs)

/-! ### Methods of `Crawler` -/

/-- `get_output_filename`. -/
def get_output_filename (output_name : Str) (year : Option Str) : Str :=
  let filename : Str :=
    match year with
    | none => []
    | some y => if output_name = "user_page_months_output".toList then y ++ ['-'] else []
  filename ++ output_name ++ ".csv".toList

/-- `Crawler.write_output_line`: append a newline if missing and record the
write (file opening/headers are I/O glue and are not modelled). -/
def Crawler.write_output_line (st : Crawler) (output_name : Str) (line : Str)
    (year : Option Str) : Crawler :=
  let line := if ['\n'].isSuffixOf line then line else line ++ ['\n']
  { st with written := st.written ++ [(get_output_filename output_name year, line)] }

/-- `Crawler.get_oneline_tag`: the trimmed text between the first `>` and
the following `<`; malformed content logs and yields `""`. -/
def get_oneline_tag (text : Str) : Str × List LogMsg :=
  match splitOnce text '>' with
  | none => ([], [.badOnelineTag])
  | some (_, content) =>
    match splitOnce content '<' with
    | none => ([], [.badOnelineTag])
    | some (a, _) => (pyStrip a, [])

/-- `Crawler.write_current_user`. -/
def Crawler.write_current_user (st : Crawler) : Except PyErr Crawler :=
  match st.current_user with
  | none => .error .attributeError
  | some u =>
    match u.to_csv with
    | .error e => .error e
    | .ok (csv?, lgs) =>
      let st := { st with logs := st.logs ++ lgs }
      match csv? with
      | some csv =>
        if csv = [] then .ok { st with logs := st.logs ++ [.blankUserCsv] }
        else .ok (st.write_output_line ("users_output".toList) csv none)
      | none => .ok { st with logs := st.logs ++ [.blankUserCsv] }

/-- The write loop of `Crawler.write_current_page_months` over the year
buckets; a non-uniform comma count logs and abandons the remaining buckets
(the `return` in the source). -/
def Crawler.writeGroups (st : Crawler) : List (Str × List Str) → Crawler
  | [] => st
  | (year, csv_lines) :: t =>
    if ((csv_lines.map (fun x => countChar x ',')).dedup).length ≠ 1 then
      { st with logs := st.logs ++ [.badUpmCsv] }
    else
      Crawler.writeGroups
        (st.write_output_line ("user_page_months_output".toList)
          (joinSep ['\n'] csv_lines) (some year)) t

/-- `Crawler.write_current_page_months`. -/
def Crawler.write_current_page_months (st : Crawler) : Except PyErr Crawler :=
  match st.current_page with
  | none => .error .attributeError
  | some pg =>
    match pg.get_user_page_months st.split_by_year with
    | .error e => .error e
    | .ok (groups, lgs) =>
      let st := { st with logs := st.logs ++ lgs }
      if groups = [] then .ok { st with logs := st.logs ++ [.noUserPageMonths] }
      else .ok (st.writeGroups groups)

/-- `Crawler.write_current_page`. -/
def Crawler.write_current_page (st : Crawler) : Except PyErr Crawler :=
  match st.current_page with
  | none => .error .attributeError
  | some pg =>
    match pg.to_csv with
    | .error e => .error e
    | .ok (csv?, lgs) =>
      let st := { st with logs := st.logs ++ lgs }
      match csv? with
      | none => .ok { st with logs := st.logs ++ [.blankPageCsv] }
      | some csv => .ok (st.write_output_line ("pages_output".toList) csv none)

/-- `Crawler.reset_page`: flush and clear on `</page>`. -/
def Crawler.reset_page (st : Crawler) : Except PyErr Crawler :=
  match st.current_page with
  | none => .ok { st with current_page := none, current_revision := none, current_user := none }
  | some _ =>
    let st := if st.current_user.isSome then { st with logs := st.logs ++ [.pageEndOpenUser] } else st
    let st :=
      if st.current_revision.isSome then { st with logs := st.logs ++ [.pageEndOpenRevision] }
      else st
    match st.write_current_page_months with
    | .error e => .error e
    | .ok st =>
      match st.write_current_page with
      | .error e => .error e
      | .ok st =>
        .ok { st with current_page := none, current_revision := none, current_user := none }

/-- `Crawler.get_id_and_name_for_ip`: mint `IP:<ip_count>`, memoise it in
`ip2id`, and derive the display name from the digest `H`. -/
def Crawler.get_id_and_name_for_ip (H : Str → Str) (st : Crawler) (ip : Str) :
    Crawler × Str × Str :=
  let user_id := "IP:".toList ++ natToStr st.ip_count
  ({ st with ip2id := aset st.ip2id ip user_id }, user_id, H ip)

/-- `Crawler.add_user`: commit the current contributor at `</revision>`. -/
def Crawler.add_user (st : Crawler) : Except PyErr Crawler :=
  match st.current_user with
  | none => .error .attributeError
  | some this_user =>
    let st :=
      if ipTruthy this_user && this_user.is_new then
        { st with ips := setAdd st.ips (this_user.ip.getD []), ip_count := st.ip_count + 1 }
      else st
    let this_id := this_user.user_id
    match (if this_id ∈ st.user_ids then Except.ok st
      else Crawler.write_current_user { st with user_ids := st.user_ids ++ [this_id] }) with
    | .error e => .error e
    | .ok st =>
      match st.current_page with
      | none => .error .attributeError
      | some pg =>
        match st.current_revision with
        | none => .error .attributeError
        | some rv =>
          .ok { st with current_page := some (pg.add_user this_user rv), current_user := none }

/-- The `revcount` bump of `reset_revision` with its five-million mark log. -/
def revTick (st : Crawler) : Crawler :=
  let st := { st with revcount := st.revcount + 1 }
  if st.revcount % 5000000 = 0 then { st with logs := st.logs ++ [.reachedRevision] } else st

/-- `Crawler.reset_revision`: commit user and revision data at
`</revision>` and clear the revision/contributor pointers. -/
def Crawler.reset_revision (st : Crawler) : Except PyErr Crawler :=
  match (match st.current_page with
    | none => Except.ok st
    | some _ =>
      match st.current_revision with
      | none => Except.ok st
      | some _ =>
        match st.current_user with
        | none => Except.ok { st with logs := st.logs ++ [LogMsg.revisionNoUser] }
        | some _ => st.add_user : Except PyErr Crawler) with
  | .error e => .error e
  | .ok st =>
    let st := revTick st
    .ok { st with current_revision := none, current_user := none }

/-- `Crawler.create_deleted_user`: the constant synthetic identity. -/
def create_deleted_user : User :=
  { user_id := some ['0'], name := some ("[Attribution Removed]".toList),
    is_new := false, ip := none }

/-- The tag name `line[1:line.find(">")]` (Python slice semantics,
including the `find` miss case `line[1:-1]`). -/
def tagnameOf (line : Str) : Str :=
  let j := pyFind line '>'
  if j < 0 then (line.drop 1).dropLast else (line.drop 1).take (j.toNat - 1)

/-- `Crawler.process_line`, the per-line state machine dispatch,
parameterised by the SHA1 hex digest `H`. -/
def Crawler.process_line (H : Str → Str) (st : Crawler) (line0 : Str) :
    Except PyErr Crawler :=
  let line := pyLstrip line0
  match line with
  | [] => .ok st
  | c0 :: rest =>
    if c0 ≠ '<' then .ok st
    else
      match rest with
      | [] => .error .indexError
      | c1 :: _ =>
        if c1 = '/' then
          match (if ("</revision>".toList).isPrefixOf line then st.reset_revision
            else Except.ok st) with
          | .error e => .error e
          | .ok st =>
            if ("</page>".toList).isPrefixOf line then st.reset_page else .ok st
        else
          let tagname := tagnameOf line
          if tagname = "page".toList then .ok { st with current_page := some Page.init }
          else
            match st.current_page with
            | none => .ok st
            | some pg =>
              if tagname = "id".toList then
                let (this_id, lgs) := get_oneline_tag line
                let st := { st with logs := st.logs ++ lgs }
                match st.current_user with
                | some u =>
                  let (u, lgs2) := u.add_id this_id
                  .ok { st with current_user := some u, logs := st.logs ++ lgs2 }
                | none =>
                  match st.current_revision with
                  | some rv =>
                    let (rv, lgs2) := rv.add_id this_id
                    .ok { st with current_revision := some rv, logs := st.logs ++ lgs2 }
                  | none =>
                    let (pg, lgs2) := pg.add_id this_id
                    .ok { st with current_page := some pg, logs := st.logs ++ lgs2 }
              else if tagname = "revision".toList then
                .ok { st with current_revision := some Revision.init }
              else if tagname = "contributor".toList then
                .ok { st with current_user := some User.init }
              else if tagname = "username".toList then
                let (username, lgs) := get_oneline_tag line
                let st := { st with logs := st.logs ++ lgs }
                match st.current_user with
                | none => .error .attributeError
                | some u =>
                  let (u, lgs2) := u.add_name username
                  .ok { st with current_user := some u, logs := st.logs ++ lgs2 }
              else if tagname = "ip".toList then
                let (ip, lgs) := get_oneline_tag line
                let st := { st with logs := st.logs ++ lgs }
                match st.current_user with
                | none => .error .attributeError
                | some u =>
                  let u := { u with ip := some ip }
                  if ip ∈ st.ips then
                    match alookup st.ip2id ip with
                    | none => .error .keyError
                    | some user_id =>
                      .ok { st with current_user := some { u with user_id := some user_id } }
                  else
                    let (st, user_id, username) := st.get_id_and_name_for_ip H ip
                    let (u, lgs2) := u.add_name username
                    let u := { u with is_new := true, user_id := some user_id }
                    .ok { st with current_user := some u, logs := st.logs ++ lgs2 }
              else if tagname = "timestamp".toList then
                let (timestamp, lgs) := get_oneline_tag line
                let st := { st with logs := st.logs ++ lgs }
                match st.current_revision with
                | none => .error .attributeError
                | some rv =>
                  let (rv, lgs2) := rv.add_month timestamp
                  .ok { st with current_revision := some rv, logs := st.logs ++ lgs2 }
              else if tagname = "sha1".toList then
                let (hashed, lgs) := get_oneline_tag line
                let st := { st with logs := st.logs ++ lgs }
                match st.current_revision with
                | none => .error .attributeError
                | some rv => .ok { st with current_revision := some { rv with sha1 := some hashed } }
              else if tagname = "ns".toList then
                let (nspace, lgs) := get_oneline_tag line
                let st := { st with logs := st.logs ++ lgs }
                let st := { st with current_page := some { pg with nspace := some nspace } }
                if nspace ≠ ['0'] ∧ st.mainspace_only then
                  .ok { st with current_page := none }
                else .ok st
              else if tagname = "title".toList then
                let (title, lgs) := get_oneline_tag line
                let st := { st with logs := st.logs ++ lgs }
                if title ≠ [] then .ok { st with current_page := some { pg with name := some title } }
                else .ok st
              else if tagname.take 8 = "redirect".toList then
                .ok { st with current_page := some { pg with is_redirect := true } }
              else if tagname.take 19 = "contributor deleted".toList then
                .ok { st with current_user := some create_deleted_user, deleted_user_edits := st.deleted_user_edits + 1 }
              else .ok st

/-- The loop body of `Crawler.process_file`: process each line and then
bump `linecount` (the `maxlines` cutoff is run configuration, not
modelled). -/
def processLines (H : Str → Str) (st : Crawler) : List Str → Except PyErr Crawler
  | [] => .ok st
  | l :: ls =>
    match Crawler.process_line H st l with
    | .error e => .error e
    | .ok st' => processLines H { st' with linecount := st'.linecount + 1 } ls

/-! ### Structured dump blocks

A description language for well-formed `<page>` blocks of a
stub-meta-history dump, with the input lines each block renders to.
Theorems about whole-block behaviour quantify over these descriptions. -/

/-- A contributor of a revision: a registered account, an anonymous IP
edit, or a redacted (deleted) attribution. -/
inductive Contrib where
  | registered (uid uname : Str)
  | anon (ip : Str)
  | deleted
deriving DecidableEq

/-- A revision of a page block: optional revision id, optional timestamp,
optional contributor. -/
structure RevDesc where
  rid : Option Str
  ts : Option Str
  contrib : Option Contrib
deriving DecidableEq

/-- A page block: page id, namespace value, optional title, redirect
marker, and its revisions. -/
structure PageDesc where
  pid : Str
  nsv : Str
  title : Option Str
  redirect : Bool
  revs : List RevDesc
deriving DecidableEq

/-- An opening tag line `<tag>`. -/
def openLine (tag : Str) : Str := '<' :: (tag ++ ['>'])

/-- A closing tag line `</tag>`. -/
def closeLine (tag : Str) : Str := '<' :: '/' :: (tag ++ ['>'])

/-- A one-line leaf tag `<tag>value</tag>`. -/
def leafLine (tag v : Str) : Str :=
  '<' :: (tag ++ '>' :: (v ++ '<' :: '/' :: (tag ++ ['>'])))

/-- The self-closing redacted-contributor tag of the dumps. -/
def deletedLine : Str := "<contributor deleted=\"deleted\" />".toList

/-- A self-closing redirect marker. -/
def redirectLine : Str := "<redirect />".toList

/-- The input lines of a contributor. -/
def contribLines : Contrib → List Str
  | .registered uid uname =>
    [openLine ("contributor".toList), leafLine ("username".toList) uname, leafLine ("id".toList) uid]
  | .anon ip => [openLine ("contributor".toList), leafLine ("ip".toList) ip]
  | .deleted => [deletedLine]

/-- The input lines of a revision. -/
def revLines (r : RevDesc) : List Str :=
  [openLine ("revision".toList)] ++
    (match r.rid with | some v => [leafLine ("id".toList) v] | none => []) ++
    (match r.ts with | some v => [leafLine ("timestamp".toList) v] | none => []) ++
    (match r.contrib with | some c => contribLines c | none => []) ++
    [closeLine ("revision".toList)]

/-- The input lines of the revisions of a block. -/
def revsLines : List RevDesc → List Str
  | [] => []
  | r :: t => revLines r ++ revsLines t

/-- The input lines of a page block (title, namespace and id first, then
the revisions, as in the dumps). -/
def blockLines (d : PageDesc) : List Str :=
  [openLine ("page".toList)] ++
    (match d.title with | some t => [leafLine ("title".toList) t] | none => []) ++
    (if d.redirect then [redirectLine] else []) ++
    [leafLine ("ns".toList) d.nsv, leafLine ("id".toList) d.pid] ++
    revsLines d.revs ++ [closeLine ("page".toList)]

/-- The input lines of a run of page blocks. -/
def runLines : List PageDesc → List Str
  | [] => []
  | d :: t => blockLines d ++ runLines t

/-! ### Pure mirror of block processing

`pBlock` is a pure (exception-free) function computing exactly what
processing the lines of a well-formed block does to the crawler state; the
correspondence is proved below (`processLines_blockLines`). -/

/-- The pseudonymous identifier minted for the `n`-th distinct IP. -/
def ipLabel (n : Nat) : Str := "IP:".toList ++ natToStr n

/-- Bump `linecount` by `k` (one per processed input line). -/
def bump (st : Crawler) (k : Nat) : Crawler := { st with linecount := st.linecount + k }

/-- `revTick` iterated. -/
def ticks : Crawler → Nat → Crawler
  | st, 0 => st
  | st, k + 1 => ticks (revTick st) k

/-- The contributor record (and identity-state update) produced by the
contributor lines of a revision. -/
def pUser (H : Str → Str) (st : Crawler) : Contrib → Crawler × User
  | .registered uid uname =>
    (st, { user_id := some uid, name := some uname, is_new := false, ip := none })
  | .deleted =>
    ({ st with deleted_user_edits := st.deleted_user_edits + 1 }, create_deleted_user)
  | .anon ip =>
    if ip ∈ st.ips then
      (st, { user_id := alookup st.ip2id ip, name := none, is_new := false, ip := some ip })
    else
      ({ st with ip2id := aset st.ip2id ip (ipLabel st.ip_count) },
        { user_id := some (ipLabel st.ip_count), name := some (H ip), is_new := true,
          ip := some ip })

/-- The users-table CSV line of a contributor (`none` when the name is
falsy, in which case the source logs instead of writing). -/
def userRow (u : User) : Option Str :=
  match u.name with
  | none => none
  | some n =>
    if n = [] then none
    else some ((u.user_id.getD []) ++ ',' :: (if ipTruthy u then n else b64encode (utf8Encode n)))

/-- The crawler/page update of committing a contributor at `</revision>`
(the success path of `Crawler.add_user`). -/
def pCommit (st : Crawler) (u : User) (rv : Revision) (pg : Page) : Crawler × Page :=
  let st :=
    if ipTruthy u && u.is_new then
      { st with ips := setAdd st.ips (u.ip.getD []), ip_count := st.ip_count + 1 }
    else st
  let st :=
    if u.user_id ∈ st.user_ids then st
    else
      let st := { st with user_ids := st.user_ids ++ [u.user_id] }
      match userRow u with
      | some csv => st.write_output_line ("users_output".toList) csv none
      | none => { st with logs := st.logs ++ [LogMsg.userNoName, LogMsg.blankUserCsv] }
  (st, pg.add_user u rv)

/-- The effect of the lines of one revision on (crawler state, open page). -/
def pRev (H : Str → Str) (r : RevDesc) : Crawler × Page → Crawler × Page
  | (st, pg) =>
    let rv : Revision := { revid := r.rid, month := r.ts.map (fun t => t.take 7), sha1 := none }
    match r.contrib with
    | none =>
      (bump (revTick { st with logs := st.logs ++ [LogMsg.revisionNoUser] }) (revLines r).length,
        pg)
    | some c =>
      let (st, u) := pUser H st c
      let (st, pg) := pCommit st u rv pg
      (bump (revTick st) (revLines r).length, pg)

/-- `pRev` folded over the revisions of a block. -/
def pRevs (H : Str → Str) : List RevDesc → Crawler × Page → Crawler × Page
  | [], p => p
  | r :: t, p => pRevs H t (pRev H r p)

/-- The fact line of one `user_months` entry on the success path. -/
def upmLine0 (pg : Page) (e : (Option Str × Option Str) × Nat) : Str :=
  joinSep [','] [e.1.1.getD [], pg.page_id.getD [], pg.nspace.getD [],
    (if pg.is_redirect then ['1'] else ['0']), e.1.2.getD [], natToStr e.2]

/-- The fact lines of a page (one per `user_months` key, in insertion
order), on the success path with an all-`""` year bucket. -/
def upmLines (pg : Page) : List Str := pg.user_months.map (upmLine0 pg)

/-- The pages-table CSV line of a page (`none` when the name is falsy). -/
def pageRow (pg : Page) : Option Str :=
  match pg.name with
  | none => none
  | some n =>
    if n = [] then none
    else some (joinSep [','] [pg.page_id.getD [], pg.nspace.getD [],
      b64encode (utf8Encode n), if pg.is_redirect then ['1'] else ['0']])

/-- The effect of the `</page>` flush (the success path of `reset_page`). -/
def pCloseCore (st : Crawler) (pg : Page) : Crawler :=
  let st :=
    if pg.user_months = [] then
      { st with logs := st.logs ++ [LogMsg.pageNoRevisions, LogMsg.noUserPageMonths] }
    else
      st.write_output_line ("user_page_months_output".toList) (joinSep ['\n'] (upmLines pg))
        (some [])
  let st :=
    match pageRow pg with
    | some csv => st.write_output_line ("pages_output".toList) csv none
    | none => { st with logs := st.logs ++ [LogMsg.pageNoName, LogMsg.blankPageCsv] }
  { st with current_page := none, current_revision := none, current_user := none }

/-- The effect of the `</page>` line including its `linecount` bump. -/
def pClose (st : Crawler) (pg : Page) : Crawler := bump (pCloseCore st pg) 1

/-- The number of block lines preceding the revisions. -/
def headerCount (d : PageDesc) : Nat :=
  3 + (match d.title with | some _ => 1 | none => 0) + (if d.redirect then 1 else 0)

/-- The freshly-opened page after the block header lines. -/
def pPage0 (d : PageDesc) : Page :=
  { Page.init with
    name := (match d.title with | some t => if t = [] then none else some t | none => none),
    is_redirect := d.redirect, nspace := some d.nsv, page_id := some d.pid }

/-- The effect of processing one whole page block on the crawler state. -/
def pBlock (H : Str → Str) (d : PageDesc) (st : Crawler) : Crawler :=
  if st.mainspace_only ∧ d.nsv ≠ ['0'] then
    bump (ticks st d.revs.length) (blockLines d).length
  else
    let p := pRevs H d.revs (bump st (headerCount d), pPage0 d)
    pClose p.1 p.2

/-- `pBlock` folded over a run of blocks. -/
def pRun (H : Str → Str) : List PageDesc → Crawler → Crawler
  | [], st => st
  | d :: t, st => pRun H t (pBlock H d st)

/-! ### Observations on the output and well-formedness side conditions -/

/-- The users-table file name. -/
def usersFile : Str := "users_output.csv".toList

/-- The pages-table file name. -/
def pagesFile : Str := "pages_output.csv".toList

/-- Whether a written record belongs to the user-page-months table
(possibly year-prefixed). -/
def isUpmFile (f : Str) : Bool := "user_page_months_output.csv".toList.isSuffixOf f

/-- The user ids of the users-table rows, in write order. -/
def usersRowIds (w : List (Str × Str)) : List Str :=
  w.filterMap (fun r => if r.1 = usersFile then some (r.2.takeWhile (· ≠ ',')) else none)

/-- The pages-table records among the writes. -/
def pagesRecords (w : List (Str × Str)) : List (Str × Str) := w.filter (fun r => r.1 = pagesFile)

/-- The user-page-months records among the writes. -/
def upmRecords (w : List (Str × Str)) : List (Str × Str) := w.filter (fun r => isUpmFile r.1)

/-- The total `edit_count` carried by a written user-page-months chunk:
the last comma-separated field of each of its lines. -/
def sumUpmChunk (chunk : Str) : Nat :=
  ((splitAll chunk '\n').map (fun l => strToNat ((splitAll l ',').getLastD []))).sum

/-- The total `edit_count` across all user-page-months records. -/
def sumUpmRecords (w : List (Str × Str)) : Nat :=
  ((upmRecords w).map (fun r => sumUpmChunk r.2)).sum

/-- The number of revisions that have both a contributor and a timestamp
(hence a month). -/
def countQual (rs : List RevDesc) : Nat :=
  (rs.filter (fun r => r.contrib.isSome && r.ts.isSome)).length

/-- A character that cannot disturb the line scanner: not a tag bracket,
not a comma, not Python whitespace. -/
def SimpleChar (c : Char) : Prop := c ≠ '<' ∧ c ≠ '>' ∧ c ≠ ',' ∧ isPySpace c = false

/-- A string of scanner-safe characters. -/
def SimpleStr (s : Str) : Prop := ∀ c ∈ s, SimpleChar c

instance : DecidablePred SimpleChar := fun c => by unfold SimpleChar; infer_instance

instance (s : Str) : Decidable (SimpleStr s) := by unfold SimpleStr; infer_instance

/-- A string safe to embed as a CSV field of a single-line row. -/
def CsvSafe (s : Str) : Prop := ∀ c ∈ s, c ≠ ',' ∧ c ≠ '\n'

instance (s : Str) : Decidable (CsvSafe s) := by unfold CsvSafe; infer_instance

/-- A predicate holding of `some` values (vacuously of `none`). -/
def OptP (P : α → Prop) : Option α → Prop
  | none => True
  | some v => P v

instance (P : α → Prop) [DecidablePred P] : (o : Option α) → Decidable (OptP P o)
  | none => .isTrue trivial
  | some v => inferInstanceAs (Decidable (P v))

/-- Well-formedness of a contributor description. -/
def WFContrib : Contrib → Prop
  | .registered uid uname => SimpleStr uid ∧ SimpleStr uname ∧ uname ≠ []
  | .anon ip => SimpleStr ip ∧ ip ≠ []
  | .deleted => True

instance : (c : Contrib) → Decidable (WFContrib c)
  | .registered uid uname =>
    inferInstanceAs (Decidable (SimpleStr uid ∧ SimpleStr uname ∧ uname ≠ []))
  | .anon ip => inferInstanceAs (Decidable (SimpleStr ip ∧ ip ≠ []))
  | .deleted => .isTrue trivial

/-- Well-formedness of a revision description: scanner-safe values, and a
timestamp whenever there is a contributor. -/
def WFRev (r : RevDesc) : Prop :=
  OptP SimpleStr r.rid ∧ OptP SimpleStr r.ts ∧
    OptP (fun c => WFContrib c ∧ r.ts.isSome = true) r.contrib

instance (r : RevDesc) : Decidable (WFRev r) := by unfold WFRev; infer_instance

/-- Well-formedness of a page block description. -/
def WFBlock (d : PageDesc) : Prop :=
  SimpleStr d.pid ∧ SimpleStr d.nsv ∧
    OptP (fun t => SimpleStr t ∧ t ≠ []) d.title ∧
    ∀ r ∈ d.revs, WFRev r

instance (d : PageDesc) : Decidable (WFBlock d) := by unfold WFBlock; infer_instance

/-- Well-formedness of a run of blocks. -/
def WFRun (ds : List PageDesc) : Prop := ∀ d ∈ ds, WFBlock d

instance (ds : List PageDesc) : Decidable (WFRun ds) := by unfold WFRun; infer_instance

/-- The crawler-state precondition for processing a block: no open
entities, no year splitting, and a coherent IP memo table. -/
def GoodSt (st : Crawler) : Prop :=
  st.current_page = none ∧ st.current_revision = none ∧ st.current_user = none ∧
    st.split_by_year = false ∧
    (∀ ip ∈ st.ips, (alookup st.ip2id ip).isSome = true) ∧
    (∀ p ∈ st.ip2id, CsvSafe p.2)

/-! ### The identity-registry invariant used for C4 and C5 -/

/-- First index of an element (0 when absent at the head recursion end). -/
def idxOf : List Str → Str → Nat
  | [], _ => 0
  | s :: t, x => if s = x then 0 else idxOf t x + 1

/-- The memo table assigning `ipLabel (k+i)` to the `i`-th seen IP. -/
def ip2idOfAux (k : Nat) : List Str → List (Str × Str)
  | [] => []
  | s :: t => (s, ipLabel k) :: ip2idOfAux (k + 1) t

/-- The memo table of a first-encounter list of IPs. -/
def ip2idOf (seen : List Str) : List (Str × Str) := ip2idOfAux 0 seen

/-- The evolution of (distinct IPs seen, user ids emitted) across one
revision description. -/
def idsRev (p : List Str × List Str) (r : RevDesc) : List Str × List Str :=
  match r.contrib with
  | none => p
  | some (.registered uid _) => (p.1, setAdd p.2 uid)
  | some .deleted => (p.1, setAdd p.2 ['0'])
  | some (.anon ip) =>
    if ip ∈ p.1 then (p.1, setAdd p.2 (ipLabel (idxOf p.1 ip)))
    else (p.1 ++ [ip], setAdd p.2 (ipLabel p.1.length))

/-- `idsRev` folded over revisions. -/
def idsRevs : List RevDesc → List Str × List Str → List Str × List Str
  | [], p => p
  | r :: t, p => idsRevs t (idsRev p r)

/-- `idsRevs` over a block (a namespace-filtered block touches nothing). -/
def idsBlock (mo : Bool) (d : PageDesc) (p : List Str × List Str) : List Str × List Str :=
  if mo ∧ d.nsv ≠ ['0'] then p else idsRevs d.revs p

/-- `idsBlock` folded over a run. -/
def idsRun (mo : Bool) : List PageDesc → List Str × List Str → List Str × List Str
  | [], p => p
  | d :: t, p => idsRun mo t (idsBlock mo d p)

/-- The identity-registry invariant: the IP set, its counter and memo
table, the user-id registry and the users-table rows all stay in lock
step, parameterised by the first-encounter list `seen` and the emitted-id
list `uids`. -/
def Inv (st : Crawler) (seen uids : List Str) : Prop :=
  GoodSt st ∧ st.ips = seen ∧ st.ip_count = seen.length ∧ st.ip2id = ip2idOf seen ∧
    seen.Nodup ∧ st.user_ids = uids.map some ∧ uids.Nodup ∧
    usersRowIds st.written = uids ∧ (∀ u ∈ uids, (',' : Char) ∉ u) ∧
    (∀ i, i < seen.length → ipLabel i ∈ uids)


/-- The total of the per-user-month counters of a page. -/
def sumVals (m : List ((Option Str × Option Str) × Nat)) : Nat := (m.map (fun e => e.2)).sum

/-! ## Concrete instances

Small concrete inputs used to instantiate the theorems below and to
exhibit the behaviours of the crawler on particular dumps. The hash
function is irrelevant to everything measured here, so a constant stands
in for SHA-1. -/

/-- A stand-in hash function (everything proved is hash-generic). -/
def hashC : Str → Str := fun _ => ['h']

/-- A fixed well-formed timestamp. -/
def ts0 : Str := "2020-01-01T00:00:00Z".toList

/-- A sample IP address. -/
def ipA : Str := "1.1.1.1".toList

/-- A second, distinct sample IP address. -/
def ipB : Str := "2.2.2.2".toList

/-- A block with one qualifying revision (timestamp and contributor) and
one contributor-less revision. -/
def dC2 : PageDesc :=
  { pid := ['1'], nsv := ['0'], title := some ['T'], redirect := false,
    revs := [ { rid := some ['5'], ts := some ts0, contrib := some (.anon ipA) },
              { rid := some ['6'], ts := some ts0, contrib := none } ] }

/-- A properly nested block with one qualifying revision and one revision
that has a contributor but no timestamp. -/
def dC2x : PageDesc :=
  { pid := ['2'], nsv := ['0'], title := some ['U'], redirect := false,
    revs := [ { rid := some ['5'], ts := some ts0, contrib := some (.anon ipA) },
              { rid := some ['7'], ts := none, contrib := some (.anon ipB) } ] }

/-- A properly nested block whose only revision has a contributor but no
timestamp. -/
def dC3 : PageDesc :=
  { pid := ['3'], nsv := ['0'], title := some ['V'], redirect := false,
    revs := [ { rid := some ['8'], ts := none, contrib := some (.anon ipA) } ] }

/-- A dump in which page one resolves IP `ipA` but is discarded by a
mid-revision non-mainspace `ns` tag before the revision commits, and page
two then resolves IP `ipB`. -/
def c4lines : List Str :=
  [openLine ("page".toList), leafLine ("title".toList) ['P'],
   leafLine ("ns".toList) ['0'], leafLine ("id".toList) ['1'],
   openLine ("revision".toList), leafLine ("id".toList) ['9'],
   leafLine ("timestamp".toList) ts0, openLine ("contributor".toList),
   leafLine ("ip".toList) ipA, leafLine ("ns".toList) ['1'],
   closeLine ("revision".toList), closeLine ("page".toList),
   openLine ("page".toList), leafLine ("title".toList) ['Q'],
   leafLine ("ns".toList) ['0'], leafLine ("id".toList) ['2'],
   openLine ("revision".toList), leafLine ("timestamp".toList) ts0,
   openLine ("contributor".toList), leafLine ("ip".toList) ipB,
   closeLine ("revision".toList), closeLine ("page".toList)]

/-- `c4lines` followed by a third page that resolves IP `ipA` a second
time. -/
def c5lines : List Str := c4lines ++
  [openLine ("page".toList), leafLine ("title".toList) ['R'],
   leafLine ("ns".toList) ['0'], leafLine ("id".toList) ['3'],
   openLine ("revision".toList), leafLine ("timestamp".toList) ts0,
   openLine ("contributor".toList), leafLine ("ip".toList) ipA,
   closeLine ("revision".toList), closeLine ("page".toList)]

/-- A well-formed two-block run committing the two distinct IPs. -/
def dsC4 : List PageDesc :=
  [{ pid := ['1'], nsv := ['0'], title := some ['P'], redirect := false,
     revs := [{ rid := some ['1'], ts := some ts0, contrib := some (.anon ipA) }] },
   { pid := ['2'], nsv := ['0'], title := some ['Q'], redirect := false,
     revs := [{ rid := some ['2'], ts := some ts0, contrib := some (.anon ipB) }] }]

/-- A block whose only revision has a redacted contributor. -/
def dC6 : PageDesc :=
  { pid := ['4'], nsv := ['0'], title := some ['W'], redirect := false,
    revs := [{ rid := some ['1'], ts := some ts0, contrib := some .deleted }] }

/-- A dump opening a second page while the first (with title, namespace
and id already set) is still open. -/
def c7lines : List Str :=
  [openLine ("page".toList), leafLine ("title".toList) ['P'],
   leafLine ("ns".toList) ['0'], leafLine ("id".toList) ['1'],
   openLine ("page".toList)]

/-- A well-formed block in namespace "5". -/
def dC8 : PageDesc :=
  { pid := ['5'], nsv := ['5'], title := some ['X'], redirect := false,
    revs := [{ rid := some ['1'], ts := some ts0, contrib := some (.anon ipA) }] }

/-- A well-formed block that never sets a title. -/
def dC10 : PageDesc :=
  { pid := ['6'], nsv := ['0'], title := none, redirect := false,
    revs := [{ rid := some ['1'], ts := some ts0, contrib := some (.anon ipA) }] }

/-- The crawler state after processing the block `dC2` from a fresh
unfiltered crawler. -/
def stC2 : Crawler :=
  match processLines hashC (Crawler.init false false) (blockLines dC2) with
  | .ok s => s
  | .error _ => Crawler.init false false

/-- The crawler state after processing the run `dsC4` from a fresh
mainspace-only crawler. -/
def stC4 : Crawler :=
  match processLines hashC (Crawler.init true false) (runLines dsC4) with
  | .ok s => s
  | .error _ => Crawler.init true false

/-- The crawler state after processing `c4lines` from a fresh
mainspace-only crawler. -/
def stC4x : Crawler :=
  match processLines hashC (Crawler.init true false) c4lines with
  | .ok s => s
  | .error _ => Crawler.init true false

/-- The crawler state after processing `c5lines` from a fresh
mainspace-only crawler. -/
def stC5x : Crawler :=
  match processLines hashC (Crawler.init true false) c5lines with
  | .ok s => s
  | .error _ => Crawler.init true false

/-- A fresh crawler with a page open. -/
def stC6 : Crawler := { Crawler.init false false with current_page := some Page.init }

/-- The crawler state after processing the block `dC6` from a fresh
unfiltered crawler. -/
def stC6x : Crawler :=
  match processLines hashC (Crawler.init false false) (blockLines dC6) with
  | .ok s => s
  | .error _ => Crawler.init false false

/-- The crawler state after processing `c7lines` from a fresh unfiltered
crawler. -/
def stC7x : Crawler :=
  match processLines hashC (Crawler.init false false) c7lines with
  | .ok s => s
  | .error _ => Crawler.init false false

/-- The crawler state after processing the block `dC8` from a fresh
mainspace-only crawler. -/
def stC8 : Crawler :=
  match processLines hashC (Crawler.init true false) (blockLines dC8) with
  | .ok s => s
  | .error _ => Crawler.init true false

/-- The crawler state after processing the block `dC10` from a fresh
unfiltered crawler. -/
def stC10 : Crawler :=
  match processLines hashC (Crawler.init false false) (blockLines dC10) with
  | .ok s => s
  | .error _ => Crawler.init false false

/-- The well-formedness of a page record for CSV emission: id and
namespace present and CSV-safe, every counter key present and CSV-safe. -/
def PgOK (pg : Page) : Prop :=
  pg.page_id.isSome = true ∧ pg.nspace.isSome = true ∧
    CsvSafe (pg.page_id.getD []) ∧ CsvSafe (pg.nspace.getD []) ∧
    ∀ e ∈ pg.user_months, e.1.1.isSome = true ∧ CsvSafe (e.1.1.getD []) ∧
      e.1.2.isSome = true ∧ CsvSafe (e.1.2.getD [])

/-! ## Decimal strings -/

theorem digitVal_digitChar {n : Nat} (h : n < 10) : digitVal (digitChar n) = n := by
  unfold digitChar
  rw [Nat.mod_eq_of_lt h]
  interval_cases n <;> decide

theorem digitChar_isDigit (n : Nat) : (digitChar n).isDigit = true := by
  unfold digitChar
  have h : n % 10 < 10 := Nat.mod_lt _ (by omega)
  interval_cases h10 : n % 10 <;> simp_all

theorem strToNat_append (l : Str) (c : Char) :
    strToNat (l ++ [c]) = strToNat l * 10 + digitVal c := by
  simp [strToNat, List.foldl_append]

theorem strToNat_natToStrAux : ∀ f n, n < f → strToNat (natToStrAux f n) = n := by
  intro f
  induction f with
  | zero => omega
  | succ f ih =>
    intro n hn
    unfold natToStrAux
    by_cases h : n < 10
    · simp only [if_pos h]
      have : strToNat [digitChar n] = digitVal (digitChar n) := by simp [strToNat]
      rw [this, digitVal_digitChar h]
    · simp only [if_neg h]
      rw [strToNat_append, ih (n / 10) (by omega), digitVal_digitChar (Nat.mod_lt _ (by omega))]
      omega

theorem strToNat_natToStr (n : Nat) : strToNat (natToStr n) = n :=
  strToNat_natToStrAux (n + 1) n (Nat.lt_succ_self n)

theorem natToStr_injective {m n : Nat} (h : natToStr m = natToStr n) : m = n := by
  have := congrArg strToNat h
  rwa [strToNat_natToStr, strToNat_natToStr] at this

theorem mem_natToStrAux : ∀ f n c, c ∈ natToStrAux f n → c.isDigit = true := by
  intro f
  induction f with
  | zero => intro n c hc; simp [natToStrAux] at hc
  | succ f ih =>
    intro n c hc
    unfold natToStrAux at hc
    by_cases h : n < 10
    · simp only [if_pos h, List.mem_singleton] at hc
      subst hc; exact digitChar_isDigit n
    · simp only [if_neg h, List.mem_append, List.mem_singleton] at hc
      rcases hc with hc | hc
      · exact ih _ _ hc
      · subst hc; exact digitChar_isDigit _

theorem mem_natToStr {n : Nat} {c : Char} (h : c ∈ natToStr n) : c.isDigit = true :=
  mem_natToStrAux _ _ _ h

theorem isDigit_facts {c : Char} (h : c.isDigit = true) :
    c ≠ ',' ∧ c ≠ '\n' ∧ c ≠ '<' ∧ c ≠ '>' := by
  refine ⟨?_, ?_, ?_, ?_⟩ <;> (intro hc; subst hc; simp [Char.isDigit] at h)

theorem csvSafe_natToStr (n : Nat) : CsvSafe (natToStr n) := by
  intro c hc
  have := isDigit_facts (mem_natToStr hc)
  exact ⟨this.1, this.2.1⟩

theorem csvSafe_ipLabel (n : Nat) : CsvSafe (ipLabel n) := by
  intro c hc
  unfold ipLabel at hc
  rcases List.mem_append.mp hc with hc | hc
  · fin_cases hc <;> decide
  · exact csvSafe_natToStr n c hc

theorem ipLabel_injective {m n : Nat} (h : ipLabel m = ipLabel n) : m = n := by
  unfold ipLabel at h
  exact natToStr_injective (List.append_cancel_left h)

/-! ## base64 and UTF-8 round trips -/

theorem b64val_b64char_fin : ∀ i : Fin 64, b64val (b64char i.val) = i.val := by decide

theorem b64val_b64char {n : Nat} (h : n < 64) : b64val (b64char n) = n :=
  b64val_b64char_fin ⟨n, h⟩

theorem b64char_ne_pad_fin : ∀ i : Fin 64, b64char i.val ≠ '=' := by decide

theorem b64char_ne_pad {n : Nat} (h : n < 64) : b64char n ≠ '=' :=
  b64char_ne_pad_fin ⟨n, h⟩

theorem b64char_mem (n : Nat) : b64char n ∈ b64chars := by
  unfold b64char List.getD
  cases hg : List.get? b64chars n with
  | none => simp only [Option.getD_none]; decide
  | some c =>
    simp only [Option.getD_some]
    exact List.get?_mem hg

theorem mem_b64encode : ∀ (l : List Nat) (c : Char), c ∈ b64encode l →
    c ∈ b64chars ∨ c = '='
  | [], c, hc => by simp [b64encode] at hc
  | [a], c, hc => by
    simp only [b64encode, List.mem_cons, List.not_mem_nil, or_false] at hc
    rcases hc with rfl | rfl | rfl | rfl
    · exact Or.inl (b64char_mem _)
    · exact Or.inl (b64char_mem _)
    · exact Or.inr rfl
    · exact Or.inr rfl
  | [a, b], c, hc => by
    simp only [b64encode, List.mem_cons, List.not_mem_nil, or_false] at hc
    rcases hc with rfl | rfl | rfl | rfl
    · exact Or.inl (b64char_mem _)
    · exact Or.inl (b64char_mem _)
    · exact Or.inl (b64char_mem _)
    · exact Or.inr rfl
  | a :: b :: d :: rest, c, hc => by
    simp only [b64encode, List.mem_cons] at hc
    rcases hc with rfl | rfl | rfl | rfl | hc
    · exact Or.inl (b64char_mem _)
    · exact Or.inl (b64char_mem _)
    · exact Or.inl (b64char_mem _)
    · exact Or.inl (b64char_mem _)
    · exact mem_b64encode rest c hc

theorem b64decode_pad2 (c1 c2 : Char) :
    b64decode [c1, c2, '=', '='] = some [b64val c1 * 4 + b64val c2 / 16] := by
  simp [b64decode]

theorem b64decode_pad1 (c1 c2 c3 : Char) (h : c3 ≠ '=') :
    b64decode [c1, c2, c3, '='] =
      some [b64val c1 * 4 + b64val c2 / 16, b64val c2 % 16 * 16 + b64val c3 / 4] := by
  simp [b64decode, h]

theorem b64decode_full (c1 c2 c3 c4 : Char) (rest : Str) (h3 : c3 ≠ '=') (h4 : c4 ≠ '=') :
    b64decode (c1 :: c2 :: c3 :: c4 :: rest) =
      (b64decode rest).map
        (fun bs => (b64val c1 * 4 + b64val c2 / 16) ::
          (b64val c2 % 16 * 16 + b64val c3 / 4) :: (b64val c3 % 4 * 64 + b64val c4) :: bs) := by
  simp [b64decode, h3, h4]

theorem b64decode_encode : ∀ (l : List Nat), (∀ b ∈ l, b < 256) →
    b64decode (b64encode l) = some l
  | [], _ => rfl
  | [a], h => by
    have ha : a < 256 := h a (by simp)
    simp only [b64encode]
    rw [b64decode_pad2, b64val_b64char (by omega), b64val_b64char (by omega)]
    have : a / 4 * 4 + a % 4 * 16 / 16 = a := by omega
    rw [this]
  | [a, b], h => by
    have ha : a < 256 := h a (by simp)
    have hb : b < 256 := h b (by simp)
    simp only [b64encode]
    rw [b64decode_pad1 _ _ _ (b64char_ne_pad (show b % 16 * 4 < 64 by omega)),
      b64val_b64char (by omega), b64val_b64char (by omega), b64val_b64char (by omega)]
    have h1 : a / 4 * 4 + (a % 4 * 16 + b / 16) / 16 = a := by omega
    have h2 : (a % 4 * 16 + b / 16) % 16 * 16 + b % 16 * 4 / 4 = b := by omega
    rw [h1, h2]
  | a :: b :: d :: rest, h => by
    have ha : a < 256 := h a (by simp)
    have hb : b < 256 := h b (by simp)
    have hd : d < 256 := h d (by simp)
    have ih := b64decode_encode rest (fun x hx => h x (by simp [hx]))
    simp only [b64encode]
    rw [b64decode_full _ _ _ _ _ (b64char_ne_pad (show b % 16 * 4 + d / 64 < 64 by omega))
      (b64char_ne_pad (show d % 64 < 64 by omega)), ih,
      b64val_b64char (by omega), b64val_b64char (by omega), b64val_b64char (by omega),
      b64val_b64char (by omega)]
    have h1 : a / 4 * 4 + (a % 4 * 16 + b / 16) / 16 = a := by omega
    have h2 : (a % 4 * 16 + b / 16) % 16 * 16 + (b % 16 * 4 + d / 64) / 4 = b := by omega
    have h3 : (b % 16 * 4 + d / 64) % 4 * 64 + d % 64 = d := by omega
    rw [h1, h2, h3]
    rfl

theorem char_valid_ranges (c : Char) :
    c.toNat < 55296 ∨ (57343 < c.toNat ∧ c.toNat < 1114112) := by
  have := c.valid
  unfold UInt32.isValidChar Nat.isValidChar at this
  exact this

theorem mem_utf8EncodeChar_lt {n b : Nat} (hn : n < 1114112) (h : b ∈ utf8EncodeChar n) :
    b < 256 := by
  unfold utf8EncodeChar at h
  by_cases h1 : n < 128
  · rw [if_pos h1] at h
    simp at h; omega
  · rw [if_neg h1] at h
    by_cases h2 : n < 2048
    · rw [if_pos h2] at h
      simp at h; rcases h with rfl | rfl <;> omega
    · rw [if_neg h2] at h
      by_cases h3 : n < 65536
      · rw [if_pos h3] at h
        simp at h; rcases h with rfl | rfl | rfl <;> omega
      · rw [if_neg h3] at h
        simp at h; rcases h with rfl | rfl | rfl | rfl <;> omega

theorem mem_utf8Encode_lt : ∀ {s : Str} {b : Nat}, b ∈ utf8Encode s → b < 256
  | c :: t, b, h => by
    simp only [utf8Encode, List.mem_append] at h
    rcases h with h | h
    · exact mem_utf8EncodeChar_lt (by rcases char_valid_ranges c with h1 | h1 <;> omega) h
    · exact mem_utf8Encode_lt h

theorem utf8DecodeAux_encode : ∀ (s : Str) (fuel : Nat), s.length ≤ fuel →
    utf8DecodeAux fuel (utf8Encode s) = some s
  | [], fuel, _ => by cases fuel <;> rfl
  | c :: t, 0, h => by simp at h
  | c :: t, fuel + 1, h => by
    have ih := utf8DecodeAux_encode t fuel (by simpa using h)
    have hval := char_valid_ranges c
    have hofn := Char.ofNat_toNat c
    set n := c.toNat with hn
    simp only [utf8Encode]
    unfold utf8EncodeChar
    by_cases h1 : n < 128
    · rw [if_pos h1, show ([n] : List Nat) ++ utf8Encode t = n :: utf8Encode t from rfl]
      simp only [utf8DecodeAux]
      rw [if_pos h1, ih, Option.map_some', hofn]
    · rw [if_neg h1]
      by_cases h2 : n < 2048
      · rw [if_pos h2, show ([192 + n / 64, 128 + n % 64] : List Nat) ++ utf8Encode t =
          (192 + n / 64) :: (128 + n % 64) :: utf8Encode t from rfl]
        simp only [utf8DecodeAux]
        rw [if_neg (by omega), if_neg (by omega : ¬192 + n / 64 < 192),
          if_pos (by omega : 192 + n / 64 < 224), if_pos ⟨by omega, by omega⟩,
          if_neg (by omega), ih, Option.map_some']
        have harg : (192 + n / 64 - 192) * 64 + (128 + n % 64 - 128) = n := by omega
        rw [harg, hofn]
      · rw [if_neg h2]
        by_cases h3 : n < 65536
        · rw [if_pos h3, show ([224 + n / 4096, 128 + n / 64 % 64, 128 + n % 64] : List Nat) ++
            utf8Encode t =
            (224 + n / 4096) :: (128 + n / 64 % 64) :: (128 + n % 64) :: utf8Encode t from rfl]
          simp only [utf8DecodeAux]
          rw [if_neg (by omega), if_neg (by omega : ¬224 + n / 4096 < 192),
            if_neg (by omega : ¬224 + n / 4096 < 224), if_pos (by omega : 224 + n / 4096 < 240),
            if_pos ⟨by omega, by omega, by omega, by omega⟩,
            if_neg (by rcases hval with hv | hv <;> omega), ih, Option.map_some']
          have harg : (224 + n / 4096 - 224) * 4096 + (128 + n / 64 % 64 - 128) * 64 +
              (128 + n % 64 - 128) = n := by omega
          rw [harg, hofn]
        · rw [if_neg h3, show ([240 + n / 262144, 128 + n / 4096 % 64, 128 + n / 64 % 64,
            128 + n % 64] : List Nat) ++ utf8Encode t =
            (240 + n / 262144) :: (128 + n / 4096 % 64) :: (128 + n / 64 % 64) ::
              (128 + n % 64) :: utf8Encode t from rfl]
          have hup : n < 1114112 := by rcases hval with hv | hv <;> omega
          simp only [utf8DecodeAux]
          rw [if_neg (by omega), if_neg (by omega : ¬240 + n / 262144 < 192),
            if_neg (by omega : ¬240 + n / 262144 < 224),
            if_neg (by omega : ¬240 + n / 262144 < 240),
            if_pos (by omega : 240 + n / 262144 < 248),
            if_pos ⟨by omega, by omega, by omega, by omega, by omega, by omega⟩,
            if_neg (by omega), ih, Option.map_some']
          have harg : (240 + n / 262144 - 240) * 262144 + (128 + n / 4096 % 64 - 128) * 4096 +
              (128 + n / 64 % 64 - 128) * 64 + (128 + n % 64 - 128) = n := by omega
          rw [harg, hofn]

theorem utf8Decode_encode (s : Str) : utf8Decode (utf8Encode s) = some s := by
  unfold utf8Decode
  apply utf8DecodeAux_encode
  induction s with
  | nil => simp [utf8Encode]
  | cons c t ih =>
    simp only [utf8Encode, List.length_append, List.length_cons]
    have : 1 ≤ (utf8EncodeChar c.toNat).length := by
      unfold utf8EncodeChar
      split
      · simp
      · split
        · simp
        · split <;> simp
    omega

theorem mem_joinSep : ∀ (ps : List Str) (sep : Str) (c : Char), c ∈ joinSep sep ps →
    c ∈ sep ∨ ∃ p ∈ ps, c ∈ p := by
  intro ps
  induction ps with
  | nil => intro sep c hc; simp [joinSep] at hc
  | cons a t ih =>
    intro sep c hc
    cases t with
    | nil => exact Or.inr ⟨a, by simp, by simpa [joinSep] using hc⟩
    | cons b t2 =>
      have : joinSep sep (a :: b :: t2) = a ++ sep ++ joinSep sep (b :: t2) := by simp [joinSep]
      rw [this] at hc
      simp only [List.append_assoc, List.mem_append] at hc
      rcases hc with hc | hc | hc
      · exact Or.inr ⟨a, by simp, hc⟩
      · exact Or.inl hc
      · rcases ih sep c hc with h | ⟨p, hp, hcp⟩
        · exact Or.inl h
        · exact Or.inr ⟨p, by simp [hp], hcp⟩

theorem b64chars_plain : ∀ c ∈ b64chars, c ≠ ',' ∧ isPySpace c = false := by decide

theorem b64encode_plain (bs : List Nat) : ∀ c ∈ b64encode bs,
    c ≠ ',' ∧ isPySpace c = false := by
  intro c hc
  rcases mem_b64encode bs c hc with h | rfl
  · exact b64chars_plain c h
  · exact ⟨by decide, by decide⟩

/-! ## Scanner-string lemmas -/

theorem simpleStr_csvSafe {s : Str} (h : SimpleStr s) : CsvSafe s := by
  intro c hc
  obtain ⟨_, _, h3, h4⟩ := h c hc
  refine ⟨h3, ?_⟩
  intro hn; subst hn; simp [isPySpace] at h4

theorem pyLstrip_cons_of_not_space {c : Char} (h : isPySpace c = false) (l : Str) :
    pyLstrip (c :: l) = c :: l := by
  simp [pyLstrip, List.dropWhile_cons, h]

theorem pyLstrip_id {l : Str} (h : ∀ c ∈ l, isPySpace c = false) : pyLstrip l = l := by
  cases l with
  | nil => rfl
  | cons c t => exact pyLstrip_cons_of_not_space (h c (by simp)) t

theorem pyRstrip_id {l : Str} (h : ∀ c ∈ l, isPySpace c = false) : pyRstrip l = l := by
  unfold pyRstrip
  rcases hr : l.reverse with _ | ⟨x, t⟩
  · have : l = [] := by simpa using congrArg List.reverse hr
    simp [this]
  · have hx : x ∈ l := by
      rw [← List.mem_reverse, hr]
      exact List.mem_cons_self _ _
    rw [List.dropWhile_cons, if_neg (by simp [h x hx]), ← hr, List.reverse_reverse]

theorem pyStrip_id {l : Str} (h : ∀ c ∈ l, isPySpace c = false) : pyStrip l = l := by
  unfold pyStrip
  rw [pyLstrip_id h, pyRstrip_id h]

theorem splitOnce_not_mem {l : Str} {c : Char} (h : c ∉ l) : splitOnce l c = none := by
  induction l with
  | nil => rfl
  | cons x t ih =>
    have hxc : ¬x = c := by rintro rfl; exact h (by simp)
    simp only [splitOnce, if_neg hxc, ih (fun hm => h (by simp [hm]))]

theorem splitOnce_append {a b : Str} {c : Char} (h : c ∉ a) :
    splitOnce (a ++ c :: b) c = some (a, b) := by
  induction a with
  | nil => simp [splitOnce]
  | cons x t ih =>
    have hxc : ¬x = c := by rintro rfl; exact h (by simp)
    rw [List.cons_append]
    simp only [splitOnce, if_neg hxc, ih (fun hm => h (by simp [hm]))]

theorem splitAll_not_mem {l : Str} {c : Char} (h : c ∉ l) : splitAll l c = [l] := by
  induction l with
  | nil => rfl
  | cons x t ih =>
    have hxc : ¬x = c := by rintro rfl; exact h (by simp)
    simp only [splitAll, ih (fun hm => h (by simp [hm])), if_neg hxc]

theorem splitAll_ne_nil (l : Str) (c : Char) : splitAll l c ≠ [] := by
  cases l with
  | nil => simp [splitAll]
  | cons x t =>
    simp only [splitAll]
    cases hs : splitAll t c with
    | nil => simp
    | cons h1 t1 => by_cases hx : x = c <;> simp [hx]

theorem splitAll_append_cons {a b : Str} {c : Char} (h : c ∉ a) :
    splitAll (a ++ c :: b) c = a :: splitAll b c := by
  induction a with
  | nil =>
    simp only [List.nil_append, splitAll]
    cases hs : splitAll b c with
    | nil => exact absurd hs (splitAll_ne_nil b c)
    | cons h1 t1 => simp
  | cons x t ih =>
    have hxc : ¬x = c := by rintro rfl; exact h (by simp)
    rw [List.cons_append]
    simp only [splitAll, ih (fun hm => h (by simp [hm])), if_neg hxc]

theorem splitAll_joinSep : ∀ (ps : List Str) (c : Char), ps ≠ [] →
    (∀ p ∈ ps, c ∉ p) → splitAll (joinSep [c] ps) c = ps := by
  intro ps
  induction ps with
  | nil => intro c h; exact absurd rfl h
  | cons a t ih =>
    intro c _ hall
    cases t with
    | nil => exact splitAll_not_mem (hall a (by simp))
    | cons b t2 =>
      have : joinSep [c] (a :: b :: t2) = a ++ c :: joinSep [c] (b :: t2) := by
        simp [joinSep]
      rw [this, splitAll_append_cons (hall a (by simp)), ih c (by simp)
        (fun p hp => hall p (by simp [hp]))]

theorem takeWhile_ne_append {a b : Str} {c : Char} (h : c ∉ a) :
    (a ++ c :: b).takeWhile (· ≠ c) = a := by
  induction a with
  | nil => simp [List.takeWhile_cons]
  | cons x t ih =>
    have hxc : ¬x = c := by rintro rfl; exact h (by simp)
    rw [List.cons_append, List.takeWhile_cons, if_pos (by simp [hxc]),
      ih (fun hm => h (by simp [hm]))]

theorem countChar_append (a b : Str) (c : Char) :
    countChar (a ++ b) c = countChar a c + countChar b c := by
  simp [countChar, List.filter_append]

theorem countChar_not_mem {a : Str} {c : Char} (h : c ∉ a) : countChar a c = 0 := by
  simp only [countChar, List.length_eq_zero, List.filter_eq_nil_iff]
  intro x hx
  simp only [decide_eq_true_eq]
  rintro rfl; exact h hx

theorem countChar_joinSep : ∀ (ps : List Str) (c : Char), ps ≠ [] →
    (∀ p ∈ ps, c ∉ p) → countChar (joinSep [c] ps) c = ps.length - 1 := by
  intro ps
  induction ps with
  | nil => intro c h; exact absurd rfl h
  | cons a t ih =>
    intro c _ hall
    cases t with
    | nil => simp [joinSep, countChar_not_mem (hall a (by simp))]
    | cons b t2 =>
      have : joinSep [c] (a :: b :: t2) = a ++ c :: joinSep [c] (b :: t2) := by
        simp [joinSep]
      rw [this]
      have h1 : countChar (a ++ c :: joinSep [c] (b :: t2)) c =
          countChar a c + countChar (c :: joinSep [c] (b :: t2)) c := countChar_append _ _ _
      rw [h1, countChar_not_mem (hall a (by simp))]
      have h2 : countChar (c :: joinSep [c] (b :: t2)) c =
          1 + countChar (joinSep [c] (b :: t2)) c := by
        simp [countChar, List.filter_cons, Nat.add_comm]
      rw [h2, ih c (by simp) (fun p hp => hall p (by simp [hp]))]
      simp only [List.length_cons]
      omega

/-! ## Claim C9: the page-name CSV round trip -/

/-- C9 (counterexample): the claim quantifies over every UTF-8 string, but
for the empty title `Page.to_csv` produces no stored CSV form at all (it
logs and returns `None`), so no decoding can reproduce it. -/
theorem C9_counterexample :
    Page.to_csv { Page.init with
      name := some []
      page_id := some ['1']
      nspace := some ['0'] } = Except.ok (none, [LogMsg.pageNoName]) := by
  rfl

/-- C9 (amended): for every non-empty page name — any UTF-8 string,
including non-ASCII characters — on a page whose id and namespace are set
and contain no commas or whitespace, `Page.to_csv` produces a CSV line and
`Page.from_csv` decodes it back to exactly the original title (and id,
namespace and redirect flag). -/
theorem C9_roundtrip (name pid nsv : Str) (red : Bool) (hname : name ≠ [])
    (hpid : ∀ c ∈ pid, c ≠ ',' ∧ isPySpace c = false)
    (hnsv : ∀ c ∈ nsv, c ≠ ',' ∧ isPySpace c = false) :
    ∃ csv : Str,
      Page.to_csv { Page.init with
        name := some name
        page_id := some pid
        nspace := some nsv
        is_redirect := red } = Except.ok (some csv, []) ∧
      ∃ pg' : Page, Page.from_csv Page.init csv = Except.ok (pg', []) ∧
        pg'.name = some name ∧ pg'.page_id = some pid ∧ pg'.nspace = some nsv ∧
        pg'.is_redirect = red := by
  have hb64plain := b64encode_plain (utf8Encode name)
  refine ⟨joinSep [','] [pid, nsv, b64encode (utf8Encode name),
    if red then ['1'] else ['0']], ?_, ?_⟩
  · simp only [Page.to_csv, pyJoinOpt]
    rw [if_neg hname]
    simp
  · have hcsv_chars : ∀ c ∈ joinSep [','] [pid, nsv, b64encode (utf8Encode name),
        if red then ['1'] else ['0']], isPySpace c = false := by
      intro c hc
      rcases mem_joinSep _ _ c hc with h | ⟨p, hp, hcp⟩
      · simp only [List.mem_singleton] at h
        subst h; decide
      · simp only [List.mem_cons, List.mem_singleton, List.not_mem_nil, or_false] at hp
        rcases hp with rfl | rfl | rfl | rfl
        · exact (hpid c hcp).2
        · exact (hnsv c hcp).2
        · exact (hb64plain c hcp).2
        · cases red <;> simp_all <;> (rcases hcp with rfl; decide)
    have hsplit : splitAll (joinSep [','] [pid, nsv, b64encode (utf8Encode name),
        if red then ['1'] else ['0']]) ',' =
        [pid, nsv, b64encode (utf8Encode name), if red then ['1'] else ['0']] := by
      apply splitAll_joinSep _ _ (by simp)
      intro p hp
      simp only [List.mem_cons, List.mem_singleton, List.not_mem_nil, or_false] at hp
      rcases hp with rfl | rfl | rfl | rfl
      · exact fun hm => (hpid ',' hm).1 rfl
      · exact fun hm => (hnsv ',' hm).1 rfl
      · exact fun hm => (hb64plain ',' hm).1 rfl
      · cases red <;> decide
    simp only [Page.from_csv]
    rw [pyStrip_id hcsv_chars, hsplit]
    simp only [b64decode_encode (utf8Encode name) (fun b hb => mem_utf8Encode_lt hb),
      utf8Decode_encode, Page.add_id, Page.init]
    cases red <;> exact ⟨_, rfl, rfl, rfl, rfl, rfl⟩

/-! ## Line-decoding lemmas -/

theorem findIdx?_append_self : ∀ (a : Str) (c : Char) (rest : Str) (i : Nat), c ∉ a →
    List.findIdx? (fun x => x = c) (a ++ c :: rest) i = some (i + a.length) := by
  intro a
  induction a with
  | nil => intro c rest i _; simp [List.findIdx?_cons]
  | cons x t ih =>
    intro c rest i h
    have hxc : ¬x = c := by rintro rfl; exact h (by simp)
    rw [List.cons_append, List.findIdx?_cons, if_neg (by simp [hxc]),
      ih c rest (i + 1) (fun hm => h (by simp [hm]))]
    have harith : i + 1 + t.length = i + (x :: t).length := by simp; omega
    rw [harith]

theorem pyFind_tagline (tag rest : Str) (h : '>' ∉ tag) :
    pyFind ('<' :: (tag ++ '>' :: rest)) '>' = ((tag.length + 1 : Nat) : Int) := by
  unfold pyFind
  rw [List.findIdx?_cons]
  simp only [show decide ('<' = '>') = false from by decide, Bool.false_eq_true, if_false]
  rw [findIdx?_append_self tag '>' rest 1 h]
  simp [Nat.add_comm]

theorem tagnameOf_tagline (tag rest : Str) (h : '>' ∉ tag) :
    tagnameOf ('<' :: (tag ++ '>' :: rest)) = tag := by
  unfold tagnameOf
  rw [pyFind_tagline tag rest h]
  rw [if_neg (by omega)]
  simp only [List.drop_one, List.tail_cons, Int.toNat_natCast, Nat.add_sub_cancel]
  exact List.take_left tag ('>' :: rest)

theorem get_oneline_leaf (tag v : Str) (hgt : '>' ∉ tag) (hlt : '<' ∉ v)
    (hsp : ∀ c ∈ v, isPySpace c = false) :
    get_oneline_tag (leafLine tag v) = (v, []) := by
  unfold get_oneline_tag leafLine
  rw [show ('<' :: (tag ++ '>' :: (v ++ '<' :: '/' :: (tag ++ ['>'])))) =
    (('<' :: tag) ++ '>' :: (v ++ '<' :: '/' :: (tag ++ ['>']))) from rfl]
  rw [splitOnce_append (by
    intro hm
    rcases List.mem_cons.mp hm with h2 | h2
    · exact absurd h2 (by decide)
    · exact hgt h2)]
  simp only [splitOnce_append hlt, pyStrip_id hsp]

theorem simple_no_lt {v : Str} (hv : SimpleStr v) : '<' ∉ v := fun h => (hv _ h).1 rfl

theorem simple_no_gt {v : Str} (hv : SimpleStr v) : '>' ∉ v := fun h => (hv _ h).2.1 rfl

theorem simple_no_space {v : Str} (hv : SimpleStr v) : ∀ c ∈ v, isPySpace c = false :=
  fun _ hc => (hv _ hc).2.2.2

theorem oneline_id {v : Str} (hv : SimpleStr v) :
    get_oneline_tag (leafLine ("id".toList) v) = (v, []) :=
  get_oneline_leaf _ v (by decide) (simple_no_lt hv) (simple_no_space hv)

theorem oneline_username {v : Str} (hv : SimpleStr v) :
    get_oneline_tag (leafLine ("username".toList) v) = (v, []) :=
  get_oneline_leaf _ v (by decide) (simple_no_lt hv) (simple_no_space hv)

theorem oneline_ip {v : Str} (hv : SimpleStr v) :
    get_oneline_tag (leafLine ("ip".toList) v) = (v, []) :=
  get_oneline_leaf _ v (by decide) (simple_no_lt hv) (simple_no_space hv)

theorem oneline_timestamp {v : Str} (hv : SimpleStr v) :
    get_oneline_tag (leafLine ("timestamp".toList) v) = (v, []) :=
  get_oneline_leaf _ v (by decide) (simple_no_lt hv) (simple_no_space hv)

theorem oneline_ns {v : Str} (hv : SimpleStr v) :
    get_oneline_tag (leafLine ("ns".toList) v) = (v, []) :=
  get_oneline_leaf _ v (by decide) (simple_no_lt hv) (simple_no_space hv)

theorem oneline_title {v : Str} (hv : SimpleStr v) :
    get_oneline_tag (leafLine ("title".toList) v) = (v, []) :=
  get_oneline_leaf _ v (by decide) (simple_no_lt hv) (simple_no_space hv)

theorem processLine_open_page (H : Str → Str) (st : Crawler) :
    Crawler.process_line H st (openLine ("page".toList)) =
      .ok { st with current_page := some Page.init } := rfl

theorem processLine_open_revision (H : Str → Str) (st : Crawler) (pg : Page)
    (hpg : st.current_page = some pg) :
    Crawler.process_line H st (openLine ("revision".toList)) =
      .ok { st with current_revision := some Revision.init } := by
  have h0 : Crawler.process_line H st (openLine ("revision".toList)) =
      (match st.current_page with
       | none => .ok st
       | some _ => .ok { st with current_revision := some Revision.init }) := rfl
  rw [h0, hpg]

theorem processLine_open_contributor (H : Str → Str) (st : Crawler) (pg : Page)
    (hpg : st.current_page = some pg) :
    Crawler.process_line H st (openLine ("contributor".toList)) =
      .ok { st with current_user := some User.init } := by
  have h0 : Crawler.process_line H st (openLine ("contributor".toList)) =
      (match st.current_page with
       | none => .ok st
       | some _ => .ok { st with current_user := some User.init }) := rfl
  rw [h0, hpg]

theorem processLine_deleted (H : Str → Str) (st : Crawler) (pg : Page)
    (hpg : st.current_page = some pg) :
    Crawler.process_line H st deletedLine =
      .ok { st with
        current_user := some create_deleted_user
        deleted_user_edits := st.deleted_user_edits + 1 } := by
  have h0 : Crawler.process_line H st deletedLine =
      (match st.current_page with
       | none => .ok st
       | some _ => .ok { st with
          current_user := some create_deleted_user
          deleted_user_edits := st.deleted_user_edits + 1 }) := rfl
  rw [h0, hpg]

theorem processLine_redirect (H : Str → Str) (st : Crawler) (pg : Page)
    (hpg : st.current_page = some pg) :
    Crawler.process_line H st redirectLine =
      .ok { st with current_page := some { pg with is_redirect := true } } := by
  have h0 : Crawler.process_line H st redirectLine =
      (match st.current_page with
       | none => .ok st
       | some pg => .ok { st with current_page := some { pg with is_redirect := true } }) := rfl
  rw [h0, hpg]

theorem processLine_close_revision (H : Str → Str) (st : Crawler) :
    Crawler.process_line H st (closeLine ("revision".toList)) = st.reset_revision := by
  have h0 : Crawler.process_line H st (closeLine ("revision".toList)) =
      (match st.reset_revision with
       | .error e => .error e
       | .ok s2 => .ok s2) := rfl
  rw [h0]
  cases st.reset_revision <;> rfl

theorem processLine_close_page (H : Str → Str) (st : Crawler) :
    Crawler.process_line H st (closeLine ("page".toList)) = st.reset_page := rfl




theorem tagnameOf_id (v : Str) :
    tagnameOf ('<' :: 'i' :: 'd' :: '>' :: v) = ("id".toList : Str) :=
  tagnameOf_tagline ("id".toList) v (by decide)

theorem oneline_idX {v : Str} (hv : SimpleStr v) :
    get_oneline_tag ('<' :: 'i' :: 'd' :: '>' :: (v ++ ['<', '/', 'i', 'd', '>'])) = (v, []) :=
  oneline_id hv

theorem tagnameOf_username (v : Str) :
    tagnameOf ('<' :: 'u' :: 's' :: 'e' :: 'r' :: 'n' :: 'a' :: 'm' :: 'e' :: '>' :: v) = ("username".toList : Str) :=
  tagnameOf_tagline ("username".toList) v (by decide)

theorem oneline_usernameX {v : Str} (hv : SimpleStr v) :
    get_oneline_tag ('<' :: 'u' :: 's' :: 'e' :: 'r' :: 'n' :: 'a' :: 'm' :: 'e' :: '>' :: (v ++ ['<', '/', 'u', 's', 'e', 'r', 'n', 'a', 'm', 'e', '>'])) = (v, []) :=
  oneline_username hv

theorem tagnameOf_ip (v : Str) :
    tagnameOf ('<' :: 'i' :: 'p' :: '>' :: v) = ("ip".toList : Str) :=
  tagnameOf_tagline ("ip".toList) v (by decide)

theorem oneline_ipX {v : Str} (hv : SimpleStr v) :
    get_oneline_tag ('<' :: 'i' :: 'p' :: '>' :: (v ++ ['<', '/', 'i', 'p', '>'])) = (v, []) :=
  oneline_ip hv

theorem tagnameOf_timestamp (v : Str) :
    tagnameOf ('<' :: 't' :: 'i' :: 'm' :: 'e' :: 's' :: 't' :: 'a' :: 'm' :: 'p' :: '>' :: v) = ("timestamp".toList : Str) :=
  tagnameOf_tagline ("timestamp".toList) v (by decide)

theorem oneline_timestampX {v : Str} (hv : SimpleStr v) :
    get_oneline_tag ('<' :: 't' :: 'i' :: 'm' :: 'e' :: 's' :: 't' :: 'a' :: 'm' :: 'p' :: '>' :: (v ++ ['<', '/', 't', 'i', 'm', 'e', 's', 't', 'a', 'm', 'p', '>'])) = (v, []) :=
  oneline_timestamp hv

theorem tagnameOf_ns (v : Str) :
    tagnameOf ('<' :: 'n' :: 's' :: '>' :: v) = ("ns".toList : Str) :=
  tagnameOf_tagline ("ns".toList) v (by decide)

theorem oneline_nsX {v : Str} (hv : SimpleStr v) :
    get_oneline_tag ('<' :: 'n' :: 's' :: '>' :: (v ++ ['<', '/', 'n', 's', '>'])) = (v, []) :=
  oneline_ns hv

theorem tagnameOf_title (v : Str) :
    tagnameOf ('<' :: 't' :: 'i' :: 't' :: 'l' :: 'e' :: '>' :: v) = ("title".toList : Str) :=
  tagnameOf_tagline ("title".toList) v (by decide)

theorem oneline_titleX {v : Str} (hv : SimpleStr v) :
    get_oneline_tag ('<' :: 't' :: 'i' :: 't' :: 'l' :: 'e' :: '>' :: (v ++ ['<', '/', 't', 'i', 't', 'l', 'e', '>'])) = (v, []) :=
  oneline_title hv


theorem processLine_leaf_username (H : Str → Str) (st : Crawler) (v : Str) (pg : Page) (u : User)
    (hv : SimpleStr v) (hpg : st.current_page = some pg) (hu : st.current_user = some u) :
    Crawler.process_line H st (leafLine ("username".toList) v) =
      .ok { st with
        current_user := some (u.add_name v).1
        logs := st.logs ++ (u.add_name v).2 } := by
  have hone := oneline_usernameX hv
  rcases hadd : u.add_name v with ⟨u2, lgs2⟩
  simp [Crawler.process_line, leafLine, pyLstrip, isPySpace, tagnameOf_username, hone, hadd, hpg,
    hu]



theorem pyLstrip_leafLine (tag v : Str) : pyLstrip (leafLine tag v) = leafLine tag v :=
  pyLstrip_cons_of_not_space (by decide) _

theorem pyLstrip_openLine (tag : Str) : pyLstrip (openLine tag) = openLine tag :=
  pyLstrip_cons_of_not_space (by decide) _

theorem processLine_nopage (H : Str → Str) (st : Crawler) (line : Str)
    (hpg : st.current_page = none)
    (c1 : Char) (r : Str) (hl : pyLstrip line = '<' :: c1 :: r) (hc1 : ¬c1 = '/')
    (hname : tagnameOf ('<' :: c1 :: r) ≠ (['p', 'a', 'g', 'e'] : Str)) :
    Crawler.process_line H st line = .ok st := by
  unfold Crawler.process_line
  rw [hl]
  simp [hc1, hname, hpg]

theorem processLine_leaf_id_user (H : Str → Str) (st : Crawler) (v : Str) (pg : Page) (u : User)
    (hv : SimpleStr v) (hpg : st.current_page = some pg) (hu : st.current_user = some u) :
    Crawler.process_line H st (leafLine ("id".toList) v) =
      .ok { st with
        current_user := some (u.add_id v).1
        logs := st.logs ++ (u.add_id v).2 } := by
  have hone := oneline_idX hv
  rcases hadd : u.add_id v with ⟨u2, lgs2⟩
  simp [Crawler.process_line, leafLine, pyLstrip, isPySpace, tagnameOf_id, hone, hadd, hpg, hu]

theorem processLine_leaf_id_revision (H : Str → Str) (st : Crawler) (v : Str) (pg : Page)
    (rv : Revision) (hv : SimpleStr v) (hpg : st.current_page = some pg)
    (hu : st.current_user = none) (hr : st.current_revision = some rv) :
    Crawler.process_line H st (leafLine ("id".toList) v) =
      .ok { st with
        current_revision := some (rv.add_id v).1
        logs := st.logs ++ (rv.add_id v).2 } := by
  have hone := oneline_idX hv
  rcases hadd : rv.add_id v with ⟨rv2, lgs2⟩
  simp [Crawler.process_line, leafLine, pyLstrip, isPySpace, tagnameOf_id, hone, hadd, hpg, hu,
    hr]

theorem processLine_leaf_id_page (H : Str → Str) (st : Crawler) (v : Str) (pg : Page)
    (hv : SimpleStr v) (hpg : st.current_page = some pg)
    (hu : st.current_user = none) (hr : st.current_revision = none) :
    Crawler.process_line H st (leafLine ("id".toList) v) =
      .ok { st with
        current_page := some (pg.add_id v).1
        logs := st.logs ++ (pg.add_id v).2 } := by
  have hone := oneline_idX hv
  rcases hadd : pg.add_id v with ⟨pg2, lgs2⟩
  simp [Crawler.process_line, leafLine, pyLstrip, isPySpace, tagnameOf_id, hone, hadd, hpg, hu,
    hr]

theorem processLine_leaf_timestamp (H : Str → Str) (st : Crawler) (v : Str) (pg : Page)
    (rv : Revision) (hv : SimpleStr v) (hpg : st.current_page = some pg)
    (hr : st.current_revision = some rv) :
    Crawler.process_line H st (leafLine ("timestamp".toList) v) =
      .ok { st with
        current_revision := some (rv.add_month v).1
        logs := st.logs ++ (rv.add_month v).2 } := by
  have hone := oneline_timestampX hv
  rcases hadd : rv.add_month v with ⟨rv2, lgs2⟩
  simp [Crawler.process_line, leafLine, pyLstrip, isPySpace, tagnameOf_timestamp, hone, hadd,
    hpg, hr]

theorem processLine_leaf_title (H : Str → Str) (st : Crawler) (v : Str) (pg : Page)
    (hv : SimpleStr v) (hne : v ≠ []) (hpg : st.current_page = some pg) :
    Crawler.process_line H st (leafLine ("title".toList) v) =
      .ok { st with current_page := some { pg with name := some v } } := by
  have hone := oneline_titleX hv
  simp [Crawler.process_line, leafLine, pyLstrip, isPySpace, tagnameOf_title, hone, hpg, hne]

theorem processLine_leaf_ns (H : Str → Str) (st : Crawler) (v : Str) (pg : Page)
    (hv : SimpleStr v) (hpg : st.current_page = some pg) :
    Crawler.process_line H st (leafLine ("ns".toList) v) =
      (if v ≠ ['0'] ∧ st.mainspace_only then .ok { st with current_page := none }
       else .ok { st with current_page := some { pg with nspace := some v } }) := by
  have hone := oneline_nsX hv
  simp only [Crawler.process_line, leafLine, pyLstrip, isPySpace, tagnameOf_ns, hone, hpg]
  simp [Crawler.process_line, leafLine, pyLstrip, isPySpace, tagnameOf_ns, hone, hpg]

theorem processLine_leaf_ip_mem (H : Str → Str) (st : Crawler) (v : Str) (pg : Page) (u : User)
    (uid : Str) (hv : SimpleStr v) (hpg : st.current_page = some pg)
    (hu : st.current_user = some u) (hmem : v ∈ st.ips) (hlook : alookup st.ip2id v = some uid) :
    Crawler.process_line H st (leafLine ("ip".toList) v) =
      .ok { st with current_user := some { u with ip := some v, user_id := some uid } } := by
  have hone := oneline_ipX hv
  simp [Crawler.process_line, leafLine, pyLstrip, isPySpace, tagnameOf_ip, hone, hpg, hu, hmem,
    hlook]

theorem processLine_leaf_ip_new (H : Str → Str) (st : Crawler) (v : Str) (pg : Page) (u : User)
    (hv : SimpleStr v) (hpg : st.current_page = some pg)
    (hu : st.current_user = some u) (hmem : v ∉ st.ips) :
    Crawler.process_line H st (leafLine ("ip".toList) v) =
      .ok { st with
        ip2id := aset st.ip2id v (ipLabel st.ip_count)
        current_user := some { ({ u with ip := some v }.add_name (H v)).1 with
          is_new := true
          user_id := some (ipLabel st.ip_count) }
        logs := st.logs ++ ({ u with ip := some v }.add_name (H v)).2 } := by
  have hone := oneline_ipX hv
  rcases hadd : ({ u with ip := some v }).add_name (H v) with ⟨u2, lgs2⟩
  simp [Crawler.process_line, leafLine, pyLstrip, isPySpace, tagnameOf_ip, hone, hpg, hu, hmem,
    hadd, Crawler.get_id_and_name_for_ip, ipLabel]

end DumpsterDiver

namespace DumpsterDiver

@[simp] theorem revTick_mainspace_only (st : Crawler) : (revTick st).mainspace_only = st.mainspace_only := by
  simp only [revTick]
  split <;> rfl

@[simp] theorem revTick_split_by_year (st : Crawler) : (revTick st).split_by_year = st.split_by_year := by
  simp only [revTick]
  split <;> rfl

@[simp] theorem revTick_user_ids (st : Crawler) : (revTick st).user_ids = st.user_ids := by
  simp only [revTick]
  split <;> rfl

@[simp] theorem revTick_ips (st : Crawler) : (revTick st).ips = st.ips := by
  simp only [revTick]
  split <;> rfl

@[simp] theorem revTick_ip_count (st : Crawler) : (revTick st).ip_count = st.ip_count := by
  simp only [revTick]
  split <;> rfl

@[simp] theorem revTick_ip2id (st : Crawler) : (revTick st).ip2id = st.ip2id := by
  simp only [revTick]
  split <;> rfl

@[simp] theorem revTick_linecount (st : Crawler) : (revTick st).linecount = st.linecount := by
  simp only [revTick]
  split <;> rfl

@[simp] theorem revTick_deleted_user_edits (st : Crawler) : (revTick st).deleted_user_edits = st.deleted_user_edits := by
  simp only [revTick]
  split <;> rfl

@[simp] theorem revTick_current_page (st : Crawler) : (revTick st).current_page = st.current_page := by
  simp only [revTick]
  split <;> rfl

@[simp] theorem revTick_current_revision (st : Crawler) : (revTick st).current_revision = st.current_revision := by
  simp only [revTick]
  split <;> rfl

@[simp] theorem revTick_current_user (st : Crawler) : (revTick st).current_user = st.current_user := by
  simp only [revTick]
  split <;> rfl

@[simp] theorem revTick_written (st : Crawler) : (revTick st).written = st.written := by
  simp only [revTick]
  split <;> rfl

@[simp] theorem revTick_revcount (st : Crawler) : (revTick st).revcount = st.revcount + 1 := by
  simp only [revTick]
  split <;> rfl

@[simp] theorem revTick_logs (st : Crawler) : (revTick st).logs =
    st.logs ++ (if (st.revcount + 1) % 5000000 = 0 then [LogMsg.reachedRevision] else []) := by
  simp only [revTick]
  split <;> simp_all

theorem reset_revision_nopage (st : Crawler) (hpg : st.current_page = none) :
    st.reset_revision = .ok { revTick st with
      current_revision := none
      current_user := none } := by
  simp [Crawler.reset_revision, hpg]

theorem reset_revision_norev (st : Crawler) (pg : Page) (hpg : st.current_page = some pg)
    (hrev : st.current_revision = none) :
    st.reset_revision = .ok { revTick st with
      current_revision := none
      current_user := none } := by
  simp [Crawler.reset_revision, hpg, hrev]

theorem reset_revision_nouser (st : Crawler) (pg : Page) (rv : Revision)
    (hpg : st.current_page = some pg) (hrev : st.current_revision = some rv)
    (huser : st.current_user = none) :
    st.reset_revision = .ok { revTick { st with logs := st.logs ++ [LogMsg.revisionNoUser] } with
      current_revision := none
      current_user := none } := by
  simp [Crawler.reset_revision, hpg, hrev, huser]

theorem reset_revision_commit (st : Crawler) (pg : Page) (rv : Revision) (u : User)
    (hpg : st.current_page = some pg) (hrev : st.current_revision = some rv)
    (huser : st.current_user = some u) (hid : u.user_id.isSome = true) :
    st.reset_revision = .ok { revTick (pCommit st u rv pg).1 with
      current_page := some (pCommit st u rv pg).2
      current_revision := none
      current_user := none } := by
  obtain ⟨uid, huid⟩ := Option.isSome_iff_exists.mp hid
  by_cases hip : (ipTruthy u && u.is_new) = true
  all_goals by_cases hmem : some uid ∈ st.user_ids
  all_goals rcases hname : u.name with _ | n
  all_goals try by_cases hn : n = []
  all_goals
    first
    | simp [Crawler.reset_revision, Crawler.add_user, Crawler.write_current_user,
        User.to_csv, userRow, pCommit, Crawler.write_output_line, hpg, hrev, huser, hip, hmem,
        hname, huid, pyJoinOpt, joinSep, hn]
    | simp [Crawler.reset_revision, Crawler.add_user, Crawler.write_current_user,
        User.to_csv, userRow, pCommit, Crawler.write_output_line, hpg, hrev, huser, hip, hmem,
        hname, huid, pyJoinOpt, joinSep]

end DumpsterDiver

namespace DumpsterDiver

/-- The key-shape condition on an open page that makes its `</page>` flush
succeed: id and namespace set and CSV-safe, and every accumulated
`user_months` key fully populated with CSV-safe strings. -/
theorem upmLine_ok (pg : Page) (uid mo : Option Str) (cnt : Nat)
    (huid : uid.isSome = true) (hmo : mo.isSome = true)
    (hpid : pg.page_id.isSome = true) (hns : pg.nspace.isSome = true) :
    pg.upmLine false uid mo cnt = .ok ([], upmLine0 pg ((uid, mo), cnt)) := by
  obtain ⟨u0, hu0⟩ := Option.isSome_iff_exists.mp huid
  obtain ⟨m0, hm0⟩ := Option.isSome_iff_exists.mp hmo
  obtain ⟨p0, hp0⟩ := Option.isSome_iff_exists.mp hpid
  obtain ⟨n0, hn0⟩ := Option.isSome_iff_exists.mp hns
  simp [Page.upmLine, upmLine0, pyJoinOpt, hu0, hm0, hp0, hn0]

theorem gupmAux_flat (pg : Page) (hpid : pg.page_id.isSome = true)
    (hns : pg.nspace.isSome = true) :
    ∀ (entries : List ((Option Str × Option Str) × Nat)) (ls : List Str),
      (∀ e ∈ entries, e.1.1.isSome = true ∧ e.1.2.isSome = true) →
      pg.gupmAux false entries [([], ls)] = .ok [([], ls ++ entries.map (upmLine0 pg))] := by
  intro entries
  induction entries with
  | nil => intro ls _; simp [Page.gupmAux]
  | cons e t ih =>
    intro ls hall
    obtain ⟨⟨uid, mo⟩, cnt⟩ := e
    have hline := upmLine_ok pg uid mo cnt (hall ((uid, mo), cnt) (by simp)).1
      (hall ((uid, mo), cnt) (by simp)).2 hpid hns
    have hga : groupAppend [([], ls)] [] (upmLine0 pg ((uid, mo), cnt)) =
        [([], ls ++ [upmLine0 pg ((uid, mo), cnt)])] := by
      simp [groupAppend, alookup, aset]
    simp only [Page.gupmAux, hline, hga]
    rw [ih (ls ++ [upmLine0 pg ((uid, mo), cnt)]) (fun x hx => hall x (by simp [hx]))]
    simp

theorem gupmAux_start (pg : Page) (hpid : pg.page_id.isSome = true)
    (hns : pg.nspace.isSome = true) (entries : List ((Option Str × Option Str) × Nat))
    (hne : entries ≠ [])
    (hall : ∀ e ∈ entries, e.1.1.isSome = true ∧ e.1.2.isSome = true) :
    pg.gupmAux false entries [] = .ok [([], entries.map (upmLine0 pg))] := by
  cases entries with
  | nil => exact absurd rfl hne
  | cons e t =>
    obtain ⟨⟨uid, mo⟩, cnt⟩ := e
    have hline := upmLine_ok pg uid mo cnt (hall ((uid, mo), cnt) (by simp)).1
      (hall ((uid, mo), cnt) (by simp)).2 hpid hns
    have hga : groupAppend [] [] (upmLine0 pg ((uid, mo), cnt)) =
        [([], [upmLine0 pg ((uid, mo), cnt)])] := by
      simp [groupAppend, alookup]
    simp only [Page.gupmAux, hline, hga]
    rw [gupmAux_flat pg hpid hns t _ (fun x hx => hall x (by simp [hx]))]
    simp

theorem dedup_const : ∀ (l : List Nat) (n : Nat), l ≠ [] → (∀ x ∈ l, x = n) →
    l.dedup = [n] := by
  intro l
  induction l with
  | nil => intro n h; exact absurd rfl h
  | cons a t ih =>
    intro n _ hall
    have ha : a = n := hall a (by simp)
    cases t with
    | nil => simp [ha]
    | cons b t2 =>
      have hb : b = n := hall b (by simp)
      rw [List.dedup_cons_of_mem (by rw [ha, ← hb]; simp)]
      exact ih n (by simp) (fun x hx => hall x (by simp [hx]))

theorem countChar_upmLine0 (pg : Page) (e : (Option Str × Option Str) × Nat)
    (h1 : CsvSafe (e.1.1.getD [])) (h2 : CsvSafe (e.1.2.getD []))
    (hpid : CsvSafe (pg.page_id.getD [])) (hns : CsvSafe (pg.nspace.getD [])) :
    countChar (upmLine0 pg e) ',' = 5 := by
  unfold upmLine0
  rw [countChar_joinSep _ ',' (by simp) ?hall]
  · rfl
  case hall =>
    intro p hp
    simp only [List.mem_cons, List.not_mem_nil, or_false] at hp
    rcases hp with rfl | rfl | rfl | rfl | rfl | rfl
    · exact fun hm => (h1 ',' hm).1 rfl
    · exact fun hm => (hpid ',' hm).1 rfl
    · exact fun hm => (hns ',' hm).1 rfl
    · split <;> decide
    · exact fun hm => (h2 ',' hm).1 rfl
    · exact fun hm => (csvSafe_natToStr _ ',' hm).1 rfl

theorem writeGroups_single (st : Crawler) (pg : Page) (hpgok : PgOK pg)
    (hne : pg.user_months ≠ []) :
    st.writeGroups [([], upmLines pg)] =
      st.write_output_line ("user_page_months_output".toList) (joinSep ['\n'] (upmLines pg))
        (some []) := by
  obtain ⟨h1, h2, h3, h4, h5⟩ := hpgok
  simp only [Crawler.writeGroups]
  rw [if_neg ?hcnt]
  case hcnt =>
    have hmap : (upmLines pg).map (fun x => countChar x ',') =
        (upmLines pg).map (fun _ => 5) := by
      apply List.map_congr_left
      intro x hx
      obtain ⟨e, he, rfl⟩ := List.mem_map.mp hx
      exact countChar_upmLine0 pg e (h5 e he).2.1 (h5 e he).2.2.2 h3 h4
    rw [hmap]
    rw [dedup_const _ 5 ?hne2 (by intro x hx; obtain ⟨e, _, rfl⟩ := List.mem_map.mp hx; rfl)]
    · simp
    case hne2 => simpa [upmLines] using hne

end DumpsterDiver

namespace DumpsterDiver

theorem get_user_page_months_eval (pg : Page) (hpgok : PgOK pg) :
    pg.get_user_page_months false =
      .ok (if pg.user_months = [] then ([], [LogMsg.pageNoRevisions])
        else ([([], upmLines pg)], [])) := by
  obtain ⟨h1, h2, _, _, h5⟩ := hpgok
  unfold Page.get_user_page_months
  by_cases hum : pg.user_months = []
  · simp [hum, Page.gupmAux]
  · rw [gupmAux_start pg h1 h2 pg.user_months hum
      (fun e he => ⟨(h5 e he).1, (h5 e he).2.2.1⟩)]
    simp [hum, upmLines]

theorem to_csv_eval (pg : Page) (hpid : pg.page_id.isSome = true)
    (hns : pg.nspace.isSome = true) :
    pg.to_csv = .ok (pageRow pg,
      match pageRow pg with | none => [LogMsg.pageNoName] | some _ => []) := by
  obtain ⟨p0, hp0⟩ := Option.isSome_iff_exists.mp hpid
  obtain ⟨n0, hn0⟩ := Option.isSome_iff_exists.mp hns
  rcases hname : pg.name with _ | n
  · simp [Page.to_csv, pageRow, hname]
  · by_cases hn : n = []
    · simp [Page.to_csv, pageRow, hname, hn]
    · simp [Page.to_csv, pageRow, hname, hn, pyJoinOpt, hp0, hn0]

theorem reset_page_eval (st : Crawler) (pg : Page) (hpg : st.current_page = some pg)
    (hrev : st.current_revision = none) (huser : st.current_user = none)
    (hsby : st.split_by_year = false) (hpgok : PgOK pg) :
    st.reset_page = .ok (pCloseCore st pg) := by
  have hgupm := get_user_page_months_eval pg hpgok
  have hcsv := to_csv_eval pg hpgok.1 hpgok.2.1
  rcases hrow : pageRow pg with _ | csv <;> by_cases hum : pg.user_months = [] <;>
    first
    | simp_all [Crawler.reset_page, Crawler.write_current_page_months,
        Crawler.write_current_page, pCloseCore, Crawler.write_output_line,
        writeGroups_single _ pg hpgok hum]
    | simp_all [Crawler.reset_page, Crawler.write_current_page_months,
        Crawler.write_current_page, pCloseCore, Crawler.write_output_line]

end DumpsterDiver

namespace DumpsterDiver

theorem processLines_contrib (H : Str → Str) (st : Crawler) (pg : Page) (c : Contrib)
    (hwf : WFContrib c) (hpg : st.current_page = some pg) (hu : st.current_user = none)
    (hips : ∀ ip ∈ st.ips, (alookup st.ip2id ip).isSome = true) :
    processLines H st (contribLines c) = .ok { (pUser H st c).1 with
      current_user := some (pUser H st c).2
      linecount := st.linecount + (contribLines c).length } := by
  cases c with
  | registered uid uname =>
    obtain ⟨hwuid, hwuname, hwne⟩ := hwf
    simp only [contribLines, processLines,
      processLine_open_contributor H st pg hpg]
    rw [processLine_leaf_username H _ uname pg User.init hwuname (by simp [hpg]) (by simp)]
    simp only [User.add_name, User.init, processLines]
    rw [processLine_leaf_id_user H _ uid pg
      { user_id := none, name := some uname, is_new := false, ip := none } hwuid
      (by simp [hpg]) (by simp)]
    simp [User.add_id, processLines, pUser, contribLines]
  | anon ip =>
    obtain ⟨hwip, hwne⟩ := hwf
    simp only [contribLines, processLines,
      processLine_open_contributor H st pg hpg]
    by_cases hmem : ip ∈ st.ips
    · obtain ⟨uid, huid⟩ := Option.isSome_iff_exists.mp (hips ip hmem)
      rw [processLine_leaf_ip_mem H _ ip pg User.init uid hwip (by simp [hpg]) (by simp)
        (by simpa) (by simpa)]
      simp [processLines, pUser, hmem, User.init, huid, contribLines]
    · rw [processLine_leaf_ip_new H _ ip pg User.init hwip (by simp [hpg]) (by simp)
        (by simpa)]
      simp [processLines, pUser, hmem, User.init, User.add_name, contribLines]
  | deleted =>
    simp only [contribLines, processLines, processLine_deleted H st pg hpg, pUser]
    simp [contribLines]

end DumpsterDiver

namespace DumpsterDiver

theorem processLines_append (H : Str → Str) (a : List Str) :
    ∀ (st : Crawler) (b : List Str), processLines H st (a ++ b) =
      (match processLines H st a with
       | .error e => .error e
       | .ok s => processLines H s b) := by
  induction a with
  | nil => intro st b; simp [processLines]
  | cons l t ih =>
    intro st b
    rw [List.cons_append]
    simp only [processLines]
    cases Crawler.process_line H st l with
    | error e => rfl
    | ok s => exact ih _ b

theorem pUser_frame (H : Str → Str) (st : Crawler) (c : Contrib) (cp : Option Page)
    (cr : Option Revision) (cu : Option User) (lc : Nat) :
    pUser H { st with
      current_page := cp
      current_revision := cr
      current_user := cu
      linecount := lc } c =
    ({ (pUser H st c).1 with
      current_page := cp
      current_revision := cr
      current_user := cu
      linecount := lc }, (pUser H st c).2) := by
  cases c with
  | registered uid uname => simp [pUser]
  | deleted => simp [pUser]
  | anon ip =>
    by_cases hmem : ip ∈ st.ips <;> simp [pUser, hmem]

theorem pCommit_frame (st : Crawler) (u : User) (rv : Revision) (pg : Page) (cp : Option Page)
    (cr : Option Revision) (cu : Option User) (lc : Nat) :
    pCommit { st with
      current_page := cp
      current_revision := cr
      current_user := cu
      linecount := lc } u rv pg =
    ({ (pCommit st u rv pg).1 with
      current_page := cp
      current_revision := cr
      current_user := cu
      linecount := lc }, (pCommit st u rv pg).2) := by
  by_cases hip : (ipTruthy u && u.is_new) = true
  all_goals by_cases hmem : u.user_id ∈ st.user_ids
  all_goals rcases hrow : userRow u with _ | csv
  all_goals
    simp [pCommit, Crawler.write_output_line, hip, hmem, hrow]

end DumpsterDiver

namespace DumpsterDiver

@[simp] theorem pUser_fst_current_page (H : Str → Str) (st : Crawler) (c : Contrib) :
    (pUser H st c).1.current_page = st.current_page := by
  cases c <;> simp [pUser] <;> split <;> rfl

@[simp] theorem pUser_fst_current_revision (H : Str → Str) (st : Crawler) (c : Contrib) :
    (pUser H st c).1.current_revision = st.current_revision := by
  cases c <;> simp [pUser] <;> split <;> rfl

@[simp] theorem pUser_fst_current_user (H : Str → Str) (st : Crawler) (c : Contrib) :
    (pUser H st c).1.current_user = st.current_user := by
  cases c <;> simp [pUser] <;> split <;> rfl

@[simp] theorem pUser_fst_linecount (H : Str → Str) (st : Crawler) (c : Contrib) :
    (pUser H st c).1.linecount = st.linecount := by
  cases c <;> simp [pUser] <;> split <;> rfl

theorem pUser_snd_id (H : Str → Str) (st : Crawler) (c : Contrib)
    (hips : ∀ ip ∈ st.ips, (alookup st.ip2id ip).isSome = true) :
    ((pUser H st c).2).user_id.isSome = true := by
  cases c with
  | registered uid uname => simp [pUser]
  | deleted => simp [pUser, create_deleted_user]
  | anon ip =>
    by_cases hmem : ip ∈ st.ips
    · simpa [pUser, hmem] using hips ip hmem
    · simp [pUser, hmem]

@[simp] theorem pCommit_fst_current_page (st : Crawler) (u : User) (rv : Revision) (pg : Page) :
    (pCommit st u rv pg).1.current_page = st.current_page := by
  by_cases hip : (ipTruthy u && u.is_new) = true
  all_goals by_cases hmem : u.user_id ∈ st.user_ids
  all_goals rcases hrow : userRow u with _ | csv
  all_goals simp [pCommit, Crawler.write_output_line, hip, hmem, hrow]

@[simp] theorem pCommit_fst_current_revision (st : Crawler) (u : User) (rv : Revision) (pg : Page) :
    (pCommit st u rv pg).1.current_revision = st.current_revision := by
  by_cases hip : (ipTruthy u && u.is_new) = true
  all_goals by_cases hmem : u.user_id ∈ st.user_ids
  all_goals rcases hrow : userRow u with _ | csv
  all_goals simp [pCommit, Crawler.write_output_line, hip, hmem, hrow]

@[simp] theorem pCommit_fst_current_user (st : Crawler) (u : User) (rv : Revision) (pg : Page) :
    (pCommit st u rv pg).1.current_user = st.current_user := by
  by_cases hip : (ipTruthy u && u.is_new) = true
  all_goals by_cases hmem : u.user_id ∈ st.user_ids
  all_goals rcases hrow : userRow u with _ | csv
  all_goals simp [pCommit, Crawler.write_output_line, hip, hmem, hrow]

@[simp] theorem pCommit_fst_linecount (st : Crawler) (u : User) (rv : Revision) (pg : Page) :
    (pCommit st u rv pg).1.linecount = st.linecount := by
  by_cases hip : (ipTruthy u && u.is_new) = true
  all_goals by_cases hmem : u.user_id ∈ st.user_ids
  all_goals rcases hrow : userRow u with _ | csv
  all_goals simp [pCommit, Crawler.write_output_line, hip, hmem, hrow]

@[simp] theorem pCommit_fst_mainspace_only (st : Crawler) (u : User) (rv : Revision) (pg : Page) :
    (pCommit st u rv pg).1.mainspace_only = st.mainspace_only := by
  by_cases hip : (ipTruthy u && u.is_new) = true
  all_goals by_cases hmem : u.user_id ∈ st.user_ids
  all_goals rcases hrow : userRow u with _ | csv
  all_goals simp [pCommit, Crawler.write_output_line, hip, hmem, hrow]

@[simp] theorem pCommit_fst_split_by_year (st : Crawler) (u : User) (rv : Revision) (pg : Page) :
    (pCommit st u rv pg).1.split_by_year = st.split_by_year := by
  by_cases hip : (ipTruthy u && u.is_new) = true
  all_goals by_cases hmem : u.user_id ∈ st.user_ids
  all_goals rcases hrow : userRow u with _ | csv
  all_goals simp [pCommit, Crawler.write_output_line, hip, hmem, hrow]

@[simp] theorem pCommit_fst_revcount (st : Crawler) (u : User) (rv : Revision) (pg : Page) :
    (pCommit st u rv pg).1.revcount = st.revcount := by
  by_cases hip : (ipTruthy u && u.is_new) = true
  all_goals by_cases hmem : u.user_id ∈ st.user_ids
  all_goals rcases hrow : userRow u with _ | csv
  all_goals simp [pCommit, Crawler.write_output_line, hip, hmem, hrow]

@[simp] theorem pCommit_fst_deleted_user_edits (st : Crawler) (u : User) (rv : Revision) (pg : Page) :
    (pCommit st u rv pg).1.deleted_user_edits = st.deleted_user_edits := by
  by_cases hip : (ipTruthy u && u.is_new) = true
  all_goals by_cases hmem : u.user_id ∈ st.user_ids
  all_goals rcases hrow : userRow u with _ | csv
  all_goals simp [pCommit, Crawler.write_output_line, hip, hmem, hrow]

theorem processLines_revTail (H : Str → Str) (sb : Crawler) (pg : Page) (rv : Revision)
    (c : Contrib) (hwc : WFContrib c) (hpg : sb.current_page = some pg)
    (hrv : sb.current_revision = some rv) (hus : sb.current_user = none)
    (hips : ∀ ip ∈ sb.ips, (alookup sb.ip2id ip).isSome = true) :
    processLines H sb (contribLines c ++ [closeLine ("revision".toList)]) =
      .ok { bump (revTick (pCommit (pUser H sb c).1 (pUser H sb c).2 rv pg).1)
          ((contribLines c).length + 1) with
        current_page := some (pCommit (pUser H sb c).1 (pUser H sb c).2 rv pg).2
        current_revision := none
        current_user := none } := by
  rw [processLines_append, processLines_contrib H sb pg c hwc hpg hus hips]
  simp only [processLines, processLine_close_revision]
  rw [reset_revision_commit _ pg rv (pUser H sb c).2 (by simp [hpg]) (by simp [hrv]) rfl
    (pUser_snd_id H sb c hips)]
  rw [pCommit_frame]
  simp [bump]
  omega

end DumpsterDiver

namespace DumpsterDiver

theorem processLines_rev (H : Str → Str) (st : Crawler) (pg : Page) (r : RevDesc)
    (hwf : WFRev r) (hpg : st.current_page = some pg) (hrev : st.current_revision = none)
    (huser : st.current_user = none)
    (hips : ∀ ip ∈ st.ips, (alookup st.ip2id ip).isSome = true) :
    processLines H st (revLines r) = .ok { (pRev H r (st, pg)).1 with
      current_page := some (pRev H r (st, pg)).2
      current_revision := none
      current_user := none } := by
  obtain ⟨rid, ts, c⟩ := r
  obtain ⟨hwrid, hwts, hwc⟩ := hwf
  rcases rid with _ | rid <;> rcases ts with _ | tsv <;> rcases c with _ | c0
  case none.none.none =>
    have hR := reset_revision_nouser
      { st with current_revision := some Revision.init, linecount := st.linecount + 1 }
      pg Revision.init (by exact hpg) (by rfl) (by exact huser)
    simp only [revLines, List.nil_append, List.cons_append, List.append_nil, List.append_eq,
      processLines, processLine_open_revision H st pg hpg, processLine_close_revision, hR]
    simp [pRev, bump, revLines, Revision.init, hpg, huser]
  case none.none.some =>
    exact absurd hwc.2 (by simp)
  case none.some.none =>
    simp only [revLines, List.nil_append, List.cons_append, List.append_nil, List.append_eq,
      processLines, processLine_open_revision H st pg hpg]
    rw [processLine_leaf_timestamp H
      { st with current_revision := some Revision.init, linecount := st.linecount + 1 }
      tsv pg Revision.init hwts (by simpa using hpg) (by simp)]
    simp only [Revision.add_month, Revision.init, processLines, List.append_nil,
      processLine_close_revision]
    have hR := reset_revision_nouser
      { st with
        current_revision := some { revid := none, month := some (List.take 7 tsv), sha1 := none }
        linecount := st.linecount + 1 + 1 }
      pg { revid := none, month := some (List.take 7 tsv), sha1 := none }
      (by exact hpg) (by rfl) (by exact huser)
    simp only [hR]
    simp [pRev, bump, revLines, hpg, huser]
  case none.some.some =>
    simp only [revLines, List.nil_append, List.cons_append, List.append_nil, List.append_eq,
      processLines, processLine_open_revision H st pg hpg]
    rw [processLine_leaf_timestamp H
      { st with current_revision := some Revision.init, linecount := st.linecount + 1 }
      tsv pg Revision.init hwts (by simpa using hpg) (by simp)]
    simp only [Revision.add_month, Revision.init, processLines, List.append_nil,
      List.append_eq, List.nil_append]
    rw [processLines_revTail H
      { st with
        current_revision := some { revid := none, month := some (List.take 7 tsv), sha1 := none }
        linecount := st.linecount + 1 + 1 }
      pg { revid := none, month := some (List.take 7 tsv), sha1 := none }
      c0 hwc.1 (by exact hpg) (by rfl) (by exact huser) (by simpa using hips)]
    rw [pUser_frame H st c0 st.current_page
      (some { revid := none, month := some (List.take 7 tsv), sha1 := none })
      st.current_user (st.linecount + 1 + 1)]
    rw [pCommit_frame (pUser H st c0).1 (pUser H st c0).2
      { revid := none, month := some (List.take 7 tsv), sha1 := none } pg
      st.current_page
      (some { revid := none, month := some (List.take 7 tsv), sha1 := none })
      st.current_user (st.linecount + 1 + 1)]
    simp [pRev, bump, revLines, contribLines, hpg, huser]
    omega
  case some.none.none =>
    simp only [revLines, List.nil_append, List.cons_append, List.append_nil, List.append_eq,
      processLines, processLine_open_revision H st pg hpg]
    rw [processLine_leaf_id_revision H
      { st with current_revision := some Revision.init, linecount := st.linecount + 1 }
      rid pg Revision.init hwrid (by simpa using hpg) (by simpa using huser) (by simp)]
    simp only [Revision.add_id, Revision.init, processLines, List.append_nil,
      processLine_close_revision]
    have hR := reset_revision_nouser
      { st with
        current_revision := some { revid := some rid, month := none, sha1 := none }
        linecount := st.linecount + 1 + 1 }
      pg { revid := some rid, month := none, sha1 := none }
      (by exact hpg) (by rfl) (by exact huser)
    simp only [hR]
    simp [pRev, bump, revLines, hpg, huser]
  case some.none.some =>
    exact absurd hwc.2 (by simp)
  case some.some.none =>
    simp only [revLines, List.nil_append, List.cons_append, List.append_nil, List.append_eq,
      processLines, processLine_open_revision H st pg hpg]
    rw [processLine_leaf_id_revision H
      { st with current_revision := some Revision.init, linecount := st.linecount + 1 }
      rid pg Revision.init hwrid (by simpa using hpg) (by simpa using huser) (by simp)]
    simp only [Revision.add_id, Revision.init, processLines, List.append_nil]
    rw [processLine_leaf_timestamp H
      { st with
        current_revision := some { revid := some rid, month := none, sha1 := none }
        linecount := st.linecount + 1 + 1 }
      tsv pg { revid := some rid, month := none, sha1 := none } hwts
      (by simpa using hpg) (by simp)]
    simp only [Revision.add_month, processLines, List.append_nil, processLine_close_revision]
    have hR := reset_revision_nouser
      { st with
        current_revision :=
          some { revid := some rid, month := some (List.take 7 tsv), sha1 := none }
        linecount := st.linecount + 1 + 1 + 1 }
      pg { revid := some rid, month := some (List.take 7 tsv), sha1 := none }
      (by exact hpg) (by rfl) (by exact huser)
    simp only [hR]
    simp [pRev, bump, revLines, hpg, huser]
  case some.some.some =>
    simp only [revLines, List.nil_append, List.cons_append, List.append_nil, List.append_eq,
      processLines, processLine_open_revision H st pg hpg]
    rw [processLine_leaf_id_revision H
      { st with current_revision := some Revision.init, linecount := st.linecount + 1 }
      rid pg Revision.init hwrid (by simpa using hpg) (by simpa using huser) (by simp)]
    simp only [Revision.add_id, Revision.init, processLines, List.append_nil]
    rw [processLine_leaf_timestamp H
      { st with
        current_revision := some { revid := some rid, month := none, sha1 := none }
        linecount := st.linecount + 1 + 1 }
      tsv pg { revid := some rid, month := none, sha1 := none } hwts
      (by simpa using hpg) (by simp)]
    simp only [Revision.add_month, processLines, List.append_nil, List.append_eq,
      List.nil_append]
    rw [processLines_revTail H
      { st with
        current_revision :=
          some { revid := some rid, month := some (List.take 7 tsv), sha1 := none }
        linecount := st.linecount + 1 + 1 + 1 }
      pg { revid := some rid, month := some (List.take 7 tsv), sha1 := none }
      c0 hwc.1 (by exact hpg) (by rfl) (by exact huser) (by simpa using hips)]
    rw [pUser_frame H st c0 st.current_page
      (some { revid := some rid, month := some (List.take 7 tsv), sha1 := none })
      st.current_user (st.linecount + 1 + 1 + 1)]
    rw [pCommit_frame (pUser H st c0).1 (pUser H st c0).2
      { revid := some rid, month := some (List.take 7 tsv), sha1 := none } pg
      st.current_page
      (some { revid := some rid, month := some (List.take 7 tsv), sha1 := none })
      st.current_user (st.linecount + 1 + 1 + 1)]
    simp [pRev, bump, revLines, contribLines, hpg, huser]
    omega

theorem alookup_aset [DecidableEq α] (m : List (α × β)) (k : α) (v : β) (x : α) :
    alookup (aset m k v) x = if k = x then some v else alookup m x := by
  induction m with
  | nil => simp [aset, alookup]
  | cons p t ih =>
    obtain ⟨q, w⟩ := p
    by_cases h : q = k
    · subst h
      by_cases hx : q = x <;> simp [aset, alookup, hx]
    · by_cases hx : q = x
      · subst hx
        have hkq : ¬k = q := fun hkq => h hkq.symm
        simp [aset, alookup, h, hkq]
      · simp [aset, alookup, h, hx, ih]

theorem pUser_fst_ips (H : Str → Str) (st : Crawler) (c : Contrib) :
    (pUser H st c).1.ips = st.ips := by
  cases c <;> simp [pUser] <;> split <;> rfl

theorem pCommit_fst_ip2id (st : Crawler) (u : User) (rv : Revision) (pg : Page) :
    (pCommit st u rv pg).1.ip2id = st.ip2id := by
  by_cases hip : (ipTruthy u && u.is_new) = true
  all_goals by_cases hmem : u.user_id ∈ st.user_ids
  all_goals rcases hrow : userRow u with _ | csv
  all_goals simp [pCommit, Crawler.write_output_line, hip, hmem, hrow]

theorem pCommit_fst_ips (st : Crawler) (u : User) (rv : Revision) (pg : Page) :
    (pCommit st u rv pg).1.ips =
      (if ipTruthy u && u.is_new then setAdd st.ips (u.ip.getD []) else st.ips) := by
  by_cases hip : (ipTruthy u && u.is_new) = true
  all_goals by_cases hmem : u.user_id ∈ st.user_ids
  all_goals rcases hrow : userRow u with _ | csv
  all_goals simp [pCommit, Crawler.write_output_line, hip, hmem, hrow]

theorem pRev_coh (H : Str → Str) (st : Crawler) (pg : Page) (r : RevDesc) (hwf : WFRev r)
    (hips : ∀ q ∈ st.ips, (alookup st.ip2id q).isSome = true) :
    ∀ q ∈ (pRev H r (st, pg)).1.ips,
      (alookup (pRev H r (st, pg)).1.ip2id q).isSome = true := by
  obtain ⟨rid, ts, c⟩ := r
  obtain ⟨-, -, hwc⟩ := hwf
  rcases c with _ | c
  · simpa [pRev, bump] using hips
  rcases hu : pUser H st c with ⟨s1, u1⟩
  rcases hc : pCommit s1 u1 { revid := rid, month := ts.map fun t => t.take 7, sha1 := none }
      pg with ⟨s2, p2⟩
  have hpair : (pRev H ⟨rid, ts, some c⟩ (st, pg)).1 = bump (revTick s2) (revLines ⟨rid, ts, some c⟩).length := by
    simp [pRev, hu, hc]
  have hips2 : (pRev H ⟨rid, ts, some c⟩ (st, pg)).1.ips = s2.ips := by
    simp [hpair, bump]
  have hid2 : (pRev H ⟨rid, ts, some c⟩ (st, pg)).1.ip2id = s2.ip2id := by
    simp [hpair, bump]
  have hcips := pCommit_fst_ips s1 u1
    { revid := rid, month := ts.map fun t => t.take 7, sha1 := none } pg
  have hcid := pCommit_fst_ip2id s1 u1
    { revid := rid, month := ts.map fun t => t.take 7, sha1 := none } pg
  rw [hc] at hcips hcid
  rw [hips2, hid2, hcid, hcips]
  rcases c with ⟨uid, uname⟩ | ip | _
  · have hs1 : s1 = st ∧ u1.is_new = false := by
      have := hu
      simp [pUser] at this
      exact ⟨this.1.symm, by rw [← this.2]⟩
    obtain ⟨hse, hnew⟩ := hs1
    subst hse
    simpa [hnew] using hips
  · by_cases hmem : ip ∈ st.ips
    · have hs1 : s1 = st ∧ u1.is_new = false := by
        have := hu
        simp [pUser, hmem] at this
        exact ⟨this.1.symm, by rw [← this.2]⟩
      obtain ⟨hse, hnew⟩ := hs1
      subst hse
      simpa [hnew] using hips
    · have hall := hu
      simp [pUser, hmem] at hall
      obtain ⟨hs1e, hu1e⟩ := hall
      subst hs1e
      subst hu1e
      have hipne : ip ≠ [] := hwc.1.2
      intro q hq
      simp [ipTruthy, setAdd, hmem, List.isEmpty_iff, hipne] at hq ⊢
      rw [alookup_aset]
      rcases hq with hq | hq
      · have := hips q hq
        split <;> simp [this]
      · subst hq
        simp
  · have hs1 : s1.ips = st.ips ∧ s1.ip2id = st.ip2id ∧ u1.is_new = false := by
      have := hu
      simp [pUser] at this
      refine ⟨by rw [← this.1], by rw [← this.1], ?_⟩
      rw [← this.2]
      simp [create_deleted_user]
    obtain ⟨ha, hb, hnew⟩ := hs1
    rw [ha, hb]
    simpa [hnew] using hips

theorem pRev_frame (H : Str → Str) (st : Crawler) (pg : Page) (r : RevDesc)
    (cp : Option Page) (cr : Option Revision) (cu : Option User) :
    pRev H r ({ st with
      current_page := cp
      current_revision := cr
      current_user := cu }, pg) =
    ({ (pRev H r (st, pg)).1 with
      current_page := cp
      current_revision := cr
      current_user := cu }, (pRev H r (st, pg)).2) := by
  obtain ⟨rid, ts, c⟩ := r
  rcases c with _ | c
  · simp [pRev, bump]
  rcases hu : pUser H st c with ⟨s1, u1⟩
  rcases hc : pCommit s1 u1 { revid := rid, month := ts.map fun t => t.take 7, sha1 := none }
      pg with ⟨s2, p2⟩
  have h1 := pUser_fst_linecount H st c
  rw [hu] at h1
  have h2 := pCommit_fst_linecount s1 u1
    { revid := rid, month := ts.map fun t => t.take 7, sha1 := none } pg
  rw [hc] at h2
  simp at h1 h2
  simp only [pRev]
  rw [pUser_frame H st c cp cr cu st.linecount, hu]
  simp only []
  rw [pCommit_frame s1 u1 _ _ cp cr cu st.linecount, hc]
  simp [bump, h1, h2]

theorem pRevs_frame (H : Str → Str) (rs : List RevDesc) :
    ∀ (st : Crawler) (pg : Page) (cp : Option Page) (cr : Option Revision) (cu : Option User),
    pRevs H rs ({ st with
      current_page := cp
      current_revision := cr
      current_user := cu }, pg) =
    ({ (pRevs H rs (st, pg)).1 with
      current_page := cp
      current_revision := cr
      current_user := cu }, (pRevs H rs (st, pg)).2) := by
  induction rs with
  | nil => intro st pg cp cr cu; simp [pRevs]
  | cons r t ih =>
    intro st pg cp cr cu
    simp only [pRevs]
    rw [pRev_frame, ih]

theorem processLines_revs (H : Str → Str) (rs : List RevDesc) :
    ∀ (st : Crawler) (pg : Page), (∀ r ∈ rs, WFRev r) → st.current_page = some pg →
    st.current_revision = none → st.current_user = none →
    (∀ ip ∈ st.ips, (alookup st.ip2id ip).isSome = true) →
    processLines H st (revsLines rs) = .ok { (pRevs H rs (st, pg)).1 with
      current_page := some (pRevs H rs (st, pg)).2
      current_revision := none
      current_user := none } := by
  induction rs with
  | nil =>
    intro st pg hwf hpg hrev huser hips
    simp only [revsLines, processLines, pRevs]
    rw [← hpg, ← hrev, ← huser]
  | cons r t ih =>
    intro st pg hwf hpg hrev huser hips
    simp only [revsLines]
    rw [processLines_append, processLines_rev H st pg r (hwf r (by simp)) hpg hrev huser hips]
    simp only []
    rw [ih { (pRev H r (st, pg)).1 with
        current_page := some (pRev H r (st, pg)).2
        current_revision := none
        current_user := none } (pRev H r (st, pg)).2
      (fun r' h => hwf r' (by simp [h])) rfl rfl rfl
      (pRev_coh H st pg r (hwf r (by simp)) hips)]
    rw [pRevs_frame]
    simp [pRevs]

theorem skip_open_revision (H : Str → Str) (st : Crawler) (hpg : st.current_page = none) :
    Crawler.process_line H st (openLine ("revision".toList)) = .ok st := by
  have h0 : Crawler.process_line H st (openLine ("revision".toList)) =
      (match st.current_page with
       | none => .ok st
       | some _ => .ok { st with current_revision := some Revision.init }) := rfl
  rw [h0, hpg]

theorem skip_open_contributor (H : Str → Str) (st : Crawler) (hpg : st.current_page = none) :
    Crawler.process_line H st (openLine ("contributor".toList)) = .ok st := by
  have h0 : Crawler.process_line H st (openLine ("contributor".toList)) =
      (match st.current_page with
       | none => .ok st
       | some _ => .ok { st with current_user := some User.init }) := rfl
  rw [h0, hpg]

theorem skip_deleted (H : Str → Str) (st : Crawler) (hpg : st.current_page = none) :
    Crawler.process_line H st deletedLine = .ok st := by
  have h0 : Crawler.process_line H st deletedLine =
      (match st.current_page with
       | none => .ok st
       | some _ => .ok { st with
          current_user := some create_deleted_user
          deleted_user_edits := st.deleted_user_edits + 1 }) := rfl
  rw [h0, hpg]

theorem skip_leaf_id (H : Str → Str) (st : Crawler) (v : Str) (hpg : st.current_page = none) :
    Crawler.process_line H st (leafLine ("id".toList) v) = .ok st :=
  processLine_nopage H st _ hpg 'i'
    ('d' :: '>' :: (v ++ '<' :: '/' :: (("id".toList) ++ ['>'])))
    (by rw [pyLstrip_leafLine]; rfl) (by decide) (by rw [tagnameOf_id]; decide)

theorem skip_leaf_timestamp (H : Str → Str) (st : Crawler) (v : Str)
    (hpg : st.current_page = none) :
    Crawler.process_line H st (leafLine ("timestamp".toList) v) = .ok st :=
  processLine_nopage H st _ hpg 't'
    ('i' :: 'm' :: 'e' :: 's' :: 't' :: 'a' :: 'm' :: 'p' :: '>' ::
      (v ++ '<' :: '/' :: (("timestamp".toList) ++ ['>'])))
    (by rw [pyLstrip_leafLine]; rfl) (by decide) (by rw [tagnameOf_timestamp]; decide)

theorem skip_leaf_username (H : Str → Str) (st : Crawler) (v : Str)
    (hpg : st.current_page = none) :
    Crawler.process_line H st (leafLine ("username".toList) v) = .ok st :=
  processLine_nopage H st _ hpg 'u'
    ('s' :: 'e' :: 'r' :: 'n' :: 'a' :: 'm' :: 'e' :: '>' ::
      (v ++ '<' :: '/' :: (("username".toList) ++ ['>'])))
    (by rw [pyLstrip_leafLine]; rfl) (by decide) (by rw [tagnameOf_username]; decide)

theorem skip_leaf_ip (H : Str → Str) (st : Crawler) (v : Str)
    (hpg : st.current_page = none) :
    Crawler.process_line H st (leafLine ("ip".toList) v) = .ok st :=
  processLine_nopage H st _ hpg 'i'
    ('p' :: '>' :: (v ++ '<' :: '/' :: (("ip".toList) ++ ['>'])))
    (by rw [pyLstrip_leafLine]; rfl) (by decide) (by rw [tagnameOf_ip]; decide)

theorem revTick_bump (st : Crawler) (k : Nat) : revTick (bump st k) = bump (revTick st) k := by
  by_cases h : (st.revcount + 1) % 5000000 = 0 <;> simp [revTick, bump, h]

theorem ticks_bump : ∀ (n : Nat) (st : Crawler) (k : Nat),
    ticks (bump st k) n = bump (ticks st n) k := by
  intro n
  induction n with
  | zero => intro st k; rfl
  | succ n ih => intro st k; rw [ticks, ticks, revTick_bump, ih]

theorem bump_bump (st : Crawler) (a b : Nat) : bump (bump st a) b = bump st (a + b) := by
  simp [bump, Nat.add_assoc]

theorem processLines_rev_nopage (H : Str → Str) (st : Crawler) (r : RevDesc)
    (hpg : st.current_page = none) (hrev : st.current_revision = none)
    (huser : st.current_user = none) :
    processLines H st (revLines r) = .ok (bump (revTick st) (revLines r).length) := by
  obtain ⟨rid, ts, c⟩ := r
  rcases rid with _ | rid <;> rcases ts with _ | tsv <;>
    rcases c with _ | (⟨uid, un⟩ | ip | _) <;>
  · simp only [revLines, contribLines, List.cons_append, List.nil_append, List.append_nil,
      List.append_eq, processLines, skip_open_revision, skip_open_contributor, skip_leaf_id,
      skip_leaf_timestamp, skip_leaf_username, skip_leaf_ip, skip_deleted,
      processLine_close_revision, reset_revision_nopage, hpg, hrev, huser]
    simp [bump, hpg, hrev, huser, revLines, contribLines]

theorem processLines_revs_nopage (H : Str → Str) (rs : List RevDesc) :
    ∀ st : Crawler, st.current_page = none → st.current_revision = none →
    st.current_user = none →
    processLines H st (revsLines rs) =
      .ok (bump (ticks st rs.length) (revsLines rs).length) := by
  induction rs with
  | nil => intro st hpg hrev huser; simp [revsLines, processLines, ticks, bump]
  | cons r t ih =>
    intro st hpg hrev huser
    simp only [revsLines]
    rw [processLines_append, processLines_rev_nopage H st r hpg hrev huser]
    simp only []
    rw [ih (bump (revTick st) (revLines r).length) (by simp [bump, hpg])
      (by simp [bump, hrev]) (by simp [bump, huser])]
    rw [ticks_bump, bump_bump]
    have h : ticks (revTick st) t.length = ticks st (t.length + 1) := rfl
    rw [h]
    simp [List.length_append, List.length_cons]

theorem alookup_mem [DecidableEq α] (m : List (α × β)) (x : α) (v : β)
    (h : alookup m x = some v) : (x, v) ∈ m := by
  induction m with
  | nil => simp [alookup] at h
  | cons p t ih =>
    obtain ⟨k, w⟩ := p
    by_cases hk : k = x
    · subst hk
      simp [alookup] at h
      simp [h]
    · simp [alookup, hk] at h
      exact List.mem_cons_of_mem _ (ih h)

theorem mem_aset [DecidableEq α] (m : List (α × β)) (k : α) (v : β) :
    ∀ p ∈ aset m k v, p ∈ m ∨ p = (k, v) := by
  induction m with
  | nil =>
    intro p hp
    simp [aset] at hp
    simp [hp]
  | cons q t ih =>
    obtain ⟨k2, w⟩ := q
    intro p hp
    by_cases hk : k2 = k
    · subst hk
      simp [aset] at hp
      rcases hp with hp | hp
      · right; simp [hp]
      · left; simp [hp]
    · simp [aset, hk] at hp
      rcases hp with hp | hp
      · left; simp [hp]
      · rcases ih p hp with h | h
        · left; simp [h]
        · right; exact h

theorem csvSafe_append {a b : Str} (ha : CsvSafe a) (hb : CsvSafe b) : CsvSafe (a ++ b) := by
  intro c hc
  rcases List.mem_append.mp hc with h | h
  · exact ha c h
  · exact hb c h

theorem csvSafe_take {s : Str} (k : Nat) (h : CsvSafe s) : CsvSafe (s.take k) :=
  fun c hc => h c (List.take_subset k s hc)

theorem pCommit_snd (st : Crawler) (u : User) (rv : Revision) (pg : Page) :
    (pCommit st u rv pg).2 = pg.add_user u rv := by
  by_cases hip : (ipTruthy u && u.is_new) = true
  all_goals by_cases hmem : u.user_id ∈ st.user_ids
  all_goals rcases hrow : userRow u with _ | csv
  all_goals simp [pCommit, Crawler.write_output_line, hip, hmem, hrow]

theorem pUser_ip2id_csv (H : Str → Str) (st : Crawler) (c : Contrib)
    (hcsv : ∀ p ∈ st.ip2id, CsvSafe p.2) :
    ∀ p ∈ (pUser H st c).1.ip2id, CsvSafe p.2 := by
  cases c with
  | registered uid un => simpa [pUser] using hcsv
  | deleted => simpa [pUser] using hcsv
  | anon ip =>
    by_cases hmem : ip ∈ st.ips
    · simpa [pUser, hmem] using hcsv
    · intro p hp
      simp only [pUser, hmem, if_neg] at hp
      simp at hp
      rcases mem_aset _ _ _ p hp with h | h
      · exact hcsv p h
      · rw [h]
        exact csvSafe_ipLabel st.ip_count

theorem pUser_uid_csv (H : Str → Str) (st : Crawler) (c : Contrib) (hwf : WFContrib c)
    (hcsv : ∀ p ∈ st.ip2id, CsvSafe p.2) :
    CsvSafe (((pUser H st c).2).user_id.getD []) := by
  cases c with
  | registered uid un => simpa [pUser] using simpleStr_csvSafe hwf.1
  | deleted =>
    simp [pUser, create_deleted_user]
    decide
  | anon ip =>
    by_cases hmem : ip ∈ st.ips
    · rcases hl : alookup st.ip2id ip with _ | uid
      · simp [pUser, hmem, hl]
        decide
      · have hm := hcsv (ip, uid) (alookup_mem _ _ _ hl)
        simpa [pUser, hmem, hl] using hm
    · simp only [pUser, hmem, if_neg]
      simp
      exact csvSafe_ipLabel st.ip_count

theorem pRev_ip2id_csv (H : Str → Str) (st : Crawler) (pg : Page) (r : RevDesc)
    (hcsv : ∀ p ∈ st.ip2id, CsvSafe p.2) :
    ∀ p ∈ (pRev H r (st, pg)).1.ip2id, CsvSafe p.2 := by
  obtain ⟨rid, ts, c⟩ := r
  rcases c with _ | c
  · simpa [pRev, bump] using hcsv
  rcases hu : pUser H st c with ⟨s1, u1⟩
  rcases hc : pCommit s1 u1 { revid := rid, month := ts.map fun t => t.take 7, sha1 := none }
      pg with ⟨s2, p2⟩
  have hpair : (pRev H ⟨rid, ts, some c⟩ (st, pg)).1 =
      bump (revTick s2) (revLines ⟨rid, ts, some c⟩).length := by
    simp [pRev, hu, hc]
  have hid2 : (pRev H ⟨rid, ts, some c⟩ (st, pg)).1.ip2id = s2.ip2id := by
    simp [hpair, bump]
  have hcid := pCommit_fst_ip2id s1 u1
    { revid := rid, month := ts.map fun t => t.take 7, sha1 := none } pg
  rw [hc] at hcid
  have hs1 := pUser_ip2id_csv H st c hcsv
  rw [hu] at hs1
  rw [hid2, hcid]
  exact hs1

theorem pRev_pgok (H : Str → Str) (st : Crawler) (pg : Page) (r : RevDesc) (hwf : WFRev r)
    (hpgok : PgOK pg) (hcsv : ∀ p ∈ st.ip2id, CsvSafe p.2)
    (hips : ∀ q ∈ st.ips, (alookup st.ip2id q).isSome = true) :
    PgOK (pRev H r (st, pg)).2 := by
  obtain ⟨rid, ts, c⟩ := r
  obtain ⟨hwrid, hwts, hwc⟩ := hwf
  rcases c with _ | c
  · simpa [pRev] using hpgok
  rcases hu : pUser H st c with ⟨s1, u1⟩
  rcases hc : pCommit s1 u1 { revid := rid, month := ts.map fun t => t.take 7, sha1 := none }
      pg with ⟨s2, p2⟩
  have hp2 : (pRev H ⟨rid, ts, some c⟩ (st, pg)).2 = p2 := by
    simp [pRev, hu, hc]
  have hadd := pCommit_snd s1 u1
    { revid := rid, month := ts.map fun t => t.take 7, sha1 := none } pg
  rw [hc] at hadd
  have huid_some := pUser_snd_id H st c hips
  rw [hu] at huid_some
  have huid_csv := pUser_uid_csv H st c hwc.1 hcsv
  rw [hu] at huid_csv
  simp at huid_some huid_csv
  have hts_some : ts.isSome = true := hwc.2
  obtain ⟨t0, ht0⟩ := Option.isSome_iff_exists.mp hts_some
  have hts0 : SimpleStr t0 := by
    have h : OptP SimpleStr ts := hwts
    rw [ht0] at h
    exact h
  have hmo_csv : CsvSafe (t0.take 7) := csvSafe_take 7 (simpleStr_csvSafe hts0)
  simp at hadd
  rw [hp2, hadd]
  obtain ⟨h1, h2, h3, h4, h5⟩ := hpgok
  unfold Page.add_user
  by_cases hmemu : u1.user_id ∈ pg.user_ids <;>
    refine ⟨by simpa [hmemu] using h1, by simpa [hmemu] using h2,
      by simpa [hmemu] using h3, by simpa [hmemu] using h4, ?_⟩ <;>
  · intro e he
    simp only [hmemu] at he
    simp [umInc] at he
    rcases mem_aset _ _ _ e he with h | h
    · exact h5 e h
    · rw [h]
      exact ⟨huid_some, huid_csv, by simp [ht0], by simpa [ht0] using hmo_csv⟩

theorem pRevs_inv (H : Str → Str) (rs : List RevDesc) :
    ∀ (st : Crawler) (pg : Page), (∀ r ∈ rs, WFRev r) →
    (∀ q ∈ st.ips, (alookup st.ip2id q).isSome = true) →
    (∀ p ∈ st.ip2id, CsvSafe p.2) → PgOK pg →
    (∀ q ∈ (pRevs H rs (st, pg)).1.ips,
      (alookup (pRevs H rs (st, pg)).1.ip2id q).isSome = true) ∧
    (∀ p ∈ (pRevs H rs (st, pg)).1.ip2id, CsvSafe p.2) ∧
    PgOK (pRevs H rs (st, pg)).2 := by
  induction rs with
  | nil =>
    intro st pg _ hips hcsv hpgok
    exact ⟨hips, hcsv, hpgok⟩
  | cons r t ih =>
    intro st pg hwf hips hcsv hpgok
    have hstep := ih (pRev H r (st, pg)).1 (pRev H r (st, pg)).2
      (fun r' h => hwf r' (by simp [h]))
      (pRev_coh H st pg r (hwf r (by simp)) hips)
      (pRev_ip2id_csv H st pg r hcsv)
      (pRev_pgok H st pg r (hwf r (by simp)) hpgok hcsv hips)
    have heta : ((pRev H r (st, pg)).1, (pRev H r (st, pg)).2) = pRev H r (st, pg) := rfl
    rw [heta] at hstep
    simpa [pRevs] using hstep

theorem pUser_fst_split_by_year (H : Str → Str) (st : Crawler) (c : Contrib) :
    (pUser H st c).1.split_by_year = st.split_by_year := by
  cases c <;> simp [pUser] <;> split <;> rfl

theorem pUser_fst_mainspace_only (H : Str → Str) (st : Crawler) (c : Contrib) :
    (pUser H st c).1.mainspace_only = st.mainspace_only := by
  cases c <;> simp [pUser] <;> split <;> rfl

theorem pRev_fst_split_by_year (H : Str → Str) (st : Crawler) (pg : Page) (r : RevDesc) :
    (pRev H r (st, pg)).1.split_by_year = st.split_by_year := by
  obtain ⟨rid, ts, c⟩ := r
  rcases c with _ | c
  · simp [pRev, bump]
  rcases hu : pUser H st c with ⟨s1, u1⟩
  rcases hc : pCommit s1 u1 { revid := rid, month := ts.map fun t => t.take 7, sha1 := none }
      pg with ⟨s2, p2⟩
  have h1 := pUser_fst_split_by_year H st c
  rw [hu] at h1
  simp at h1
  have h2 := pCommit_fst_split_by_year s1 u1
    { revid := rid, month := ts.map fun t => t.take 7, sha1 := none } pg
  rw [hc] at h2
  simp at h2
  simp [pRev, hu, hc, bump, h2, h1]

theorem pRev_fst_mainspace_only (H : Str → Str) (st : Crawler) (pg : Page) (r : RevDesc) :
    (pRev H r (st, pg)).1.mainspace_only = st.mainspace_only := by
  obtain ⟨rid, ts, c⟩ := r
  rcases c with _ | c
  · simp [pRev, bump]
  rcases hu : pUser H st c with ⟨s1, u1⟩
  rcases hc : pCommit s1 u1 { revid := rid, month := ts.map fun t => t.take 7, sha1 := none }
      pg with ⟨s2, p2⟩
  have h1 := pUser_fst_mainspace_only H st c
  rw [hu] at h1
  simp at h1
  have h2 := pCommit_fst_mainspace_only s1 u1
    { revid := rid, month := ts.map fun t => t.take 7, sha1 := none } pg
  rw [hc] at h2
  simp at h2
  simp [pRev, hu, hc, bump, h2, h1]

theorem pRevs_fst_split_by_year (H : Str → Str) (rs : List RevDesc) :
    ∀ (st : Crawler) (pg : Page),
    (pRevs H rs (st, pg)).1.split_by_year = st.split_by_year := by
  induction rs with
  | nil => intro st pg; rfl
  | cons r t ih =>
    intro st pg
    have heta : pRev H r (st, pg) = ((pRev H r (st, pg)).1, (pRev H r (st, pg)).2) := rfl
    rw [pRevs, heta, ih]
    exact pRev_fst_split_by_year H st pg r

theorem pRevs_fst_mainspace_only (H : Str → Str) (rs : List RevDesc) :
    ∀ (st : Crawler) (pg : Page),
    (pRevs H rs (st, pg)).1.mainspace_only = st.mainspace_only := by
  induction rs with
  | nil => intro st pg; rfl
  | cons r t ih =>
    intro st pg
    have heta : pRev H r (st, pg) = ((pRev H r (st, pg)).1, (pRev H r (st, pg)).2) := rfl
    rw [pRevs, heta, ih]
    exact pRev_fst_mainspace_only H st pg r

theorem pCloseCore_frame (st : Crawler) (pg : Page) (a : Option Page) (b : Option Revision)
    (c : Option User) :
    pCloseCore { st with
      current_page := a
      current_revision := b
      current_user := c } pg = pCloseCore st pg := by
  by_cases hum : pg.user_months = [] <;> rcases hrow : pageRow pg <;>
    simp [pCloseCore, Crawler.write_output_line, hum, hrow]

theorem pCloseCore_ips (st : Crawler) (pg : Page) :
    (pCloseCore st pg).ips = st.ips := by
  by_cases hum : pg.user_months = [] <;> rcases hrow : pageRow pg <;>
    simp [pCloseCore, Crawler.write_output_line, hum, hrow]

theorem pCloseCore_ip2id (st : Crawler) (pg : Page) :
    (pCloseCore st pg).ip2id = st.ip2id := by
  by_cases hum : pg.user_months = [] <;> rcases hrow : pageRow pg <;>
    simp [pCloseCore, Crawler.write_output_line, hum, hrow]

theorem pCloseCore_split_by_year (st : Crawler) (pg : Page) :
    (pCloseCore st pg).split_by_year = st.split_by_year := by
  by_cases hum : pg.user_months = [] <;> rcases hrow : pageRow pg <;>
    simp [pCloseCore, Crawler.write_output_line, hum, hrow]

theorem pCloseCore_mainspace_only (st : Crawler) (pg : Page) :
    (pCloseCore st pg).mainspace_only = st.mainspace_only := by
  by_cases hum : pg.user_months = [] <;> rcases hrow : pageRow pg <;>
    simp [pCloseCore, Crawler.write_output_line, hum, hrow]

theorem pCloseCore_current (st : Crawler) (pg : Page) :
    (pCloseCore st pg).current_page = none ∧ (pCloseCore st pg).current_revision = none ∧
      (pCloseCore st pg).current_user = none := by
  by_cases hum : pg.user_months = [] <;> rcases hrow : pageRow pg <;>
    simp [pCloseCore, Crawler.write_output_line, hum, hrow]

theorem ticks_ips : ∀ (n : Nat) (st : Crawler), (ticks st n).ips = st.ips := by
  intro n
  induction n with
  | zero => intro st; rfl
  | succ n ih => intro st; rw [ticks, ih]; simp

theorem ticks_ip2id : ∀ (n : Nat) (st : Crawler), (ticks st n).ip2id = st.ip2id := by
  intro n
  induction n with
  | zero => intro st; rfl
  | succ n ih => intro st; rw [ticks, ih]; simp

theorem ticks_split_by_year : ∀ (n : Nat) (st : Crawler),
    (ticks st n).split_by_year = st.split_by_year := by
  intro n
  induction n with
  | zero => intro st; rfl
  | succ n ih => intro st; rw [ticks, ih]; simp

theorem ticks_mainspace_only : ∀ (n : Nat) (st : Crawler),
    (ticks st n).mainspace_only = st.mainspace_only := by
  intro n
  induction n with
  | zero => intro st; rfl
  | succ n ih => intro st; rw [ticks, ih]; simp

theorem ticks_current_page : ∀ (n : Nat) (st : Crawler),
    (ticks st n).current_page = st.current_page := by
  intro n
  induction n with
  | zero => intro st; rfl
  | succ n ih => intro st; rw [ticks, ih]; simp

theorem ticks_current_revision : ∀ (n : Nat) (st : Crawler),
    (ticks st n).current_revision = st.current_revision := by
  intro n
  induction n with
  | zero => intro st; rfl
  | succ n ih => intro st; rw [ticks, ih]; simp

theorem ticks_current_user : ∀ (n : Nat) (st : Crawler),
    (ticks st n).current_user = st.current_user := by
  intro n
  induction n with
  | zero => intro st; rfl
  | succ n ih => intro st; rw [ticks, ih]; simp

theorem ticks_written : ∀ (n : Nat) (st : Crawler), (ticks st n).written = st.written := by
  intro n
  induction n with
  | zero => intro st; rfl
  | succ n ih => intro st; rw [ticks, ih]; simp

theorem ticks_user_ids : ∀ (n : Nat) (st : Crawler), (ticks st n).user_ids = st.user_ids := by
  intro n
  induction n with
  | zero => intro st; rfl
  | succ n ih => intro st; rw [ticks, ih]; simp

theorem ticks_ip_count : ∀ (n : Nat) (st : Crawler), (ticks st n).ip_count = st.ip_count := by
  intro n
  induction n with
  | zero => intro st; rfl
  | succ n ih => intro st; rw [ticks, ih]; simp

theorem revTick_frame (st : Crawler) (a : Option Page) (b : Option Revision) (c : Option User)
    (l : Nat) :
    revTick { st with
      current_page := a
      current_revision := b
      current_user := c
      linecount := l } =
    { revTick st with
      current_page := a
      current_revision := b
      current_user := c
      linecount := l } := by
  by_cases h : (st.revcount + 1) % 5000000 = 0 <;> simp [revTick, h]

theorem ticks_frame : ∀ (n : Nat) (st : Crawler) (a : Option Page) (b : Option Revision)
    (c : Option User) (l : Nat),
    ticks { st with
      current_page := a
      current_revision := b
      current_user := c
      linecount := l } n =
    { ticks st n with
      current_page := a
      current_revision := b
      current_user := c
      linecount := l } := by
  intro n
  induction n with
  | zero => intro st a b c l; rfl
  | succ n ih =>
    intro st a b c l
    rw [ticks, revTick_frame, ih, ticks]

theorem reset_page_nopage (st : Crawler) (hpg : st.current_page = none) :
    st.reset_page = .ok { st with
      current_page := none
      current_revision := none
      current_user := none } := by
  simp [Crawler.reset_page, hpg]

theorem ticks_linecount : ∀ (n : Nat) (st : Crawler), (ticks st n).linecount = st.linecount := by
  intro n
  induction n with
  | zero => intro st; rfl
  | succ n ih => intro st; rw [ticks, ih]; simp

theorem processLine_leaf_title_m (H : Str → Str) (st : Crawler) (v : Str)
    (hv : SimpleStr v) (hne : v ≠ []) (hpg : st.current_page.isSome = true) :
    Crawler.process_line H st (leafLine ("title".toList) v) =
      .ok { st with
        current_page := st.current_page.map (fun pg => { pg with name := some v }) } := by
  obtain ⟨pg, hpgv⟩ := Option.isSome_iff_exists.mp hpg
  rw [processLine_leaf_title H st v pg hv hne hpgv, hpgv]
  rfl

theorem processLine_redirect_m (H : Str → Str) (st : Crawler)
    (hpg : st.current_page.isSome = true) :
    Crawler.process_line H st redirectLine =
      .ok { st with
        current_page := st.current_page.map (fun pg => { pg with is_redirect := true }) } := by
  obtain ⟨pg, hpgv⟩ := Option.isSome_iff_exists.mp hpg
  rw [processLine_redirect H st pg hpgv, hpgv]
  rfl

theorem processLine_leaf_ns_m (H : Str → Str) (st : Crawler) (v : Str)
    (hv : SimpleStr v) (hpg : st.current_page.isSome = true) :
    Crawler.process_line H st (leafLine ("ns".toList) v) =
      (if v ≠ ['0'] ∧ st.mainspace_only = true then .ok { st with current_page := none }
       else .ok { st with
        current_page := st.current_page.map (fun pg => { pg with nspace := some v }) }) := by
  obtain ⟨pg, hpgv⟩ := Option.isSome_iff_exists.mp hpg
  rw [processLine_leaf_ns H st v pg hv hpgv, hpgv]
  by_cases hc : v ≠ ['0'] ∧ st.mainspace_only = true
  · rw [if_pos hc, if_pos ⟨hc.1, by simp [hc.2]⟩]
  · rw [if_neg hc, if_neg (by simpa using hc)]
    rfl

theorem processLine_open_pageX (H : Str → Str) (st : Crawler) :
    Crawler.process_line H st (openLine ['p', 'a', 'g', 'e']) =
      .ok { st with current_page := some Page.init } :=
  processLine_open_page H st

theorem processLine_leaf_title_mX (H : Str → Str) (st : Crawler) (v : Str)
    (hv : SimpleStr v) (hne : v ≠ []) (hpg : st.current_page.isSome = true) :
    Crawler.process_line H st (leafLine ['t', 'i', 't', 'l', 'e'] v) =
      .ok { st with
        current_page := st.current_page.map (fun pg => { pg with name := some v }) } :=
  processLine_leaf_title_m H st v hv hne hpg

theorem processLine_leaf_ns_mX (H : Str → Str) (st : Crawler) (v : Str)
    (hv : SimpleStr v) (hpg : st.current_page.isSome = true) :
    Crawler.process_line H st (leafLine ['n', 's'] v) =
      (if v ≠ ['0'] ∧ st.mainspace_only = true then .ok { st with current_page := none }
       else .ok { st with
        current_page := st.current_page.map (fun pg => { pg with nspace := some v }) }) :=
  processLine_leaf_ns_m H st v hv hpg

theorem skip_leaf_idX (H : Str → Str) (st : Crawler) (v : Str)
    (hpg : st.current_page = none) :
    Crawler.process_line H st (leafLine ['i', 'd'] v) = .ok st :=
  skip_leaf_id H st v hpg

theorem processLine_close_pageX (H : Str → Str) (st : Crawler) :
    Crawler.process_line H st (closeLine ['p', 'a', 'g', 'e']) = st.reset_page :=
  processLine_close_page H st

theorem processLine_leaf_id_page_m (H : Str → Str) (st : Crawler) (v : Str)
    (hv : SimpleStr v) (hpg : st.current_page.isSome = true)
    (hu : st.current_user = none) (hr : st.current_revision = none) :
    Crawler.process_line H st (leafLine ("id".toList) v) =
      .ok { st with
        current_page := st.current_page.map (fun pg => (pg.add_id v).1)
        logs := st.logs ++ (st.current_page.map (fun pg => (pg.add_id v).2)).getD [] } := by
  obtain ⟨pg, hpgv⟩ := Option.isSome_iff_exists.mp hpg
  rw [processLine_leaf_id_page H st v pg hv hpgv hu hr, hpgv]
  rfl

theorem processLine_leaf_id_page_mX (H : Str → Str) (st : Crawler) (v : Str)
    (hv : SimpleStr v) (hpg : st.current_page.isSome = true)
    (hu : st.current_user = none) (hr : st.current_revision = none) :
    Crawler.process_line H st (leafLine ['i', 'd'] v) =
      .ok { st with
        current_page := st.current_page.map (fun pg => (pg.add_id v).1)
        logs := st.logs ++ (st.current_page.map (fun pg => (pg.add_id v).2)).getD [] } :=
  processLine_leaf_id_page_m H st v hv hpg hu hr

theorem pgok_pPage0 (d : PageDesc) (h1 : SimpleStr d.pid) (h2 : SimpleStr d.nsv) :
    PgOK (pPage0 d) := by
  refine ⟨by simp [pPage0, Page.init], by simp [pPage0, Page.init],
    by simpa [pPage0, Page.init] using simpleStr_csvSafe h1,
    by simpa [pPage0, Page.init] using simpleStr_csvSafe h2,
    by simp [pPage0, Page.init]⟩

theorem processLines_block_filtered (H : Str → Str) (st : Crawler) (d : PageDesc)
    (hwf : WFBlock d) (hgood : GoodSt st) (hmo : st.mainspace_only = true)
    (hns : d.nsv ≠ ['0']) :
    processLines H st (blockLines d) =
      .ok (bump (ticks st d.revs.length) (blockLines d).length) := by
  obtain ⟨hcp, hcr, hcu, hsby, hips, hcsv⟩ := hgood
  obtain ⟨hwpid, hwnsv, hwtitle, hwrevs⟩ := hwf
  obtain ⟨pid, nsv, title, redirect, revs⟩ := d
  simp only at hns hwnsv hwpid hwtitle hwrevs
  have hcond : (¬nsv = ['0'] ∧ st.mainspace_only = true) = True := by simp [hns, hmo]
  rcases title with _ | t
  · have hwt1 : True := trivial
    have hwt2 : True := trivial
    rcases redirect with _ | _
    · have hA := ticks_frame revs.length st none none none (st.linecount + 1 + 1 + 1)
      simp only [blockLines, List.cons_append, List.nil_append, List.append_nil, List.append_eq,
        processLines, processLine_open_page, processLine_open_pageX, processLine_leaf_title_m,
        processLine_leaf_title_mX, processLine_redirect_m, processLine_leaf_ns_m,
        processLine_leaf_ns_mX, skip_leaf_id, skip_leaf_idX, processLine_close_page,
        processLine_close_pageX, reset_page_nopage,
        processLines_revs_nopage, processLines_append, hwt1, hwt2, hwnsv, hwpid, hcr, hcu,
        hcp, hA, hcond, bump, ticks_current_page, ticks_current_revision, ticks_current_user,
        Option.isSome_some, Option.map_some', ne_eq, not_false_eq_true, if_true, ite_true]
      simp [bump, hcp, hcr, hcu, ticks_current_page, ticks_current_revision, ticks_current_user,
        ticks_linecount, blockLines, List.length_append, List.length_cons]
      omega
    · have hA := ticks_frame revs.length st none none none (st.linecount + 1 + 1 + 1 + 1)
      simp only [blockLines, List.cons_append, List.nil_append, List.append_nil, List.append_eq,
        processLines, processLine_open_page, processLine_open_pageX, processLine_leaf_title_m,
        processLine_leaf_title_mX, processLine_redirect_m, processLine_leaf_ns_m,
        processLine_leaf_ns_mX, skip_leaf_id, skip_leaf_idX, processLine_close_page,
        processLine_close_pageX, reset_page_nopage,
        processLines_revs_nopage, processLines_append, hwt1, hwt2, hwnsv, hwpid, hcr, hcu,
        hcp, hA, hcond, bump, ticks_current_page, ticks_current_revision, ticks_current_user,
        Option.isSome_some, Option.map_some', ne_eq, not_false_eq_true, if_true, ite_true]
      simp [bump, hcp, hcr, hcu, ticks_current_page, ticks_current_revision, ticks_current_user,
        ticks_linecount, blockLines, List.length_append, List.length_cons]
      omega
  · have hwt1 : SimpleStr t := hwtitle.1
    have hwt2 : t ≠ [] := hwtitle.2
    rcases redirect with _ | _
    · have hA := ticks_frame revs.length st none none none (st.linecount + 1 + 1 + 1 + 1)
      simp only [blockLines, List.cons_append, List.nil_append, List.append_nil, List.append_eq,
        processLines, processLine_open_page, processLine_open_pageX, processLine_leaf_title_m,
        processLine_leaf_title_mX, processLine_redirect_m, processLine_leaf_ns_m,
        processLine_leaf_ns_mX, skip_leaf_id, skip_leaf_idX, processLine_close_page,
        processLine_close_pageX, reset_page_nopage,
        processLines_revs_nopage, processLines_append, hwt1, hwt2, hwnsv, hwpid, hcr, hcu,
        hcp, hA, hcond, bump, ticks_current_page, ticks_current_revision, ticks_current_user,
        Option.isSome_some, Option.map_some', ne_eq, not_false_eq_true, if_true, ite_true]
      simp [bump, hcp, hcr, hcu, ticks_current_page, ticks_current_revision, ticks_current_user,
        ticks_linecount, blockLines, List.length_append, List.length_cons]
      omega
    · have hA := ticks_frame revs.length st none none none (st.linecount + 1 + 1 + 1 + 1 + 1)
      simp only [blockLines, List.cons_append, List.nil_append, List.append_nil, List.append_eq,
        processLines, processLine_open_page, processLine_open_pageX, processLine_leaf_title_m,
        processLine_leaf_title_mX, processLine_redirect_m, processLine_leaf_ns_m,
        processLine_leaf_ns_mX, skip_leaf_id, skip_leaf_idX, processLine_close_page,
        processLine_close_pageX, reset_page_nopage,
        processLines_revs_nopage, processLines_append, hwt1, hwt2, hwnsv, hwpid, hcr, hcu,
        hcp, hA, hcond, bump, ticks_current_page, ticks_current_revision, ticks_current_user,
        Option.isSome_some, Option.map_some', ne_eq, not_false_eq_true, if_true, ite_true]
      simp [bump, hcp, hcr, hcu, ticks_current_page, ticks_current_revision, ticks_current_user,
        ticks_linecount, blockLines, List.length_append, List.length_cons]
      omega

theorem processLines_block_open (H : Str → Str) (st : Crawler) (d : PageDesc)
    (hwf : WFBlock d) (hgood : GoodSt st)
    (hopen : st.mainspace_only = false ∨ d.nsv = ['0']) :
    processLines H st (blockLines d) =
      .ok (pClose (pRevs H d.revs (bump st (headerCount d), pPage0 d)).1
        (pRevs H d.revs (bump st (headerCount d), pPage0 d)).2) := by
  obtain ⟨hcp, hcr, hcu, hsby, hips, hcsv⟩ := hgood
  obtain ⟨hwpid, hwnsv, hwtitle, hwrevs⟩ := hwf
  obtain ⟨pid, nsv, title, redirect, revs⟩ := d
  simp only at hopen hwnsv hwpid hwtitle hwrevs
  have hcondF : (¬nsv = ['0'] ∧ st.mainspace_only = true) = False := by
    rcases hopen with h | h <;> simp [h]
  rcases title with _ | t
  · have hwt1 : True := trivial
    have hwt2 : True := trivial
    rcases redirect with _ | _
    · have hP : pPage0 (⟨pid, nsv, none, false, revs⟩ : PageDesc) =
          { name := none, page_id := some pid, nspace := some nsv, is_redirect := false,
            user_months := [], user_ids := [], users := [], hashes := [] } := by
        simp [pPage0, Page.init]
      simp only [blockLines, List.cons_append, List.nil_append, List.append_nil,
        List.append_eq, processLines, processLine_open_page, processLine_open_pageX,
        processLine_leaf_title_m, processLine_leaf_title_mX, processLine_redirect_m,
        processLine_leaf_ns_m, processLine_leaf_ns_mX, processLine_leaf_id_page_m,
        processLine_leaf_id_page_mX, hwt1, hwt2, hwnsv, hwpid, hcr, hcu, hcondF,
        Page.init, Page.add_id, Option.isSome_some, Option.map_some', Option.getD_some,
        ne_eq, not_false_eq_true, if_true, ite_true, if_false, ite_false]
      rw [← hP]
      rw [processLines_append]
      rw [processLines_revs H revs
        { st with
                  current_page := some (pPage0 (⟨pid, nsv, none, false, revs⟩ : PageDesc))
                  current_revision := none
                  current_user := none
                  linecount := st.linecount + 1 + 1 + 1 }
        (pPage0 (⟨pid, nsv, none, false, revs⟩ : PageDesc)) hwrevs rfl rfl rfl (by exact hips)]
      simp only []
      simp only [processLines, processLine_close_page, processLine_close_pageX]
      rw [reset_page_eval
        { (pRevs H revs ({ st with
                    current_page := some (pPage0 (⟨pid, nsv, none, false, revs⟩ : PageDesc))
                    current_revision := none
                    current_user := none
                    linecount := st.linecount + 1 + 1 + 1 }, pPage0 (⟨pid, nsv, none, false, revs⟩ : PageDesc))).1 with
          current_page := some (pRevs H revs ({ st with
                      current_page := some (pPage0 (⟨pid, nsv, none, false, revs⟩ : PageDesc))
                      current_revision := none
                      current_user := none
                      linecount := st.linecount + 1 + 1 + 1 }, pPage0 (⟨pid, nsv, none, false, revs⟩ : PageDesc))).2
          current_revision := none
          current_user := none }
        (pRevs H revs ({ st with
                    current_page := some (pPage0 (⟨pid, nsv, none, false, revs⟩ : PageDesc))
                    current_revision := none
                    current_user := none
                    linecount := st.linecount + 1 + 1 + 1 }, pPage0 (⟨pid, nsv, none, false, revs⟩ : PageDesc))).2
        rfl rfl rfl
        (by show (pRevs H revs ({ st with
                      current_page := some (pPage0 (⟨pid, nsv, none, false, revs⟩ : PageDesc))
                      current_revision := none
                      current_user := none
                      linecount := st.linecount + 1 + 1 + 1 }, pPage0 (⟨pid, nsv, none, false, revs⟩ : PageDesc))).1.split_by_year = false
            rw [pRevs_fst_split_by_year]
            exact hsby)
        ((pRevs_inv H revs { st with
                  current_page := some (pPage0 (⟨pid, nsv, none, false, revs⟩ : PageDesc))
                  current_revision := none
                  current_user := none
                  linecount := st.linecount + 1 + 1 + 1 } (pPage0 (⟨pid, nsv, none, false, revs⟩ : PageDesc)) hwrevs (by exact hips)
          (by exact hcsv) (pgok_pPage0 (⟨pid, nsv, none, false, revs⟩ : PageDesc) hwpid hwnsv)).2.2)]
      simp only []
      rw [show ({ st with
                  current_page := some (pPage0 (⟨pid, nsv, none, false, revs⟩ : PageDesc))
                  current_revision := none
                  current_user := none
                  linecount := st.linecount + 1 + 1 + 1 } : Crawler) =
        { bump st (headerCount (⟨pid, nsv, none, false, revs⟩ : PageDesc)) with
                  current_page := some (pPage0 (⟨pid, nsv, none, false, revs⟩ : PageDesc))
                  current_revision := none
                  current_user := none } from rfl]
      rw [pRevs_frame H revs (bump st (headerCount (⟨pid, nsv, none, false, revs⟩ : PageDesc)))
        (pPage0 (⟨pid, nsv, none, false, revs⟩ : PageDesc)) (some (pPage0 (⟨pid, nsv, none, false, revs⟩ : PageDesc))) none none]
      simp only []
      rw [pCloseCore_frame (pRevs H revs (bump st (headerCount (⟨pid, nsv, none, false, revs⟩ : PageDesc)), pPage0 (⟨pid, nsv, none, false, revs⟩ : PageDesc))).1 (pRevs H revs (bump st (headerCount (⟨pid, nsv, none, false, revs⟩ : PageDesc)), pPage0 (⟨pid, nsv, none, false, revs⟩ : PageDesc))).2 (some ((pRevs H revs (bump st (headerCount (⟨pid, nsv, none, false, revs⟩ : PageDesc)), pPage0 (⟨pid, nsv, none, false, revs⟩ : PageDesc))).2)) none none]
      simp [pClose, bump]
    · have hP : pPage0 (⟨pid, nsv, none, true, revs⟩ : PageDesc) =
          { name := none, page_id := some pid, nspace := some nsv, is_redirect := true,
            user_months := [], user_ids := [], users := [], hashes := [] } := by
        simp [pPage0, Page.init]
      simp only [blockLines, List.cons_append, List.nil_append, List.append_nil,
        List.append_eq, processLines, processLine_open_page, processLine_open_pageX,
        processLine_leaf_title_m, processLine_leaf_title_mX, processLine_redirect_m,
        processLine_leaf_ns_m, processLine_leaf_ns_mX, processLine_leaf_id_page_m,
        processLine_leaf_id_page_mX, hwt1, hwt2, hwnsv, hwpid, hcr, hcu, hcondF,
        Page.init, Page.add_id, Option.isSome_some, Option.map_some', Option.getD_some,
        ne_eq, not_false_eq_true, if_true, ite_true, if_false, ite_false]
      rw [← hP]
      rw [processLines_append]
      rw [processLines_revs H revs
        { st with
                  current_page := some (pPage0 (⟨pid, nsv, none, true, revs⟩ : PageDesc))
                  current_revision := none
                  current_user := none
                  linecount := st.linecount + 1 + 1 + 1 + 1 }
        (pPage0 (⟨pid, nsv, none, true, revs⟩ : PageDesc)) hwrevs rfl rfl rfl (by exact hips)]
      simp only []
      simp only [processLines, processLine_close_page, processLine_close_pageX]
      rw [reset_page_eval
        { (pRevs H revs ({ st with
                    current_page := some (pPage0 (⟨pid, nsv, none, true, revs⟩ : PageDesc))
                    current_revision := none
                    current_user := none
                    linecount := st.linecount + 1 + 1 + 1 + 1 }, pPage0 (⟨pid, nsv, none, true, revs⟩ : PageDesc))).1 with
          current_page := some (pRevs H revs ({ st with
                      current_page := some (pPage0 (⟨pid, nsv, none, true, revs⟩ : PageDesc))
                      current_revision := none
                      current_user := none
                      linecount := st.linecount + 1 + 1 + 1 + 1 }, pPage0 (⟨pid, nsv, none, true, revs⟩ : PageDesc))).2
          current_revision := none
          current_user := none }
        (pRevs H revs ({ st with
                    current_page := some (pPage0 (⟨pid, nsv, none, true, revs⟩ : PageDesc))
                    current_revision := none
                    current_user := none
                    linecount := st.linecount + 1 + 1 + 1 + 1 }, pPage0 (⟨pid, nsv, none, true, revs⟩ : PageDesc))).2
        rfl rfl rfl
        (by show (pRevs H revs ({ st with
                      current_page := some (pPage0 (⟨pid, nsv, none, true, revs⟩ : PageDesc))
                      current_revision := none
                      current_user := none
                      linecount := st.linecount + 1 + 1 + 1 + 1 }, pPage0 (⟨pid, nsv, none, true, revs⟩ : PageDesc))).1.split_by_year = false
            rw [pRevs_fst_split_by_year]
            exact hsby)
        ((pRevs_inv H revs { st with
                  current_page := some (pPage0 (⟨pid, nsv, none, true, revs⟩ : PageDesc))
                  current_revision := none
                  current_user := none
                  linecount := st.linecount + 1 + 1 + 1 + 1 } (pPage0 (⟨pid, nsv, none, true, revs⟩ : PageDesc)) hwrevs (by exact hips)
          (by exact hcsv) (pgok_pPage0 (⟨pid, nsv, none, true, revs⟩ : PageDesc) hwpid hwnsv)).2.2)]
      simp only []
      rw [show ({ st with
                  current_page := some (pPage0 (⟨pid, nsv, none, true, revs⟩ : PageDesc))
                  current_revision := none
                  current_user := none
                  linecount := st.linecount + 1 + 1 + 1 + 1 } : Crawler) =
        { bump st (headerCount (⟨pid, nsv, none, true, revs⟩ : PageDesc)) with
                  current_page := some (pPage0 (⟨pid, nsv, none, true, revs⟩ : PageDesc))
                  current_revision := none
                  current_user := none } from rfl]
      rw [pRevs_frame H revs (bump st (headerCount (⟨pid, nsv, none, true, revs⟩ : PageDesc)))
        (pPage0 (⟨pid, nsv, none, true, revs⟩ : PageDesc)) (some (pPage0 (⟨pid, nsv, none, true, revs⟩ : PageDesc))) none none]
      simp only []
      rw [pCloseCore_frame (pRevs H revs (bump st (headerCount (⟨pid, nsv, none, true, revs⟩ : PageDesc)), pPage0 (⟨pid, nsv, none, true, revs⟩ : PageDesc))).1 (pRevs H revs (bump st (headerCount (⟨pid, nsv, none, true, revs⟩ : PageDesc)), pPage0 (⟨pid, nsv, none, true, revs⟩ : PageDesc))).2 (some ((pRevs H revs (bump st (headerCount (⟨pid, nsv, none, true, revs⟩ : PageDesc)), pPage0 (⟨pid, nsv, none, true, revs⟩ : PageDesc))).2)) none none]
      simp [pClose, bump]
  · have hwt1 : SimpleStr t := hwtitle.1
    have hwt2 : t ≠ [] := hwtitle.2
    rcases redirect with _ | _
    · have hP : pPage0 (⟨pid, nsv, some t, false, revs⟩ : PageDesc) =
          { name := some t, page_id := some pid, nspace := some nsv, is_redirect := false,
            user_months := [], user_ids := [], users := [], hashes := [] } := by
        simp [pPage0, Page.init, hwt2]
      simp only [blockLines, List.cons_append, List.nil_append, List.append_nil,
        List.append_eq, processLines, processLine_open_page, processLine_open_pageX,
        processLine_leaf_title_m, processLine_leaf_title_mX, processLine_redirect_m,
        processLine_leaf_ns_m, processLine_leaf_ns_mX, processLine_leaf_id_page_m,
        processLine_leaf_id_page_mX, hwt1, hwt2, hwnsv, hwpid, hcr, hcu, hcondF,
        Page.init, Page.add_id, Option.isSome_some, Option.map_some', Option.getD_some,
        ne_eq, not_false_eq_true, if_true, ite_true, if_false, ite_false]
      rw [← hP]
      rw [processLines_append]
      rw [processLines_revs H revs
        { st with
                  current_page := some (pPage0 (⟨pid, nsv, some t, false, revs⟩ : PageDesc))
                  current_revision := none
                  current_user := none
                  linecount := st.linecount + 1 + 1 + 1 + 1 }
        (pPage0 (⟨pid, nsv, some t, false, revs⟩ : PageDesc)) hwrevs rfl rfl rfl (by exact hips)]
      simp only []
      simp only [processLines, processLine_close_page, processLine_close_pageX]
      rw [reset_page_eval
        { (pRevs H revs ({ st with
                    current_page := some (pPage0 (⟨pid, nsv, some t, false, revs⟩ : PageDesc))
                    current_revision := none
                    current_user := none
                    linecount := st.linecount + 1 + 1 + 1 + 1 }, pPage0 (⟨pid, nsv, some t, false, revs⟩ : PageDesc))).1 with
          current_page := some (pRevs H revs ({ st with
                      current_page := some (pPage0 (⟨pid, nsv, some t, false, revs⟩ : PageDesc))
                      current_revision := none
                      current_user := none
                      linecount := st.linecount + 1 + 1 + 1 + 1 }, pPage0 (⟨pid, nsv, some t, false, revs⟩ : PageDesc))).2
          current_revision := none
          current_user := none }
        (pRevs H revs ({ st with
                    current_page := some (pPage0 (⟨pid, nsv, some t, false, revs⟩ : PageDesc))
                    current_revision := none
                    current_user := none
                    linecount := st.linecount + 1 + 1 + 1 + 1 }, pPage0 (⟨pid, nsv, some t, false, revs⟩ : PageDesc))).2
        rfl rfl rfl
        (by show (pRevs H revs ({ st with
                      current_page := some (pPage0 (⟨pid, nsv, some t, false, revs⟩ : PageDesc))
                      current_revision := none
                      current_user := none
                      linecount := st.linecount + 1 + 1 + 1 + 1 }, pPage0 (⟨pid, nsv, some t, false, revs⟩ : PageDesc))).1.split_by_year = false
            rw [pRevs_fst_split_by_year]
            exact hsby)
        ((pRevs_inv H revs { st with
                  current_page := some (pPage0 (⟨pid, nsv, some t, false, revs⟩ : PageDesc))
                  current_revision := none
                  current_user := none
                  linecount := st.linecount + 1 + 1 + 1 + 1 } (pPage0 (⟨pid, nsv, some t, false, revs⟩ : PageDesc)) hwrevs (by exact hips)
          (by exact hcsv) (pgok_pPage0 (⟨pid, nsv, some t, false, revs⟩ : PageDesc) hwpid hwnsv)).2.2)]
      simp only []
      rw [show ({ st with
                  current_page := some (pPage0 (⟨pid, nsv, some t, false, revs⟩ : PageDesc))
                  current_revision := none
                  current_user := none
                  linecount := st.linecount + 1 + 1 + 1 + 1 } : Crawler) =
        { bump st (headerCount (⟨pid, nsv, some t, false, revs⟩ : PageDesc)) with
                  current_page := some (pPage0 (⟨pid, nsv, some t, false, revs⟩ : PageDesc))
                  current_revision := none
                  current_user := none } from rfl]
      rw [pRevs_frame H revs (bump st (headerCount (⟨pid, nsv, some t, false, revs⟩ : PageDesc)))
        (pPage0 (⟨pid, nsv, some t, false, revs⟩ : PageDesc)) (some (pPage0 (⟨pid, nsv, some t, false, revs⟩ : PageDesc))) none none]
      simp only []
      rw [pCloseCore_frame (pRevs H revs (bump st (headerCount (⟨pid, nsv, some t, false, revs⟩ : PageDesc)), pPage0 (⟨pid, nsv, some t, false, revs⟩ : PageDesc))).1 (pRevs H revs (bump st (headerCount (⟨pid, nsv, some t, false, revs⟩ : PageDesc)), pPage0 (⟨pid, nsv, some t, false, revs⟩ : PageDesc))).2 (some ((pRevs H revs (bump st (headerCount (⟨pid, nsv, some t, false, revs⟩ : PageDesc)), pPage0 (⟨pid, nsv, some t, false, revs⟩ : PageDesc))).2)) none none]
      simp [pClose, bump]
    · have hP : pPage0 (⟨pid, nsv, some t, true, revs⟩ : PageDesc) =
          { name := some t, page_id := some pid, nspace := some nsv, is_redirect := true,
            user_months := [], user_ids := [], users := [], hashes := [] } := by
        simp [pPage0, Page.init, hwt2]
      simp only [blockLines, List.cons_append, List.nil_append, List.append_nil,
        List.append_eq, processLines, processLine_open_page, processLine_open_pageX,
        processLine_leaf_title_m, processLine_leaf_title_mX, processLine_redirect_m,
        processLine_leaf_ns_m, processLine_leaf_ns_mX, processLine_leaf_id_page_m,
        processLine_leaf_id_page_mX, hwt1, hwt2, hwnsv, hwpid, hcr, hcu, hcondF,
        Page.init, Page.add_id, Option.isSome_some, Option.map_some', Option.getD_some,
        ne_eq, not_false_eq_true, if_true, ite_true, if_false, ite_false]
      rw [← hP]
      rw [processLines_append]
      rw [processLines_revs H revs
        { st with
                  current_page := some (pPage0 (⟨pid, nsv, some t, true, revs⟩ : PageDesc))
                  current_revision := none
                  current_user := none
                  linecount := st.linecount + 1 + 1 + 1 + 1 + 1 }
        (pPage0 (⟨pid, nsv, some t, true, revs⟩ : PageDesc)) hwrevs rfl rfl rfl (by exact hips)]
      simp only []
      simp only [processLines, processLine_close_page, processLine_close_pageX]
      rw [reset_page_eval
        { (pRevs H revs ({ st with
                    current_page := some (pPage0 (⟨pid, nsv, some t, true, revs⟩ : PageDesc))
                    current_revision := none
                    current_user := none
                    linecount := st.linecount + 1 + 1 + 1 + 1 + 1 }, pPage0 (⟨pid, nsv, some t, true, revs⟩ : PageDesc))).1 with
          current_page := some (pRevs H revs ({ st with
                      current_page := some (pPage0 (⟨pid, nsv, some t, true, revs⟩ : PageDesc))
                      current_revision := none
                      current_user := none
                      linecount := st.linecount + 1 + 1 + 1 + 1 + 1 }, pPage0 (⟨pid, nsv, some t, true, revs⟩ : PageDesc))).2
          current_revision := none
          current_user := none }
        (pRevs H revs ({ st with
                    current_page := some (pPage0 (⟨pid, nsv, some t, true, revs⟩ : PageDesc))
                    current_revision := none
                    current_user := none
                    linecount := st.linecount + 1 + 1 + 1 + 1 + 1 }, pPage0 (⟨pid, nsv, some t, true, revs⟩ : PageDesc))).2
        rfl rfl rfl
        (by show (pRevs H revs ({ st with
                      current_page := some (pPage0 (⟨pid, nsv, some t, true, revs⟩ : PageDesc))
                      current_revision := none
                      current_user := none
                      linecount := st.linecount + 1 + 1 + 1 + 1 + 1 }, pPage0 (⟨pid, nsv, some t, true, revs⟩ : PageDesc))).1.split_by_year = false
            rw [pRevs_fst_split_by_year]
            exact hsby)
        ((pRevs_inv H revs { st with
                  current_page := some (pPage0 (⟨pid, nsv, some t, true, revs⟩ : PageDesc))
                  current_revision := none
                  current_user := none
                  linecount := st.linecount + 1 + 1 + 1 + 1 + 1 } (pPage0 (⟨pid, nsv, some t, true, revs⟩ : PageDesc)) hwrevs (by exact hips)
          (by exact hcsv) (pgok_pPage0 (⟨pid, nsv, some t, true, revs⟩ : PageDesc) hwpid hwnsv)).2.2)]
      simp only []
      rw [show ({ st with
                  current_page := some (pPage0 (⟨pid, nsv, some t, true, revs⟩ : PageDesc))
                  current_revision := none
                  current_user := none
                  linecount := st.linecount + 1 + 1 + 1 + 1 + 1 } : Crawler) =
        { bump st (headerCount (⟨pid, nsv, some t, true, revs⟩ : PageDesc)) with
                  current_page := some (pPage0 (⟨pid, nsv, some t, true, revs⟩ : PageDesc))
                  current_revision := none
                  current_user := none } from rfl]
      rw [pRevs_frame H revs (bump st (headerCount (⟨pid, nsv, some t, true, revs⟩ : PageDesc)))
        (pPage0 (⟨pid, nsv, some t, true, revs⟩ : PageDesc)) (some (pPage0 (⟨pid, nsv, some t, true, revs⟩ : PageDesc))) none none]
      simp only []
      rw [pCloseCore_frame (pRevs H revs (bump st (headerCount (⟨pid, nsv, some t, true, revs⟩ : PageDesc)), pPage0 (⟨pid, nsv, some t, true, revs⟩ : PageDesc))).1 (pRevs H revs (bump st (headerCount (⟨pid, nsv, some t, true, revs⟩ : PageDesc)), pPage0 (⟨pid, nsv, some t, true, revs⟩ : PageDesc))).2 (some ((pRevs H revs (bump st (headerCount (⟨pid, nsv, some t, true, revs⟩ : PageDesc)), pPage0 (⟨pid, nsv, some t, true, revs⟩ : PageDesc))).2)) none none]
      simp [pClose, bump]

theorem processLines_block (H : Str → Str) (st : Crawler) (d : PageDesc)
    (hwf : WFBlock d) (hgood : GoodSt st) :
    processLines H st (blockLines d) = .ok (pBlock H d st) := by
  by_cases hf : st.mainspace_only = true ∧ ¬d.nsv = ['0']
  · rw [processLines_block_filtered H st d hwf hgood hf.1 hf.2]
    unfold pBlock
    rw [if_pos ⟨hf.1, hf.2⟩]
  · have hopen : st.mainspace_only = false ∨ d.nsv = ['0'] := by
      rcases Bool.eq_false_or_eq_true st.mainspace_only with h | h
      · right
        by_contra hn
        exact hf ⟨h, hn⟩
      · exact Or.inl h
    rw [processLines_block_open H st d hwf hgood hopen]
    unfold pBlock
    rw [if_neg (by
      rintro ⟨h1, h2⟩
      rcases hopen with h | h
      · rw [h] at h1
        exact Bool.false_ne_true h1
      · exact h2 h)]

theorem pBlock_goodSt (H : Str → Str) (st : Crawler) (d : PageDesc)
    (hwf : WFBlock d) (hgood : GoodSt st) : GoodSt (pBlock H d st) := by
  obtain ⟨hcp, hcr, hcu, hsby, hips, hcsv⟩ := hgood
  unfold pBlock
  by_cases hf : st.mainspace_only ∧ d.nsv ≠ ['0']
  · rw [if_pos hf]
    refine ⟨?_, ?_, ?_, ?_, ?_, ?_⟩ <;>
      simp [bump, ticks_current_page, ticks_current_revision, ticks_current_user,
        ticks_split_by_year, ticks_ips, ticks_ip2id, hcp, hcr, hcu, hsby]
    · exact fun q hq => hips q hq
    · exact fun a b hab => hcsv (a, b) hab
  · rw [if_neg hf]
    have hinv := pRevs_inv H d.revs (bump st (headerCount d)) (pPage0 d) hwf.2.2.2
      (by exact hips) (by intro p hp; exact hcsv p hp) (pgok_pPage0 d hwf.1 hwf.2.1)
    have hcur := pCloseCore_current
      (pRevs H d.revs (bump st (headerCount d), pPage0 d)).1
      (pRevs H d.revs (bump st (headerCount d), pPage0 d)).2
    refine ⟨?_, ?_, ?_, ?_, ?_, ?_⟩
    · simpa [pClose, bump] using hcur.1
    · simpa [pClose, bump] using hcur.2.1
    · simpa [pClose, bump] using hcur.2.2
    · simp only [pClose, bump, pCloseCore_split_by_year, pRevs_fst_split_by_year]
      exact hsby
    · intro q hq
      simp only [pClose, bump, pCloseCore_ips] at hq
      simp only [pClose, bump, pCloseCore_ip2id]
      exact hinv.1 q hq
    · intro p hp
      simp only [pClose, bump, pCloseCore_ip2id] at hp
      exact hinv.2.1 p hp

theorem processLines_run (H : Str → Str) (ds : List PageDesc) :
    ∀ st : Crawler, WFRun ds → GoodSt st →
    processLines H st (runLines ds) = .ok (pRun H ds st) := by
  induction ds with
  | nil => intro st _ _; rfl
  | cons d t ih =>
    intro st hwf hgood
    simp only [runLines]
    rw [processLines_append, processLines_block H st d (hwf d (by simp)) hgood]
    simp only []
    rw [ih (pBlock H d st) (fun d' h => hwf d' (by simp [h]))
      (pBlock_goodSt H st d (hwf d (by simp)) hgood)]
    rfl


theorem splitAll_append_last (c : Char) : ∀ x : Str, splitAll (x ++ [c]) c = splitAll x c ++ [[]] := by
  intro x
  induction x with
  | nil => simp [splitAll]
  | cons a t ih =>
    rw [List.cons_append]
    simp only [splitAll, ih]
    cases hsa : splitAll t c with
    | nil => exact absurd hsa (splitAll_ne_nil t c)
    | cons h2 t2 => by_cases hac : a = c <;> simp [hac, hsa]

theorem sumVals_umInc (k : Option Str × Option Str) :
    ∀ m, sumVals (umInc m k) = sumVals m + 1 := by
  intro m
  induction m with
  | nil => simp [umInc, aset, alookup, sumVals]
  | cons p t ih =>
    obtain ⟨k2, w⟩ := p
    by_cases h : k2 = k
    · subst h
      simp [umInc, aset, alookup, sumVals]
      omega
    · simp only [umInc, aset, alookup, if_neg h, sumVals, List.map_cons, List.sum_cons]
      simp only [umInc, sumVals] at ih
      omega

theorem pUser_fst_written (H : Str → Str) (st : Crawler) (c : Contrib) :
    (pUser H st c).1.written = st.written := by
  cases c <;> simp [pUser] <;> split <;> rfl

theorem usersFile_eq : get_output_filename ("users_output".toList) none = usersFile := by decide

theorem usersFile_eqX :
    get_output_filename ['u', 's', 'e', 'r', 's', '_', 'o', 'u', 't', 'p', 'u', 't'] none =
      usersFile := by decide

theorem pCommit_written (st : Crawler) (u : User) (rv : Revision) (pg : Page) :
    ∃ ex, (pCommit st u rv pg).1.written = st.written ++ ex ∧
      ∀ e ∈ ex, e.1 = usersFile := by
  refine ⟨if u.user_id ∈ st.user_ids then [] else
    (match userRow u with
     | some csv => [(usersFile, if ['\n'].isSuffixOf csv then csv else csv ++ ['\n'])]
     | none => []), ?_, ?_⟩ <;>
  · by_cases hip : (ipTruthy u && u.is_new) = true
    all_goals by_cases hmem : u.user_id ∈ st.user_ids
    all_goals rcases hrow : userRow u with _ | csv
    all_goals simp [pCommit, Crawler.write_output_line, hip, hmem, hrow, usersFile_eq,
      usersFile_eqX]

theorem pRev_written (H : Str → Str) (st : Crawler) (pg : Page) (r : RevDesc) :
    ∃ ex, (pRev H r (st, pg)).1.written = st.written ++ ex ∧
      ∀ e ∈ ex, e.1 = usersFile := by
  obtain ⟨rid, ts, c⟩ := r
  rcases c with _ | c
  · exact ⟨[], by simp [pRev, bump], by simp⟩
  rcases hu : pUser H st c with ⟨s1, u1⟩
  rcases hc : pCommit s1 u1 { revid := rid, month := ts.map fun t => t.take 7, sha1 := none }
      pg with ⟨s2, p2⟩
  have h1 := pUser_fst_written H st c
  rw [hu] at h1
  simp at h1
  obtain ⟨ex, hex, hall⟩ := pCommit_written s1 u1
    { revid := rid, month := ts.map fun t => t.take 7, sha1 := none } pg
  rw [hc] at hex
  simp at hex
  refine ⟨ex, ?_, hall⟩
  simp [pRev, hu, hc, bump, hex, h1]

theorem pRevs_written (H : Str → Str) (rs : List RevDesc) :
    ∀ (st : Crawler) (pg : Page),
    ∃ ex, (pRevs H rs (st, pg)).1.written = st.written ++ ex ∧
      ∀ e ∈ ex, e.1 = usersFile := by
  induction rs with
  | nil => intro st pg; exact ⟨[], by simp [pRevs], by simp⟩
  | cons r t ih =>
    intro st pg
    obtain ⟨ex1, hex1, hall1⟩ := pRev_written H st pg r
    obtain ⟨ex2, hex2, hall2⟩ := ih (pRev H r (st, pg)).1 (pRev H r (st, pg)).2
    have heta : ((pRev H r (st, pg)).1, (pRev H r (st, pg)).2) = pRev H r (st, pg) := rfl
    rw [heta] at hex2
    refine ⟨ex1 ++ ex2, ?_, ?_⟩
    · rw [pRevs, ← heta, hex2, hex1, List.append_assoc]
    · intro e he
      rcases List.mem_append.mp he with h | h
      · exact hall1 e h
      · exact hall2 e h

theorem pRev_sumVals (H : Str → Str) (st : Crawler) (pg : Page) (r : RevDesc) :
    sumVals ((pRev H r (st, pg)).2.user_months) =
      sumVals pg.user_months + (if r.contrib.isSome then 1 else 0) := by
  obtain ⟨rid, ts, c⟩ := r
  rcases c with _ | c
  · simp [pRev]
  rcases hu : pUser H st c with ⟨s1, u1⟩
  rcases hc : pCommit s1 u1 { revid := rid, month := ts.map fun t => t.take 7, sha1 := none }
      pg with ⟨s2, p2⟩
  have hadd := pCommit_snd s1 u1
    { revid := rid, month := ts.map fun t => t.take 7, sha1 := none } pg
  rw [hc] at hadd
  simp at hadd
  have hp2 : (pRev H ⟨rid, ts, some c⟩ (st, pg)).2 = p2 := by
    simp [pRev, hu, hc]
  rw [hp2, hadd]
  unfold Page.add_user
  by_cases hmemu : u1.user_id ∈ pg.user_ids <;>
    simp [hmemu, sumVals_umInc]

theorem countQual_cons (r : RevDesc) (t : List RevDesc) :
    countQual (r :: t) =
      (if r.contrib.isSome && r.ts.isSome then 1 else 0) + countQual t := by
  simp only [countQual, List.filter]
  split <;> simp_all <;> omega

theorem pRevs_sumVals (H : Str → Str) (rs : List RevDesc) :
    ∀ (st : Crawler) (pg : Page), (∀ r ∈ rs, WFRev r) →
    sumVals ((pRevs H rs (st, pg)).2.user_months) =
      sumVals pg.user_months + countQual rs := by
  induction rs with
  | nil => intro st pg _; simp [pRevs, countQual]
  | cons r t ih =>
    intro st pg hwf
    have heta : ((pRev H r (st, pg)).1, (pRev H r (st, pg)).2) = pRev H r (st, pg) := rfl
    rw [pRevs, ← heta, ih _ _ (fun r' h => hwf r' (by simp [h])), pRev_sumVals,
      countQual_cons]
    have hqual : (if r.contrib.isSome && r.ts.isSome then 1 else 0) =
        (if r.contrib.isSome then 1 else 0) := by
      rcases hcx : r.contrib with _ | c
      · simp
      · have hwc : WFContrib c ∧ r.ts.isSome = true := by
          have h := (hwf r (by simp)).2.2
          rw [hcx] at h
          exact h
        simp [hwc.2]
    rw [hqual]
    omega

theorem splitAll_upmLine0 (pg : Page) (e : (Option Str × Option Str) × Nat)
    (h1 : CsvSafe (e.1.1.getD [])) (h2 : CsvSafe (e.1.2.getD []))
    (hpid : CsvSafe (pg.page_id.getD [])) (hns : CsvSafe (pg.nspace.getD [])) :
    splitAll (upmLine0 pg e) ',' =
      [e.1.1.getD [], pg.page_id.getD [], pg.nspace.getD [],
        (if pg.is_redirect then ['1'] else ['0']), e.1.2.getD [], natToStr e.2] := by
  unfold upmLine0
  refine splitAll_joinSep _ ',' (by simp) ?_
  intro p hp
  simp only [List.mem_cons, List.not_mem_nil, or_false] at hp
  rcases hp with rfl | rfl | rfl | rfl | rfl | rfl
  · exact fun hm => (h1 ',' hm).1 rfl
  · exact fun hm => (hpid ',' hm).1 rfl
  · exact fun hm => (hns ',' hm).1 rfl
  · split <;> decide
  · exact fun hm => (h2 ',' hm).1 rfl
  · exact fun hm => (csvSafe_natToStr _ ',' hm).1 rfl

theorem noNL_upmLine0 (pg : Page) (e : (Option Str × Option Str) × Nat)
    (h1 : CsvSafe (e.1.1.getD [])) (h2 : CsvSafe (e.1.2.getD []))
    (hpid : CsvSafe (pg.page_id.getD [])) (hns : CsvSafe (pg.nspace.getD [])) :
    ('\n' : Char) ∉ upmLine0 pg e := by
  intro hm
  rcases mem_joinSep _ _ _ hm with h | ⟨p, hp, hc⟩
  · simp at h
  · simp only [List.mem_cons, List.not_mem_nil, or_false] at hp
    rcases hp with rfl | rfl | rfl | rfl | rfl | rfl
    · exact (h1 _ hc).2 rfl
    · exact (hpid _ hc).2 rfl
    · exact (hns _ hc).2 rfl
    · revert hc
      split <;> decide
    · exact (h2 _ hc).2 rfl
    · exact (csvSafe_natToStr _ _ hc).2 rfl

theorem sumUpmChunk_core (pg : Page) (hpgok : PgOK pg) (hum : pg.user_months ≠ []) :
    sumUpmChunk (joinSep ['\n'] (upmLines pg)) = sumVals pg.user_months := by
  obtain ⟨hp1, hp2, hp3, hp4, hp5⟩ := hpgok
  unfold sumUpmChunk
  rw [splitAll_joinSep (upmLines pg) '\n' (by simpa [upmLines] using hum)
    (fun l hl => by
      obtain ⟨e, he, rfl⟩ := List.mem_map.mp hl
      exact noNL_upmLine0 pg e (hp5 e he).2.1 (hp5 e he).2.2.2 hp3 hp4)]
  unfold upmLines
  rw [List.map_map]
  have hcong : ∀ e ∈ pg.user_months,
      ((fun l => strToNat ((splitAll l ',').getLastD [])) ∘ upmLine0 pg) e = e.2 := by
    intro e he
    simp only [Function.comp]
    rw [splitAll_upmLine0 pg e (hp5 e he).2.1 (hp5 e he).2.2.2 hp3 hp4]
    simp [List.getLastD, strToNat_natToStr]
  rw [List.map_congr_left hcong]
  rfl

theorem sumUpmChunk_upmLines (pg : Page) (hpgok : PgOK pg) (hum : pg.user_months ≠ []) :
    sumUpmChunk (joinSep ['\n'] (upmLines pg) ++ ['\n']) = sumVals pg.user_months := by
  have hcore := sumUpmChunk_core pg hpgok hum
  unfold sumUpmChunk at hcore ⊢
  rw [splitAll_append_last, List.map_append, List.sum_append]
  have hnil : ((([[]] : List Str)).map
      (fun l => strToNat ((splitAll l ',').getLastD []))).sum = 0 := by decide
  rw [hnil, Nat.add_zero]
  exact hcore

theorem sumUpmChunk_ite (pg : Page) (hpgok : PgOK pg) (hum : pg.user_months ≠ []) :
    sumUpmChunk (if (['\n'] : Str).isSuffixOf (joinSep ['\n'] (upmLines pg)) then
      joinSep ['\n'] (upmLines pg) else joinSep ['\n'] (upmLines pg) ++ ['\n']) =
      sumVals pg.user_months := by
  split
  · exact sumUpmChunk_core pg hpgok hum
  · exact sumUpmChunk_upmLines pg hpgok hum

theorem upmFile_upm : isUpmFile (get_output_filename ("user_page_months_output".toList)
    (some [])) = true := by decide

theorem upmFile_pages : isUpmFile (get_output_filename ("pages_output".toList) none) =
    false := by decide

theorem upmFile_users : isUpmFile usersFile = false := by decide

theorem upmFile_pagesX :
    isUpmFile (get_output_filename ['p', 'a', 'g', 'e', 's', '_', 'o', 'u', 't', 'p', 'u', 't']
      none) = false := by decide

theorem sumUpmRecords_single (f ch : Str) (h : isUpmFile f = true) :
    sumUpmRecords [(f, ch)] = sumUpmChunk ch := by
  simp [sumUpmRecords, upmRecords, h]

theorem sumUpmRecords_append (w1 w2 : List (Str × Str)) :
    sumUpmRecords (w1 ++ w2) = sumUpmRecords w1 + sumUpmRecords w2 := by
  simp [sumUpmRecords, upmRecords, List.filter_append]

theorem sumUpmRecords_users (ex : List (Str × Str)) (hall : ∀ e ∈ ex, e.1 = usersFile) :
    sumUpmRecords ex = 0 := by
  have : upmRecords ex = [] := by
    simp only [upmRecords]
    rw [List.filter_eq_nil_iff]
    intro e he
    rw [hall e he]
    simp [upmFile_users]
  simp [sumUpmRecords, this]

theorem bump_written (st : Crawler) (k : Nat) : (bump st k).written = st.written := rfl

theorem pCloseCore_written (st : Crawler) (pg : Page) :
    (pCloseCore st pg).written =
      st.written ++
        (if pg.user_months = [] then []
         else [(get_output_filename ("user_page_months_output".toList) (some []),
           if (['\n'] : Str).isSuffixOf (joinSep ['\n'] (upmLines pg)) then
             joinSep ['\n'] (upmLines pg) else joinSep ['\n'] (upmLines pg) ++ ['\n'])]) ++
        (match pageRow pg with
         | some csv => [(get_output_filename ("pages_output".toList) none,
             if (['\n'] : Str).isSuffixOf csv then csv else csv ++ ['\n'])]
         | none => []) := by
  by_cases hum : pg.user_months = [] <;> rcases hrow : pageRow pg <;>
    simp [pCloseCore, Crawler.write_output_line, hum, hrow]

theorem pBlock_upm_sum (H : Str → Str) (st : Crawler) (d : PageDesc)
    (hwf : WFBlock d) (hgood : GoodSt st)
    (hopen : st.mainspace_only = false ∨ d.nsv = ['0']) :
    sumUpmRecords ((pBlock H d st).written) =
      sumUpmRecords st.written + countQual d.revs := by
  obtain ⟨hcp, hcr, hcu, hsby, hips, hcsv⟩ := hgood
  unfold pBlock
  rw [if_neg (by
    rintro ⟨h1, h2⟩
    rcases hopen with h | h
    · rw [h] at h1
      exact Bool.false_ne_true h1
    · exact h2 h)]
  have hinv := pRevs_inv H d.revs (bump st (headerCount d)) (pPage0 d) hwf.2.2.2
    (by exact hips) (by intro p hp; exact hcsv p hp) (pgok_pPage0 d hwf.1 hwf.2.1)
  have hpgok := hinv.2.2
  obtain ⟨ex, hex, hall⟩ := pRevs_written H d.revs (bump st (headerCount d)) (pPage0 d)
  have hexw : (pRevs H d.revs (bump st (headerCount d), pPage0 d)).1.written =
      st.written ++ ex := by
    rw [hex]
    simp [bump]
  have hsum := pRevs_sumVals H d.revs (bump st (headerCount d)) (pPage0 d) hwf.2.2.2
  have hsum0 : sumVals (pPage0 d).user_months = 0 := by simp [pPage0, Page.init, sumVals]
  rw [hsum0] at hsum
  simp only [Nat.zero_add] at hsum
  show sumUpmRecords ((pClose _ _).written) = _
  simp only [pClose, bump_written]
  rw [pCloseCore_written, sumUpmRecords_append, sumUpmRecords_append, hexw,
    sumUpmRecords_append, sumUpmRecords_users ex hall]
  have hpages : sumUpmRecords
      (match pageRow (pRevs H d.revs (bump st (headerCount d), pPage0 d)).2 with
       | some csv => [(get_output_filename ("pages_output".toList) none,
           if (['\n'] : Str).isSuffixOf csv then csv else csv ++ ['\n'])]
       | none => []) = 0 := by
    rcases pageRow (pRevs H d.revs (bump st (headerCount d), pPage0 d)).2 <;>
      simp [sumUpmRecords, upmRecords, upmFile_pages, upmFile_pagesX]
  rw [hpages]
  by_cases hum : (pRevs H d.revs (bump st (headerCount d), pPage0 d)).2.user_months = []
  · have hq : countQual d.revs = 0 := by
      rw [← hsum, hum]
      rfl
    rw [if_pos hum, hq]
    simp [sumUpmRecords, upmRecords]
  · rw [if_neg hum]
    have hchunk := sumUpmChunk_ite (pRevs H d.revs (bump st (headerCount d), pPage0 d)).2
      hpgok hum
    have hone : sumUpmRecords [(get_output_filename ("user_page_months_output".toList)
        (some []),
        if (['\n'] : Str).isSuffixOf
          (joinSep ['\n'] (upmLines (pRevs H d.revs (bump st (headerCount d), pPage0 d)).2))
        then joinSep ['\n'] (upmLines (pRevs H d.revs (bump st (headerCount d), pPage0 d)).2)
        else joinSep ['\n']
          (upmLines (pRevs H d.revs (bump st (headerCount d), pPage0 d)).2) ++ ['\n'])] =
        countQual d.revs := by
      rw [sumUpmRecords_single _ _ upmFile_upm, hchunk]
      exact hsum
    rw [hone]
    omega

theorem ipLabel_inj {m n : Nat} (h : ipLabel m = ipLabel n) : m = n := by
  unfold ipLabel at h
  have h2 : natToStr m = natToStr n := by
    have := h
    simpa using this
  exact natToStr_injective h2

theorem idxOf_lt_length : ∀ (seen : List Str) (ip : Str), ip ∈ seen →
    idxOf seen ip < seen.length := by
  intro seen
  induction seen with
  | nil => intro ip h; simp at h
  | cons a t ih =>
    intro ip h
    by_cases ha : a = ip
    · simp [idxOf, ha]
    · rcases List.mem_cons.mp h with h1 | h1
      · exact absurd h1.symm ha
      · simp only [idxOf, if_neg ha, List.length_cons]
        exact Nat.succ_lt_succ (ih ip h1)

theorem alookup_ip2idOfAux_mem : ∀ (seen : List Str) (k : Nat) (ip : Str), ip ∈ seen →
    alookup (ip2idOfAux k seen) ip = some (ipLabel (k + idxOf seen ip)) := by
  intro seen
  induction seen with
  | nil => intro k ip h; simp at h
  | cons a t ih =>
    intro k ip h
    by_cases ha : a = ip
    · simp [ip2idOfAux, alookup, idxOf, ha]
    · rcases List.mem_cons.mp h with h1 | h1
      · exact absurd h1.symm ha
      · simp only [ip2idOfAux, alookup, if_neg ha, idxOf]
        rw [ih (k + 1) ip h1]
        have : k + 1 + idxOf t ip = k + (idxOf t ip + 1) := by omega
        rw [this]

theorem alookup_ip2idOfAux_not_mem : ∀ (seen : List Str) (k : Nat) (ip : Str), ip ∉ seen →
    alookup (ip2idOfAux k seen) ip = none := by
  intro seen
  induction seen with
  | nil => intro k ip _; rfl
  | cons a t ih =>
    intro k ip h
    have ha : a ≠ ip := fun he => h (by simp [he])
    simp only [ip2idOfAux, alookup, if_neg ha]
    exact ih (k + 1) ip (fun hm => h (by simp [hm]))

theorem ip2idOfAux_append : ∀ (s1 : List Str) (k : Nat) (s2 : List Str),
    ip2idOfAux k (s1 ++ s2) = ip2idOfAux k s1 ++ ip2idOfAux (k + s1.length) s2 := by
  intro s1
  induction s1 with
  | nil => intro k s2; simp [ip2idOfAux]
  | cons a t ih =>
    intro k s2
    have h1 : k + 1 + t.length = k + (t.length + 1) := by omega
    calc ip2idOfAux k ((a :: t) ++ s2)
        = (a, ipLabel k) :: ip2idOfAux (k + 1) (t ++ s2) := rfl
      _ = (a, ipLabel k) :: (ip2idOfAux (k + 1) t ++ ip2idOfAux (k + 1 + t.length) s2) := by
          rw [ih]
      _ = ip2idOfAux k (a :: t) ++ ip2idOfAux (k + (a :: t).length) s2 := by
          simp [ip2idOfAux, List.length_cons, h1]

theorem aset_new [DecidableEq α] : ∀ (m : List (α × β)) (k : α) (v : β),
    (∀ p ∈ m, p.1 ≠ k) → aset m k v = m ++ [(k, v)] := by
  intro m
  induction m with
  | nil => intro k v _; rfl
  | cons p t ih =>
    intro k v hall
    obtain ⟨k2, w⟩ := p
    have hk : k2 ≠ k := hall (k2, w) (by simp)
    simp only [aset, if_neg hk, List.cons_append]
    rw [ih k v (fun p hp => hall p (by simp [hp]))]

theorem ip2idOfAux_keys : ∀ (seen : List Str) (k : Nat) (p : Str × Str),
    p ∈ ip2idOfAux k seen → p.1 ∈ seen := by
  intro seen
  induction seen with
  | nil => intro k p h; simp [ip2idOfAux] at h
  | cons a t ih =>
    intro k p h
    simp only [ip2idOfAux, List.mem_cons] at h
    rcases h with h | h
    · simp [h]
    · simp [ih (k + 1) p h]

theorem takeWhile_uid : ∀ (uid rest : Str), (',' : Char) ∉ uid →
    (uid ++ ',' :: rest).takeWhile (fun c => c ≠ ',') = uid := by
  intro uid
  induction uid with
  | nil => intro rest _; simp [List.takeWhile]
  | cons a t ih =>
    intro rest h
    have ha : a ≠ ',' := fun he => h (by simp [he])
    have ht := ih rest (fun hm => h (by simp [hm]))
    rw [List.cons_append, List.takeWhile_cons, if_pos (by simp [ha]), ht]

theorem usersRowIds_append (w1 w2 : List (Str × Str)) :
    usersRowIds (w1 ++ w2) = usersRowIds w1 ++ usersRowIds w2 := by
  simp [usersRowIds, List.filterMap_append]

theorem usersRowIds_nonusers (ex : List (Str × Str)) (hall : ∀ e ∈ ex, e.1 ≠ usersFile) :
    usersRowIds ex = [] := by
  induction ex with
  | nil => rfl
  | cons e t ih =>
    simp only [usersRowIds, List.filterMap]
    rw [if_neg (by simpa using hall e (by simp))]
    exact ih (fun e' h => hall e' (by simp [h]))

theorem ip2idOfAux_vals : ∀ (seen : List Str) (k : Nat) (p : Str × Str),
    p ∈ ip2idOfAux k seen → ∃ i, p.2 = ipLabel i := by
  intro seen
  induction seen with
  | nil => intro k p h; simp [ip2idOfAux] at h
  | cons a t ih =>
    intro k p h
    simp only [ip2idOfAux, List.mem_cons] at h
    rcases h with h | h
    · exact ⟨k, by simp [h]⟩
    · exact ih (k + 1) p h

theorem goodSt_parts (st : Crawler) (seen : List Str) (h2 : st.ips = seen)
    (h4 : st.ip2id = ip2idOf seen) (hcp : st.current_page = none)
    (hcr : st.current_revision = none) (hcu : st.current_user = none)
    (hsby : st.split_by_year = false) : GoodSt st := by
  refine ⟨hcp, hcr, hcu, hsby, ?_, ?_⟩
  · rw [h2, h4]
    intro ip hm
    rw [ip2idOf, alookup_ip2idOfAux_mem seen 0 ip hm]
    rfl
  · rw [h4]
    intro p hp
    obtain ⟨i, hi⟩ := ip2idOfAux_vals _ _ _ hp
    rw [hi]
    exact csvSafe_ipLabel i

theorem pCommit_fst_ip_count (st : Crawler) (u : User) (rv : Revision) (pg : Page) :
    (pCommit st u rv pg).1.ip_count =
      (if (ipTruthy u && u.is_new) = true then st.ip_count + 1 else st.ip_count) := by
  by_cases hip : (ipTruthy u && u.is_new) = true
  all_goals by_cases hmem : u.user_id ∈ st.user_ids
  all_goals rcases hrow : userRow u with _ | csv
  all_goals simp [pCommit, Crawler.write_output_line, hip, hmem, hrow]

theorem pCommit_fst_user_ids (st : Crawler) (u : User) (rv : Revision) (pg : Page) :
    (pCommit st u rv pg).1.user_ids =
      (if u.user_id ∈ st.user_ids then st.user_ids else st.user_ids ++ [u.user_id]) := by
  by_cases hip : (ipTruthy u && u.is_new) = true
  all_goals by_cases hmem : u.user_id ∈ st.user_ids
  all_goals rcases hrow : userRow u with _ | csv
  all_goals simp [pCommit, Crawler.write_output_line, hip, hmem, hrow]

theorem pCommit_fst_written_eq (st : Crawler) (u : User) (rv : Revision) (pg : Page) :
    (pCommit st u rv pg).1.written =
      (if u.user_id ∈ st.user_ids then st.written else
        (match userRow u with
         | some csv => st.written ++ [(usersFile,
             if (['\n'] : Str).isSuffixOf csv then csv else csv ++ ['\n'])]
         | none => st.written)) := by
  by_cases hip : (ipTruthy u && u.is_new) = true
  all_goals by_cases hmem : u.user_id ∈ st.user_ids
  all_goals rcases hrow : userRow u with _ | csv
  all_goals simp [pCommit, Crawler.write_output_line, hip, hmem, hrow, usersFile_eq,
    usersFile_eqX]

theorem takeWhile_uidX : ∀ (uid rest : Str), (',' : Char) ∉ uid →
    List.takeWhile (fun x => !decide (x = ',')) (uid ++ ',' :: rest) = uid := by
  intro uid
  induction uid with
  | nil => intro rest _; simp [List.takeWhile]
  | cons a t ih =>
    intro rest h
    have ha : a ≠ ',' := fun he => h (by simp [he])
    have ht := ih rest (fun hm => h (by simp [hm]))
    rw [List.cons_append, List.takeWhile_cons, if_pos (by simp [ha]), ht]

theorem usersRowIds_write (w : List (Str × Str)) (uid0 X : Str)
    (hcsv : (',' : Char) ∉ uid0) :
    usersRowIds (w ++ [(usersFile,
      if (['\n'] : Str).isSuffixOf (uid0 ++ ',' :: X) then uid0 ++ ',' :: X
      else (uid0 ++ ',' :: X) ++ ['\n'])]) = usersRowIds w ++ [uid0] := by
  rw [usersRowIds_append]
  congr 1
  split
  · simp [usersRowIds, takeWhile_uid uid0 X hcsv, takeWhile_uidX uid0 X hcsv]
  · have hres : (uid0 ++ ',' :: X) ++ ['\n'] = uid0 ++ ',' :: (X ++ ['\n']) := by simp
    rw [hres]
    simp [usersRowIds, takeWhile_uid uid0 _ hcsv, takeWhile_uidX uid0 _ hcsv]

theorem commit_registry (st : Crawler) (u : User) (rv : Revision) (pg : Page)
    (uids : List Str) (uid0 : Str)
    (huid : u.user_id = some uid0)
    (hc0 : (',' : Char) ∉ uid0)
    (hrowOK : uid0 ∉ uids → ∃ X, userRow u = some (uid0 ++ ',' :: X))
    (huids : st.user_ids = uids.map some)
    (hrows : usersRowIds st.written = uids)
    (hund : uids.Nodup)
    (hcomma : ∀ v ∈ uids, (',' : Char) ∉ v) :
    (pCommit st u rv pg).1.user_ids = (setAdd uids uid0).map some ∧
    usersRowIds (pCommit st u rv pg).1.written = setAdd uids uid0 ∧
    (setAdd uids uid0).Nodup ∧
    (∀ v ∈ setAdd uids uid0, (',' : Char) ∉ v) ∧
    (∀ v ∈ uids, v ∈ setAdd uids uid0) := by
  have hmem_iff : u.user_id ∈ st.user_ids ↔ uid0 ∈ uids := by
    rw [huid, huids]
    simp
  by_cases hm : uid0 ∈ uids
  · have hmem : u.user_id ∈ st.user_ids := hmem_iff.mpr hm
    rw [pCommit_fst_user_ids, pCommit_fst_written_eq, if_pos hmem, if_pos hmem]
    refine ⟨by simp [setAdd, hm, huids], by simp [setAdd, hm, hrows],
      by simp [setAdd, hm, hund], ?_, ?_⟩
    · simpa [setAdd, hm] using hcomma
    · intro v hv
      simpa [setAdd, hm] using hv
  · have hmem : u.user_id ∉ st.user_ids := fun h => hm (hmem_iff.mp h)
    obtain ⟨X, hrow⟩ := hrowOK hm
    rw [pCommit_fst_user_ids, pCommit_fst_written_eq, if_neg hmem, if_neg hmem, hrow]
    simp only [setAdd, if_neg hm]
    refine ⟨by rw [huid, huids]; simp, ?_, ?_, ?_, ?_⟩
    · rw [usersRowIds_write st.written uid0 X hc0, hrows]
    · simp [List.nodup_append, hund, hm]
    · intro v hv
      rcases List.mem_append.mp hv with h | h
      · exact hcomma v h
      · simp at h
        rw [h]
        exact hc0
    · intro v hv
      exact List.mem_append.mpr (Or.inl hv)

theorem setAdd_self_mem [DecidableEq α] (l : List α) (x : α) : x ∈ setAdd l x := by
  unfold setAdd
  split
  · assumption
  · simp

theorem Inv_bump_revTick (Y : Crawler) (L : Nat) (seen uids : List Str)
    (h : Inv Y seen uids) : Inv (bump (revTick Y) L) seen uids := by
  obtain ⟨⟨g1, g2, g3, g4, g5, g6⟩, h2, h3, h4, h5, h6, h7, h8, h9, h10⟩ := h
  exact ⟨⟨by simp [bump, g1], by simp [bump, g2], by simp [bump, g3], by simp [bump, g4],
    by simpa [bump] using g5, by simpa [bump] using g6⟩,
    by simpa [bump] using h2, by simpa [bump] using h3, by simpa [bump] using h4, h5,
    by simpa [bump] using h6, h7, by simpa [bump] using h8, h9, h10⟩

theorem Inv_commit (s1 : Crawler) (u1 : User) (rv : Revision) (pg : Page)
    (seen uids : List Str) (uid0 : Str)
    (hgood1 : s1.current_page = none ∧ s1.current_revision = none ∧
      s1.current_user = none ∧ s1.split_by_year = false)
    (hips1 : s1.ips = seen) (hcnt1 : s1.ip_count = seen.length)
    (hid1 : s1.ip2id = ip2idOf seen) (hnd : seen.Nodup)
    (huids1 : s1.user_ids = uids.map some)
    (hrows1 : usersRowIds s1.written = uids)
    (hund : uids.Nodup) (hcomma : ∀ v ∈ uids, (',' : Char) ∉ v)
    (hlab : ∀ i, i < seen.length → ipLabel i ∈ uids)
    (huid : u1.user_id = some uid0) (hc0 : (',' : Char) ∉ uid0)
    (hrowOK : uid0 ∉ uids → ∃ X, userRow u1 = some (uid0 ++ ',' :: X))
    (hnoip : (ipTruthy u1 && u1.is_new) = false) :
    Inv (pCommit s1 u1 rv pg).1 seen (setAdd uids uid0) := by
  obtain ⟨hreg1, hreg2, hreg3, hreg4, hreg5⟩ :=
    commit_registry s1 u1 rv pg uids uid0 huid hc0 hrowOK huids1 hrows1 hund hcomma
  have hips2 : (pCommit s1 u1 rv pg).1.ips = seen := by
    rw [pCommit_fst_ips, hnoip]
    simpa using hips1
  have hid2 : (pCommit s1 u1 rv pg).1.ip2id = ip2idOf seen := by
    rw [pCommit_fst_ip2id]
    exact hid1
  refine ⟨goodSt_parts _ seen hips2 hid2 ?_ ?_ ?_ ?_, hips2, ?_, hid2, hnd,
    hreg1, hreg3, hreg2, hreg4, ?_⟩
  · rw [pCommit_fst_current_page]
    exact hgood1.1
  · rw [pCommit_fst_current_revision]
    exact hgood1.2.1
  · rw [pCommit_fst_current_user]
    exact hgood1.2.2.1
  · rw [pCommit_fst_split_by_year]
    exact hgood1.2.2.2
  · rw [pCommit_fst_ip_count, hnoip]
    simpa using hcnt1
  · intro i hi
    exact hreg5 _ (hlab i hi)

theorem Inv_commit_newip (s1 : Crawler) (u1 : User) (rv : Revision) (pg : Page)
    (seen uids : List Str) (ip : Str)
    (hgood1 : s1.current_page = none ∧ s1.current_revision = none ∧
      s1.current_user = none ∧ s1.split_by_year = false)
    (hips1 : s1.ips = seen) (hcnt1 : s1.ip_count = seen.length)
    (hid1 : s1.ip2id = ip2idOf (seen ++ [ip])) (hnd : seen.Nodup) (hipnm : ip ∉ seen)
    (huids1 : s1.user_ids = uids.map some)
    (hrows1 : usersRowIds s1.written = uids)
    (hund : uids.Nodup) (hcomma : ∀ v ∈ uids, (',' : Char) ∉ v)
    (hlab : ∀ i, i < seen.length → ipLabel i ∈ uids)
    (huid : u1.user_id = some (ipLabel seen.length)) (hip : u1.ip = some ip)
    (hrowOK : ipLabel seen.length ∉ uids →
      ∃ X, userRow u1 = some (ipLabel seen.length ++ ',' :: X))
    (hyesip : (ipTruthy u1 && u1.is_new) = true) :
    Inv (pCommit s1 u1 rv pg).1 (seen ++ [ip]) (setAdd uids (ipLabel seen.length)) := by
  have hc0 : (',' : Char) ∉ ipLabel seen.length :=
    fun hm => (csvSafe_ipLabel seen.length ',' hm).1 rfl
  obtain ⟨hreg1, hreg2, hreg3, hreg4, hreg5⟩ :=
    commit_registry s1 u1 rv pg uids (ipLabel seen.length) huid hc0 hrowOK huids1 hrows1
      hund hcomma
  have hips2 : (pCommit s1 u1 rv pg).1.ips = seen ++ [ip] := by
    rw [pCommit_fst_ips, hyesip]
    simp only [if_true, ite_true, hips1, hip]
    simp [setAdd, hipnm]
  have hid2 : (pCommit s1 u1 rv pg).1.ip2id = ip2idOf (seen ++ [ip]) := by
    rw [pCommit_fst_ip2id]
    exact hid1
  refine ⟨goodSt_parts _ (seen ++ [ip]) hips2 hid2 ?_ ?_ ?_ ?_, hips2, ?_, hid2, ?_,
    hreg1, hreg3, hreg2, hreg4, ?_⟩
  · rw [pCommit_fst_current_page]
    exact hgood1.1
  · rw [pCommit_fst_current_revision]
    exact hgood1.2.1
  · rw [pCommit_fst_current_user]
    exact hgood1.2.2.1
  · rw [pCommit_fst_split_by_year]
    exact hgood1.2.2.2
  · rw [pCommit_fst_ip_count, hyesip]
    simp [hcnt1]
  · simp [List.nodup_append, hnd, hipnm]
  · intro i hi
    simp only [List.length_append, List.length_cons, List.length_nil] at hi
    by_cases hilt : i < seen.length
    · exact hreg5 _ (hlab i hilt)
    · have : i = seen.length := by omega
      rw [this]
      exact setAdd_self_mem uids (ipLabel seen.length)

theorem pRev_Inv (H : Str → Str) (hH : ∀ s, H s ≠ []) (st : Crawler) (pg : Page)
    (r : RevDesc) (seen uids : List Str) (hwf : WFRev r) (hinv : Inv st seen uids) :
    Inv (pRev H r (st, pg)).1 (idsRev (seen, uids) r).1 (idsRev (seen, uids) r).2 := by
  obtain ⟨rid, ts, c⟩ := r
  obtain ⟨hwrid, hwts, hwc⟩ := hwf
  obtain ⟨hg, hips, hcnt, hid, hnd, huids, hund, hrows, hcomma, hlab⟩ := hinv
  obtain ⟨hgp, hgr, hgu, hgs, hgi, hgc⟩ := hg
  rcases c with _ | (⟨uid, uname⟩ | ip | _)
  · simp only [idsRev]
    have hpair : (pRev H ⟨rid, ts, none⟩ (st, pg)).1 =
        bump (revTick { st with logs := st.logs ++ [LogMsg.revisionNoUser] })
          (revLines ⟨rid, ts, none⟩).length := by
      simp [pRev]
    rw [hpair]
    apply Inv_bump_revTick
    exact ⟨⟨hgp, hgr, hgu, hgs, hgi, hgc⟩, hips, hcnt, hid, hnd, huids, hund, hrows,
      hcomma, hlab⟩
  · have hwcr : (SimpleStr uid ∧ SimpleStr uname ∧ uname ≠ []) ∧ ts.isSome = true := hwc
    have hpair : (pRev H ⟨rid, ts, some (.registered uid uname)⟩ (st, pg)).1 =
        bump (revTick (pCommit st
          { user_id := some uid, name := some uname, is_new := false, ip := none }
          { revid := rid, month := ts.map fun t => t.take 7, sha1 := none } pg).1)
          (revLines ⟨rid, ts, some (.registered uid uname)⟩).length := by
      simp [pRev, pUser]
    rw [hpair]
    simp only [idsRev]
    apply Inv_bump_revTick
    exact Inv_commit st _ _ pg seen uids uid ⟨hgp, hgr, hgu, hgs⟩ hips hcnt hid hnd huids
      hrows hund hcomma hlab rfl
      (fun hm => (hwcr.1.1 ',' hm).2.2.1 rfl)
      (fun _ => ⟨b64encode (utf8Encode uname), by simp [userRow, ipTruthy, hwcr.1.2.2]⟩)
      (by simp [ipTruthy])
  · have hwca : (SimpleStr ip ∧ ip ≠ []) ∧ ts.isSome = true := hwc
    have hipne : ip ≠ [] := hwca.1.2
    by_cases hmem : ip ∈ st.ips
    · have hmem_seen : ip ∈ seen := by rwa [hips] at hmem
      have hidx := idxOf_lt_length seen ip hmem_seen
      have hlook : alookup st.ip2id ip = some (ipLabel (idxOf seen ip)) := by
        rw [hid, ip2idOf, alookup_ip2idOfAux_mem seen 0 ip hmem_seen]
        simp
      have hpair : (pRev H ⟨rid, ts, some (.anon ip)⟩ (st, pg)).1 =
          bump (revTick (pCommit st
            { user_id := alookup st.ip2id ip, name := none, is_new := false, ip := some ip }
            { revid := rid, month := ts.map fun t => t.take 7, sha1 := none } pg).1)
            (revLines ⟨rid, ts, some (.anon ip)⟩).length := by
        simp [pRev, pUser, hmem]
      rw [hpair]
      simp only [idsRev]
      rw [if_pos hmem_seen]
      apply Inv_bump_revTick
      exact Inv_commit st _ _ pg seen uids (ipLabel (idxOf seen ip)) ⟨hgp, hgr, hgu, hgs⟩
        hips hcnt hid hnd huids hrows hund hcomma hlab
        (by simp [hlook])
        (fun hm => (csvSafe_ipLabel _ ',' hm).1 rfl)
        (fun hn => absurd (hlab _ hidx) hn)
        (by simp [ipTruthy])
    · have hmem_seen : ip ∉ seen := fun h => hmem (by rwa [hips])
      have hpair : (pRev H ⟨rid, ts, some (.anon ip)⟩ (st, pg)).1 =
          bump (revTick (pCommit
            { st with ip2id := aset st.ip2id ip (ipLabel st.ip_count) }
            { user_id := some (ipLabel st.ip_count), name := some (H ip), is_new := true,
              ip := some ip }
            { revid := rid, month := ts.map fun t => t.take 7, sha1 := none } pg).1)
            (revLines ⟨rid, ts, some (.anon ip)⟩).length := by
        simp [pRev, pUser, hmem, User.add_name, Crawler.get_id_and_name_for_ip]
      rw [hpair]
      simp only [idsRev]
      rw [if_neg hmem_seen]
      apply Inv_bump_revTick
      have hid1 : ({ st with ip2id := aset st.ip2id ip (ipLabel st.ip_count) }).ip2id =
          ip2idOf (seen ++ [ip]) := by
        show aset st.ip2id ip (ipLabel st.ip_count) = _
        rw [hid, hcnt, aset_new (ip2idOf seen) ip (ipLabel seen.length)
          (fun p hp he => hmem_seen (he ▸ ip2idOfAux_keys seen 0 p hp)),
          ip2idOf, ip2idOf, ip2idOfAux_append seen 0 [ip]]
        simp [ip2idOfAux]
      have hres := Inv_commit_newip
        { st with ip2id := aset st.ip2id ip (ipLabel st.ip_count) }
        { user_id := some (ipLabel st.ip_count), name := some (H ip), is_new := true,
          ip := some ip }
        { revid := rid, month := ts.map fun t => t.take 7, sha1 := none } pg seen uids ip
        ⟨hgp, hgr, hgu, hgs⟩ hips hcnt hid1 hnd hmem_seen huids hrows hund hcomma hlab
        (by simp [hcnt]) rfl
        (fun _ => ⟨H ip, by simp [userRow, ipTruthy, hH ip, hipne, hcnt]⟩)
        (by simp [ipTruthy, hipne])
      have hlen : st.ip_count = seen.length := hcnt
      simpa [hlen] using hres
  · have hpair : (pRev H ⟨rid, ts, some .deleted⟩ (st, pg)).1 =
        bump (revTick (pCommit
          { st with deleted_user_edits := st.deleted_user_edits + 1 } create_deleted_user
          { revid := rid, month := ts.map fun t => t.take 7, sha1 := none } pg).1)
          (revLines ⟨rid, ts, some .deleted⟩).length := by
      simp [pRev, pUser]
    rw [hpair]
    simp only [idsRev]
    apply Inv_bump_revTick
    exact Inv_commit _ _ _ pg seen uids ['0'] ⟨hgp, hgr, hgu, hgs⟩ hips hcnt hid hnd huids
      hrows hund hcomma hlab rfl (by decide)
      (fun _ => ⟨b64encode (utf8Encode ("[Attribution Removed]".toList)),
        by simp [userRow, create_deleted_user, ipTruthy]⟩)
      (by simp [ipTruthy, create_deleted_user])

theorem Inv_revTick (Y : Crawler) (seen uids : List Str) (h : Inv Y seen uids) :
    Inv (revTick Y) seen uids := by
  obtain ⟨⟨g1, g2, g3, g4, g5, g6⟩, h2, h3, h4, h5, h6, h7, h8, h9, h10⟩ := h
  exact ⟨⟨by simp [g1], by simp [g2], by simp [g3], by simp [g4],
    by simpa using g5, by simpa using g6⟩,
    by simpa using h2, by simpa using h3, by simpa using h4, h5,
    by simpa using h6, h7, by simpa using h8, h9, h10⟩

theorem Inv_ticks : ∀ (n : Nat) (Y : Crawler) (seen uids : List Str), Inv Y seen uids →
    Inv (ticks Y n) seen uids := by
  intro n
  induction n with
  | zero => intro Y seen uids h; exact h
  | succ n ih => intro Y seen uids h; exact ih (revTick Y) seen uids (Inv_revTick Y seen uids h)

theorem Inv_bump (Y : Crawler) (k : Nat) (seen uids : List Str) (h : Inv Y seen uids) :
    Inv (bump Y k) seen uids := by
  obtain ⟨⟨g1, g2, g3, g4, g5, g6⟩, h2, h3, h4, h5, h6, h7, h8, h9, h10⟩ := h
  exact ⟨⟨by simp [bump, g1], by simp [bump, g2], by simp [bump, g3], by simp [bump, g4],
    by simpa [bump] using g5, by simpa [bump] using g6⟩,
    by simpa [bump] using h2, by simpa [bump] using h3, by simpa [bump] using h4, h5,
    by simpa [bump] using h6, h7, by simpa [bump] using h8, h9, h10⟩

theorem pCloseCore_ip_count (st : Crawler) (pg : Page) :
    (pCloseCore st pg).ip_count = st.ip_count := by
  by_cases hum : pg.user_months = [] <;> rcases hrow : pageRow pg <;>
    simp [pCloseCore, Crawler.write_output_line, hum, hrow]

theorem pCloseCore_user_ids (st : Crawler) (pg : Page) :
    (pCloseCore st pg).user_ids = st.user_ids := by
  by_cases hum : pg.user_months = [] <;> rcases hrow : pageRow pg <;>
    simp [pCloseCore, Crawler.write_output_line, hum, hrow]

theorem usersRowIds_closeCore (Y : Crawler) (pg : Page) :
    usersRowIds (pCloseCore Y pg).written = usersRowIds Y.written := by
  rw [pCloseCore_written, usersRowIds_append, usersRowIds_append]
  have h1 : usersRowIds (if pg.user_months = [] then [] else
      [(get_output_filename ("user_page_months_output".toList) (some []),
        if (['\n'] : Str).isSuffixOf (joinSep ['\n'] (upmLines pg)) then
          joinSep ['\n'] (upmLines pg) else joinSep ['\n'] (upmLines pg) ++ ['\n'])]) = [] := by
    split
    · rfl
    · exact usersRowIds_nonusers _ (by intro e he; simp at he; subst he; simp only []; decide)
  have h2 : usersRowIds (match pageRow pg with
      | some csv => [(get_output_filename ("pages_output".toList) none,
          if (['\n'] : Str).isSuffixOf csv then csv else csv ++ ['\n'])]
      | none => []) = [] := by
    rcases pageRow pg with _ | csv
    · rfl
    · exact usersRowIds_nonusers _ (by intro e he; simp at he; subst he; simp only []; decide)
  rw [h1, h2]
  simp

theorem Inv_closeCore (Y : Crawler) (pg : Page) (seen uids : List Str)
    (h : Inv Y seen uids) : Inv (pCloseCore Y pg) seen uids := by
  obtain ⟨⟨g1, g2, g3, g4, g5, g6⟩, h2, h3, h4, h5, h6, h7, h8, h9, h10⟩ := h
  have hcur := pCloseCore_current Y pg
  refine ⟨⟨hcur.1, hcur.2.1, hcur.2.2, ?_, ?_, ?_⟩, ?_, ?_, ?_, h5, ?_, h7, ?_, h9, h10⟩
  · rw [pCloseCore_split_by_year]
    exact g4
  · rw [pCloseCore_ips, pCloseCore_ip2id]
    exact g5
  · rw [pCloseCore_ip2id]
    exact g6
  · rw [pCloseCore_ips]
    exact h2
  · rw [pCloseCore_ip_count]
    exact h3
  · rw [pCloseCore_ip2id]
    exact h4
  · rw [pCloseCore_user_ids]
    exact h6
  · rw [usersRowIds_closeCore]
    exact h8

theorem pRevs_Inv (H : Str → Str) (hH : ∀ s, H s ≠ []) (rs : List RevDesc) :
    ∀ (st : Crawler) (pg : Page) (seen uids : List Str), (∀ r ∈ rs, WFRev r) →
    Inv st seen uids →
    Inv (pRevs H rs (st, pg)).1 (idsRevs rs (seen, uids)).1 (idsRevs rs (seen, uids)).2 := by
  induction rs with
  | nil => intro st pg seen uids _ h; exact h
  | cons r t ih =>
    intro st pg seen uids hwf h
    have hstep := pRev_Inv H hH st pg r seen uids (hwf r (by simp)) h
    have heta : ((pRev H r (st, pg)).1, (pRev H r (st, pg)).2) = pRev H r (st, pg) := rfl
    have hids : ((idsRev (seen, uids) r).1, (idsRev (seen, uids) r).2) =
        idsRev (seen, uids) r := rfl
    have := ih (pRev H r (st, pg)).1 (pRev H r (st, pg)).2
      (idsRev (seen, uids) r).1 (idsRev (seen, uids) r).2
      (fun r' hr => hwf r' (by simp [hr])) hstep
    rw [heta, hids] at this
    simpa [pRevs, idsRevs] using this

theorem pBlock_mainspace_only (H : Str → Str) (d : PageDesc) (st : Crawler) :
    (pBlock H d st).mainspace_only = st.mainspace_only := by
  unfold pBlock
  split
  · simp [bump, ticks_mainspace_only]
  · simp only [pClose, bump]
    rw [pCloseCore_mainspace_only, pRevs_fst_mainspace_only]

theorem pBlock_Inv (H : Str → Str) (hH : ∀ s, H s ≠ []) (d : PageDesc) (st : Crawler)
    (seen uids : List Str) (hwf : WFBlock d) (h : Inv st seen uids) :
    Inv (pBlock H d st) (idsBlock st.mainspace_only d (seen, uids)).1
      (idsBlock st.mainspace_only d (seen, uids)).2 := by
  unfold pBlock idsBlock
  by_cases hf : st.mainspace_only ∧ d.nsv ≠ ['0']
  · rw [if_pos hf, if_pos hf]
    exact Inv_bump _ _ _ _ (Inv_ticks _ _ _ _ h)
  · rw [if_neg hf, if_neg hf]
    have h1 : Inv (bump st (headerCount d)) seen uids := Inv_bump _ _ _ _ h
    have h2 := pRevs_Inv H hH d.revs (bump st (headerCount d)) (pPage0 d) seen uids
      hwf.2.2.2 h1
    exact Inv_bump _ _ _ _ (Inv_closeCore _ _ _ _ h2)

theorem pRun_Inv (H : Str → Str) (hH : ∀ s, H s ≠ []) (ds : List PageDesc) :
    ∀ (st : Crawler) (seen uids : List Str), WFRun ds → Inv st seen uids →
    Inv (pRun H ds st) (idsRun st.mainspace_only ds (seen, uids)).1
      (idsRun st.mainspace_only ds (seen, uids)).2 := by
  induction ds with
  | nil => intro st seen uids _ h; exact h
  | cons d t ih =>
    intro st seen uids hwf h
    have hstep := pBlock_Inv H hH d st seen uids (hwf d (by simp)) h
    have hids : ((idsBlock st.mainspace_only d (seen, uids)).1,
        (idsBlock st.mainspace_only d (seen, uids)).2) =
        idsBlock st.mainspace_only d (seen, uids) := rfl
    have := ih (pBlock H d st) (idsBlock st.mainspace_only d (seen, uids)).1
      (idsBlock st.mainspace_only d (seen, uids)).2
      (fun d' hd => hwf d' (by simp [hd])) hstep
    rw [hids, pBlock_mainspace_only] at this
    simpa [pRun, idsRun] using this

theorem idxOf_inj : ∀ (seen : List Str), seen.Nodup → ∀ ip1 ip2, ip1 ∈ seen → ip2 ∈ seen →
    idxOf seen ip1 = idxOf seen ip2 → ip1 = ip2 := by
  intro seen
  induction seen with
  | nil => intro _ ip1 ip2 h1; simp at h1
  | cons a t ih =>
    intro hnd ip1 ip2 h1 h2 heq
    have hnd2 := List.nodup_cons.mp hnd
    by_cases ha1 : a = ip1 <;> by_cases ha2 : a = ip2
    · rw [← ha1, ← ha2]
    · simp only [idxOf, if_pos ha1, if_neg ha2] at heq
      omega
    · simp only [idxOf, if_neg ha1, if_pos ha2] at heq
      omega
    · simp only [idxOf, if_neg ha1, if_neg ha2] at heq
      have h1t : ip1 ∈ t := by
        rcases List.mem_cons.mp h1 with h | h
        · exact absurd h.symm ha1
        · exact h
      have h2t : ip2 ∈ t := by
        rcases List.mem_cons.mp h2 with h | h
        · exact absurd h.symm ha2
        · exact h
      exact ih hnd2.2 ip1 ip2 h1t h2t (by omega)

theorem pRev_snd_name (H : Str → Str) (st : Crawler) (pg : Page) (r : RevDesc) :
    (pRev H r (st, pg)).2.name = pg.name := by
  obtain ⟨rid, ts, c⟩ := r
  rcases c with _ | c
  · simp [pRev]
  rcases hu : pUser H st c with ⟨s1, u1⟩
  rcases hc : pCommit s1 u1 { revid := rid, month := ts.map fun t => t.take 7, sha1 := none }
      pg with ⟨s2, p2⟩
  have hadd := pCommit_snd s1 u1
    { revid := rid, month := ts.map fun t => t.take 7, sha1 := none } pg
  rw [hc] at hadd
  simp at hadd
  have hp2 : (pRev H ⟨rid, ts, some c⟩ (st, pg)).2 = p2 := by
    simp [pRev, hu, hc]
  rw [hp2, hadd]
  unfold Page.add_user
  by_cases hmemu : u1.user_id ∈ pg.user_ids <;> simp [hmemu]

theorem pRevs_snd_name (H : Str → Str) (rs : List RevDesc) :
    ∀ (st : Crawler) (pg : Page), (pRevs H rs (st, pg)).2.name = pg.name := by
  induction rs with
  | nil => intro st pg; rfl
  | cons r t ih =>
    intro st pg
    have heta : pRev H r (st, pg) = ((pRev H r (st, pg)).1, (pRev H r (st, pg)).2) := rfl
    rw [pRevs, heta, ih]
    exact pRev_snd_name H st pg r

theorem pagesRecords_append (w1 w2 : List (Str × Str)) :
    pagesRecords (w1 ++ w2) = pagesRecords w1 ++ pagesRecords w2 := by
  simp [pagesRecords, List.filter_append]

theorem pagesRecords_other (ex : List (Str × Str)) (hall : ∀ e ∈ ex, e.1 ≠ pagesFile) :
    pagesRecords ex = [] := by
  unfold pagesRecords
  rw [List.filter_eq_nil_iff]
  intro e he
  simp [hall e he]

theorem goodSt_init (mo : Bool) : GoodSt (Crawler.init mo false) := by
  refine ⟨rfl, rfl, rfl, rfl, ?_, ?_⟩ <;> simp [Crawler.init]

theorem inv_init (mo : Bool) : Inv (Crawler.init mo false) [] [] := by
  refine ⟨goodSt_init mo, rfl, rfl, rfl, List.nodup_nil, rfl, List.nodup_nil, rfl, ?_, ?_⟩ <;>
    simp

theorem run_state (H : Str → Str) (mo : Bool) (ds : List PageDesc) (st' : Crawler)
    (hwf : WFRun ds)
    (hrun : processLines H (Crawler.init mo false) (runLines ds) = .ok st') :
    st' = pRun H ds (Crawler.init mo false) := by
  have h2 := processLines_run H ds (Crawler.init mo false) hwf (goodSt_init mo)
  rw [hrun] at h2
  exact (Except.ok.inj h2)

/-- C2: for a page block whose tags are properly nested, whose values are
scanner-safe and whose revisions carry a timestamp whenever they carry a
contributor, processing the block adds to the user-page-months output exactly
the number of revisions that have both a contributor and a timestamp. -/
theorem C2_edit_count_sum (H : Str → Str) (st : Crawler) (d : PageDesc) (st' : Crawler)
    (hwf : WFBlock d) (hgood : GoodSt st)
    (hopen : st.mainspace_only = false ∨ d.nsv = ['0'])
    (hrun : processLines H st (blockLines d) = .ok st') :
    sumUpmRecords st'.written = sumUpmRecords st.written + countQual d.revs := by
  have hblk := processLines_block H st d hwf hgood
  rw [hrun] at hblk
  rw [Except.ok.inj hblk]
  exact pBlock_upm_sum H st d hwf hgood hopen

/-- C4 (amended): in a well-formed run from a fresh crawler, the memo table
assigns every seen IP a label of the form IP:i with i below the number of
seen IPs, and two distinct seen IPs never share a label. -/
theorem C4_fresh_sequential_ids (H : Str → Str) (hH : ∀ s, H s ≠ []) (mo : Bool)
    (ds : List PageDesc) (st' : Crawler) (hwf : WFRun ds)
    (hrun : processLines H (Crawler.init mo false) (runLines ds) = .ok st')
    (ip1 ip2 : Str) (h1 : ip1 ∈ st'.ips) (h2 : ip2 ∈ st'.ips) (hne : ip1 ≠ ip2) :
    (∃ i1, alookup st'.ip2id ip1 = some (ipLabel i1) ∧ i1 < st'.ips.length) ∧
    alookup st'.ip2id ip1 ≠ alookup st'.ip2id ip2 := by
  have hst := run_state H mo ds st' hwf hrun
  subst hst
  have hinv := pRun_Inv H hH ds (Crawler.init mo false) [] [] hwf (inv_init mo)
  obtain ⟨hg, hips, hcnt, hid, hnd, huids, hund, hrows, hcomma, hlab⟩ := hinv
  have h1s : ip1 ∈ (idsRun (Crawler.init mo false).mainspace_only ds ([], [])).1 := by
    rwa [hips] at h1
  have h2s : ip2 ∈ (idsRun (Crawler.init mo false).mainspace_only ds ([], [])).1 := by
    rwa [hips] at h2
  have hl1 : alookup (pRun H ds (Crawler.init mo false)).ip2id ip1 =
      some (ipLabel (idxOf (idsRun (Crawler.init mo false).mainspace_only ds ([], [])).1 ip1)) := by
    rw [hid, ip2idOf, alookup_ip2idOfAux_mem _ 0 ip1 h1s]
    simp
  have hl2 : alookup (pRun H ds (Crawler.init mo false)).ip2id ip2 =
      some (ipLabel (idxOf (idsRun (Crawler.init mo false).mainspace_only ds ([], [])).1 ip2)) := by
    rw [hid, ip2idOf, alookup_ip2idOfAux_mem _ 0 ip2 h2s]
    simp
  constructor
  · refine ⟨_, hl1, ?_⟩
    rw [hips]
    exact idxOf_lt_length _ ip1 h1s
  · intro heq
    rw [hl1, hl2] at heq
    have := ipLabel_inj (Option.some.inj heq)
    exact hne (idxOf_inj _ hnd ip1 ip2 h1s h2s this)

/-- C5 (amended): once an IP has been committed in a well-formed run, a later
resolution of the same IP returns the memoized identifier, changes neither
the memo table nor the counter, and the identifier already has its
users-table registration, so a later commit writes no second row. -/
theorem C5_memoized_resolution (H : Str → Str) (hH : ∀ s, H s ≠ []) (mo : Bool)
    (ds : List PageDesc) (st' : Crawler) (hwf : WFRun ds)
    (hrun : processLines H (Crawler.init mo false) (runLines ds) = .ok st')
    (ip : Str) (hsv : SimpleStr ip) (hip : ip ∈ st'.ips) (u : User) (pg : Page) :
    ∃ uid, alookup st'.ip2id ip = some uid ∧
      Crawler.process_line H
        { st' with current_page := some pg, current_user := some u }
        (leafLine ("ip".toList) ip) =
        .ok { st' with
          current_page := some pg
          current_user := some { u with ip := some ip, user_id := some uid } } ∧
      some uid ∈ st'.user_ids ∧
      ∀ rv pg2, (pCommit st'
          { u with
            ip := some ip
            user_id := some uid
            is_new := false } rv pg2).1.written = st'.written ∧
        (pCommit st'
          { u with
            ip := some ip
            user_id := some uid
            is_new := false } rv pg2).1.ip_count = st'.ip_count := by
  have hst := run_state H mo ds st' hwf hrun
  subst hst
  have hinv := pRun_Inv H hH ds (Crawler.init mo false) [] [] hwf (inv_init mo)
  obtain ⟨hg, hips, hcnt, hid, hnd, huids, hund, hrows, hcomma, hlab⟩ := hinv
  have hips2 : ip ∈ (idsRun (Crawler.init mo false).mainspace_only ds ([], [])).1 := by
    rwa [hips] at hip
  have hidx := idxOf_lt_length _ ip hips2
  have hlook : alookup (pRun H ds (Crawler.init mo false)).ip2id ip =
      some (ipLabel (idxOf (idsRun (Crawler.init mo false).mainspace_only ds ([], [])).1 ip)) := by
    rw [hid, ip2idOf, alookup_ip2idOfAux_mem _ 0 ip hips2]
    simp
  refine ⟨_, hlook, ?_, ?_, ?_⟩
  · exact processLine_leaf_ip_mem H _ ip pg u _ hsv rfl rfl (by simpa using hip)
      (by simpa using hlook)
  · rw [huids]
    simp only [List.mem_map]
    exact ⟨_, hlab _ hidx, rfl⟩
  · intro rv pg2
    have hmem : ({ u with
        ip := some ip
        user_id := some (ipLabel (idxOf (idsRun (Crawler.init mo false).mainspace_only ds
          ([], [])).1 ip))
        is_new := false } : User).user_id ∈
        (pRun H ds (Crawler.init mo false)).user_ids := by
      show some _ ∈ _
      rw [huids]
      simp only [List.mem_map]
      exact ⟨_, hlab _ hidx, rfl⟩
    constructor
    · rw [pCommit_fst_written_eq, if_pos hmem]
    · rw [pCommit_fst_ip_count]
      simp

/-- C6 (amended): a redacted contributor resolves to the constant synthetic
identity with id "0" and bumps the diagnostic counter; at commit this
identity is registered in the run-wide id set and users table exactly like
any other id: added and written once when absent, skipped when present. -/
theorem C6_deleted_identity (H : Str → Str) (st : Crawler) (pg : Page)
    (hpg : st.current_page = some pg) :
    Crawler.process_line H st deletedLine =
      .ok { st with
        current_user := some create_deleted_user
        deleted_user_edits := st.deleted_user_edits + 1 } ∧
    create_deleted_user.user_id = some ['0'] ∧
    create_deleted_user.is_new = false ∧
    (∀ rv pg2, some ['0'] ∈ st.user_ids →
      (pCommit st create_deleted_user rv pg2).1.written = st.written ∧
      (pCommit st create_deleted_user rv pg2).1.user_ids = st.user_ids) ∧
    (∀ rv pg2, some ['0'] ∉ st.user_ids →
      (pCommit st create_deleted_user rv pg2).1.user_ids = st.user_ids ++ [some ['0']]) := by
  refine ⟨processLine_deleted H st pg hpg, rfl, rfl, ?_, ?_⟩
  · intro rv pg2 hmem
    constructor
    · rw [pCommit_fst_written_eq, if_pos (by exact hmem)]
    · rw [pCommit_fst_user_ids, if_pos (by exact hmem)]
  · intro rv pg2 hmem
    rw [pCommit_fst_user_ids, if_neg (by exact hmem)]
    rfl

/-- C7 (amended): an opening page tag while a page is already open silently
replaces the open page with a fresh one: nothing is logged, nothing is
written out, and the old page is discarded without being finalized. -/
theorem C7_silent_replace (H : Str → Str) (st : Crawler) (pg : Page)
    (hpg : st.current_page = some pg) :
    Crawler.process_line H st (openLine ("page".toList)) =
      .ok { st with current_page := some Page.init } ∧
    ({ st with current_page := some Page.init } : Crawler).written = st.written ∧
    ({ st with current_page := some Page.init } : Crawler).logs = st.logs := by
  exact ⟨processLine_open_page H st, rfl, rfl⟩

/-- C8: with mainspace-only filtering on, a block whose namespace value is
not "0" writes nothing to any output table. -/
theorem C8_ns_filter (H : Str → Str) (st : Crawler) (d : PageDesc) (st' : Crawler)
    (hwf : WFBlock d) (hgood : GoodSt st) (hmo : st.mainspace_only = true)
    (hns : d.nsv ≠ ['0'])
    (hrun : processLines H st (blockLines d) = .ok st') :
    st'.written = st.written := by
  have hblk := processLines_block_filtered H st d hwf hgood hmo hns
  rw [hrun] at hblk
  rw [Except.ok.inj hblk]
  rw [bump_written, ticks_written]

/-- C10: a well-formed block with no title still has its fact rows written to
the user-page-months output and its contributors registered in the
users-table rows exactly as they would be for a titled block (the ids fold
`idsBlock` never looks at the title), while the pages table gets no row
for it. -/
theorem C10_nameless_page (H : Str → Str) (hH : ∀ s, H s ≠ [])
    (st : Crawler) (d : PageDesc) (st' : Crawler) (seen uids : List Str)
    (hwf : WFBlock d) (hinv : Inv st seen uids)
    (hopen : st.mainspace_only = false ∨ d.nsv = ['0'])
    (htitle : d.title = none)
    (hrun : processLines H st (blockLines d) = .ok st') :
    pagesRecords st'.written = pagesRecords st.written ∧
    sumUpmRecords st'.written = sumUpmRecords st.written + countQual d.revs ∧
    usersRowIds st'.written = (idsBlock st.mainspace_only d (seen, uids)).2 ∧
    ∀ t, idsBlock st.mainspace_only { d with title := t } (seen, uids) =
      idsBlock st.mainspace_only d (seen, uids) := by
  have hgood : GoodSt st := hinv.1
  have hblk := processLines_block H st d hwf hgood
  rw [hrun] at hblk
  rw [Except.ok.inj hblk]
  obtain ⟨-, -, -, -, -, -, -, hrows, -, -⟩ := pBlock_Inv H hH d st seen uids hwf hinv
  refine ⟨?_, pBlock_upm_sum H st d hwf hgood hopen, hrows, fun t => rfl⟩
  unfold pBlock
  rw [if_neg (by
    rintro ⟨hx1, hx2⟩
    rcases hopen with h | h
    · rw [h] at hx1
      exact Bool.false_ne_true hx1
    · exact hx2 h)]
  simp only [pClose, bump_written]
  rw [pCloseCore_written]
  have hname : (pRevs H d.revs (bump st (headerCount d), pPage0 d)).2.name = none := by
    rw [pRevs_snd_name]
    simp [pPage0, htitle]
  have hrow : pageRow (pRevs H d.revs (bump st (headerCount d), pPage0 d)).2 = none := by
    unfold pageRow
    rw [hname]
  rw [hrow]
  obtain ⟨ex, hex, hall⟩ := pRevs_written H d.revs (bump st (headerCount d)) (pPage0 d)
  have hexw : (pRevs H d.revs (bump st (headerCount d), pPage0 d)).1.written =
      st.written ++ ex := by
    rw [hex]
    simp [bump]
  rw [hexw]
  have hex0 : pagesRecords ex = [] :=
    pagesRecords_other ex (fun e he => by rw [hall e he]; decide)
  have hchunk0 : pagesRecords (if (pRevs H d.revs (bump st (headerCount d),
      pPage0 d)).2.user_months = [] then [] else
      [(get_output_filename ("user_page_months_output".toList) (some []),
        if (['\n'] : Str).isSuffixOf (joinSep ['\n']
          (upmLines (pRevs H d.revs (bump st (headerCount d), pPage0 d)).2)) then
          joinSep ['\n'] (upmLines (pRevs H d.revs (bump st (headerCount d), pPage0 d)).2)
        else joinSep ['\n']
          (upmLines (pRevs H d.revs (bump st (headerCount d), pPage0 d)).2) ++ ['\n'])]) =
      [] := by
    split
    · rfl
    · exact pagesRecords_other _ (by intro e he; simp at he; subst he; simp only []; decide)
  rw [pagesRecords_append, pagesRecords_append, pagesRecords_append, hex0, hchunk0]
  simp [pagesRecords]


/-- C1: a `username` leaf arriving inside a page while no contributor is
open crashes the scan with an AttributeError instead of being logged and
skipped. -/
theorem C1_crash :
    processLines hashC (Crawler.init false false)
      [openLine ("page".toList), leafLine ("username".toList) ['v']] =
      .error .attributeError := by
  rfl

/-- C3: a revision closing with a contributor but no timestamp is accepted
at `</revision>` but poisons the page's counter table with an absent
month, so the page's close crashes with a TypeError instead of dropping
the revision with a warning. -/
theorem C3_bug :
    processLines hashC (Crawler.init false false) (blockLines dC3) =
      .error .typeError := by
  rfl

/-- A well-formed block whose fact rows sum to its qualifying-revision
count, instantiating the C2 theorem. -/
theorem C2_witness :
    sumUpmRecords stC2.written =
      sumUpmRecords (Crawler.init false false).written + countQual dC2.revs :=
  C2_edit_count_sum hashC (Crawler.init false false) dC2 stC2 (by decide)
    (goodSt_init false) (Or.inl rfl) rfl

/-- A properly nested block (every revision closed inside it) with one
qualifying revision on which processing dies with a TypeError, so no fact
rows at all are emitted for the page: the unamended C2 fails on it. -/
theorem C2_counterexample :
    processLines hashC (Crawler.init false false) (blockLines dC2x) =
      .error .typeError ∧
    countQual dC2x.revs = 1 := by
  exact ⟨rfl, rfl⟩

/-- A two-IP run instantiating the C4 theorem: the first IP's label is
IP:<i> with i in range, and the two distinct IPs get distinct labels. -/
theorem C4_witness :
    (∃ i1, alookup stC4.ip2id ipA = some (ipLabel i1) ∧ i1 < stC4.ips.length) ∧
    alookup stC4.ip2id ipA ≠ alookup stC4.ip2id ipB :=
  C4_fresh_sequential_ids hashC (fun _ => List.cons_ne_nil 'h' []) true dsC4 stC4
    (by decide) rfl ipA ipB (by decide) (by decide) (by decide)

/-- A run in which a mid-revision namespace discard throws away the commit
of the first IP's resolution without rolling back its memo entry: the
counter never moves, and a second, distinct IP is then issued the same
identifier IP:0, refuting the unamended C4. -/
theorem C4_counterexample :
    processLines hashC (Crawler.init true false) c4lines = .ok stC4x ∧
    ipA ≠ ipB ∧
    alookup stC4x.ip2id ipA = some (ipLabel 0) ∧
    alookup stC4x.ip2id ipB = some (ipLabel 0) ∧
    stC4x.ip_count = 1 := by
  exact ⟨rfl, by decide, rfl, rfl, rfl⟩

/-- A committed IP of a well-formed run instantiating the C5 theorem: the
lookup is memoized, a further `ip` leaf resolves to the same identifier,
and a further commit writes no second users row. -/
theorem C5_witness :
    ∃ uid, alookup stC4.ip2id ipA = some uid ∧
      Crawler.process_line hashC
        { stC4 with
          current_page := some Page.init
          current_user := some User.init }
        (leafLine ("ip".toList) ipA) =
        .ok { stC4 with
          current_page := some Page.init
          current_user := some { User.init with ip := some ipA, user_id := some uid } } ∧
      some uid ∈ stC4.user_ids ∧
      ∀ rv pg2, (pCommit stC4
          { User.init with
            ip := some ipA
            user_id := some uid
            is_new := false } rv pg2).1.written = stC4.written ∧
        (pCommit stC4
          { User.init with
            ip := some ipA
            user_id := some uid
            is_new := false } rv pg2).1.ip_count = stC4.ip_count :=
  C5_memoized_resolution hashC (fun _ => List.cons_ne_nil 'h' []) true dsC4 stC4
    (by decide) rfl ipA (by decide) (by decide) User.init Page.init

/-- A run resolving the same IP twice where the second resolution returns
a different identifier (IP:1 after IP:0), the counter moves again, and a
second users row is registered, refuting the unamended C5: the membership
test guarding memoization consults the set of committed IPs, not the memo
table, so a resolution whose commit was discarded is re-assigned. -/
theorem C5_counterexample :
    processLines hashC (Crawler.init true false) c4lines = .ok stC4x ∧
    alookup stC4x.ip2id ipA = some (ipLabel 0) ∧
    processLines hashC (Crawler.init true false) c5lines = .ok stC5x ∧
    alookup stC5x.ip2id ipA = some (ipLabel 1) ∧
    stC4x.ip_count = 1 ∧ stC5x.ip_count = 2 ∧
    stC5x.user_ids = [some (ipLabel 0), some (ipLabel 1)] := by
  exact ⟨rfl, rfl, rfl, rfl, rfl, rfl, rfl⟩

/-- A deleted-contributor tag on an open page instantiating the C6
theorem. -/
theorem C6_witness :
    Crawler.process_line hashC stC6 deletedLine =
      .ok { stC6 with
        current_user := some create_deleted_user
        deleted_user_edits := stC6.deleted_user_edits + 1 } :=
  (C6_deleted_identity hashC stC6 Page.init rfl).1

/-- A block with one redacted contributor after which the synthetic id "0"
sits in the run-wide id registry and one users row has been written for
it, refuting the unamended C6's claim that it is never registered. -/
theorem C6_counterexample :
    processLines hashC (Crawler.init false false) (blockLines dC6) = .ok stC6x ∧
    some ['0'] ∈ stC6x.user_ids ∧
    (stC6x.written.filter (fun r => r.1 = usersFile)).length = 1 ∧
    stC6x.deleted_user_edits = 1 := by
  exact ⟨rfl, by decide, rfl, rfl⟩

/-- A page-open tag on a state with a page already open instantiating the
C7 theorem. -/
theorem C7_witness :
    Crawler.process_line hashC stC6 (openLine ("page".toList)) =
      .ok { stC6 with current_page := some Page.init } :=
  (C7_silent_replace hashC stC6 Page.init rfl).1

/-- A dump whose second page-open arrives while a page with title,
namespace and id is still open: afterwards nothing has been written and
nothing logged — the old page was neither finalized nor the violation
recorded, refuting the unamended C7. -/
theorem C7_counterexample :
    processLines hashC (Crawler.init false false) c7lines = .ok stC7x ∧
    stC7x.written = [] ∧ stC7x.logs = [] ∧ stC7x.current_page = some Page.init := by
  exact ⟨rfl, rfl, rfl, rfl⟩

/-- A namespace-"5" block under mainspace-only filtering instantiating the
C8 theorem: the written outputs are unchanged. -/
theorem C8_witness : stC8.written = (Crawler.init true false).written :=
  C8_ns_filter hashC (Crawler.init true false) dC8 stC8 (by decide)
    (goodSt_init true) rfl (by decide) rfl

/-- A titleless block instantiating the C10 theorem: no pages row appears,
the fact rows carry its qualifying revision, and its contributor is
registered in the users-table rows just as for a titled block. -/
theorem C10_witness :
    pagesRecords stC10.written = pagesRecords (Crawler.init false false).written ∧
    sumUpmRecords stC10.written =
      sumUpmRecords (Crawler.init false false).written + countQual dC10.revs ∧
    usersRowIds stC10.written =
      (idsBlock (Crawler.init false false).mainspace_only dC10 ([], [])).2 ∧
    ∀ t, idsBlock (Crawler.init false false).mainspace_only
        { dC10 with title := t } ([], []) =
      idsBlock (Crawler.init false false).mainspace_only dC10 ([], []) :=
  C10_nameless_page hashC (fun _ => List.cons_ne_nil 'h' [])
    (Crawler.init false false) dC10 stC10 [] [] (by decide) (inv_init false)
    (Or.inl rfl) rfl rfl

/-- A non-ASCII one-character title round-tripping through the CSV
encoding, instantiating the C9 theorem. -/
theorem C9_witness :
    ∃ csv : Str,
      Page.to_csv { Page.init with
        name := some ['é']
        page_id := some ['1']
        nspace := some ['0']
        is_redirect := false } = Except.ok (some csv, []) ∧
      ∃ pg' : Page, Page.from_csv Page.init csv = Except.ok (pg', []) ∧
        pg'.name = some ['é'] ∧ pg'.page_id = some ['1'] ∧ pg'.nspace = some ['0'] ∧
        pg'.is_redirect = false :=
  C9_roundtrip ['é'] ['1'] ['0'] false (by decide) (by decide) (by decide)

end DumpsterDiver
